import Mathlib

/-!
# Spline1D.h: cubic spline construction, evaluation and top-K maxima

A shallow embedding of `src/spline/Spline1D.h`; `src/binaryIO/bytes.h` and
`src/binaryIO/binaryIO.h` follow the spline definitions.

* Scalars are the elements of a linearly ordered field `F` (exact arithmetic);
  concrete inputs are evaluated over `ℚ`, and over `ℝ` with `Real.sqrt` where the
  branch taken depends on `std::sqrt`.
* An Eigen array is a total map `Nat → F` of cells together with its extent;
  a write is `Function.update`, a slice assignment a pointwise `if`.
* `Eigen::Index` expressions that stay non-negative are written over `Nat`.
* The `assert`s of the class make `set`, `_SetSpline` and `maxima` return `none`.
* `operator()` takes its row index from a search or from the caller, so its reads
  are checked against the extents of `_breaks` and `_coeffs`: a read outside an
  array is `none`. Inside `_SetSpline` and `maxima` the cells are read and written
  as the statements say; a slice whose length is not positive assigns nothing.
* `resize` hands out uninitialised cells; they are the parameters `ub`, `uc`.
* `std::lower_bound`, `std::upper_bound` are the halving searches of the standard
  library, `std::copy_backward` its cell-by-cell loop.
-/

set_option linter.dupNamespace false

namespace Spline

/-! ## `std::lower_bound`, `std::upper_bound`, `std::copy_backward` -/

section StdAlgorithms

variable {F : Type} [LinearOrderedField F]

/-- Loop of `std::lower_bound(first, first+len, val, std::greater<Scalar>())`:
`half = len >> 1; middle = first + half;` when `*middle > val` continue right of
`middle` with `len - half - 1` cells, otherwise continue with the left `half`.
The first argument bounds the number of iterations. -/
def lower_bound_loop (a : Nat → F) (val : F) : Nat → Nat → Nat → Nat
  | 0, first, _ => first
  | fuel + 1, first, len =>
    if len = 0 then first
    else if val < a (first + len / 2) then
      lower_bound_loop a val fuel (first + len / 2 + 1) (len - len / 2 - 1)
    else lower_bound_loop a val fuel first (len / 2)

/-- Call `std::lower_bound(first, last, val, std::greater<Scalar>())` on cells of `a`. -/
def lower_bound (a : Nat → F) (first last : Nat) (val : F) : Nat :=
  lower_bound_loop a val (last - first) first (last - first)

/-- Loop of `std::upper_bound(first, first+len, val)`: when `val < *middle`
continue with the left `half`, otherwise right of `middle`. -/
def upper_bound_loop (a : Nat → F) (val : F) : Nat → Nat → Nat → Nat
  | 0, first, _ => first
  | fuel + 1, first, len =>
    if len = 0 then first
    else if val < a (first + len / 2) then upper_bound_loop a val fuel first (len / 2)
    else upper_bound_loop a val fuel (first + len / 2 + 1) (len - len / 2 - 1)

/-- Call `std::upper_bound(first, last, val)` on cells of `a`. -/
def upper_bound (a : Nat → F) (first last : Nat) (val : F) : Nat :=
  upper_bound_loop a val (last - first) first (last - first)

/-- Loop of `std::copy_backward`: `while (first != last) *(--d_last) = *(--last);`
the first argument is the number of cells left, `last - first`. -/
def copy_backward_loop : Nat → Nat → Nat → (Nat → F) → Nat → F
  | 0, _, _, a => a
  | k + 1, last, d_last, a =>
    copy_backward_loop k (last - 1) (d_last - 1)
      (Function.update a (d_last - 1) (a (last - 1)))

/-- Call `std::copy_backward(first, last, d_last)` inside one array `a`. -/
def copy_backward (a : Nat → F) (first last d_last : Nat) : Nat → F :=
  copy_backward_loop (last - first) last d_last a

end StdAlgorithms

/-! ## `CriticalPointArray<_T,_Size>` -/

/-- State of a `CriticalPointArray<_T,_Size>`: `_array` has `2*Size` cells, the
abscissas in cells `0..Size-1` and the ordinates in cells `Size..2*Size-1`;
`_length` entries are in use. -/
structure CriticalPointArray (F : Type) where
  _array : Nat → F
  _length : Nat

namespace CriticalPointArray

variable {F : Type} [LinearOrderedField F]

/-- `CriticalPointArray()` and `Zero()`: `PointArray::Zero()`, length 0. -/
def Zero : CriticalPointArray F := ⟨fun _ => 0, 0⟩

/-- `setZero()`: `(*this) = Zero()`. -/
def setZero (_c : CriticalPointArray F) : CriticalPointArray F := Zero

/-- `full()`: `return _length < Size;`. -/
def full (Size : Nat) (c : CriticalPointArray F) : Bool := decide (c._length < Size)

/-- `size()`. -/
def size (c : CriticalPointArray F) : Nat := c._length

/-- `x(i)`: `_array(i)`. -/
def x (c : CriticalPointArray F) (i : Nat) : F := c._array i

/-- `y(i)`: `_array(i+Size)`. -/
def y (Size : Nat) (c : CriticalPointArray F) (i : Nat) : F := c._array (i + Size)

/-- `Save(x, y)`, statement by statement. The index `_length-2+Size` of the
full branch is signed arithmetic in the source; it is never negative there and
is written `_length + Size - 2`. -/
def Save (Size : Nat) (c : CriticalPointArray F) (x y : F) : CriticalPointArray F :=
  let a := c._array
  let len := c._length
  if len < Size then
    if len = 0 then
      let a1 := Function.update a len x
      let a2 := Function.update a1 (len + Size) y
      ⟨a2, len + 1⟩
    else if len = 1 then
      if a (0 + Size) < y then
        let a1 := Function.update a 1 (a 0)
        let a2 := Function.update a1 (1 + Size) (a1 (0 + Size))
        let a3 := Function.update a2 0 x
        let a4 := Function.update a3 (0 + Size) y
        ⟨a4, len + 1⟩
      else
        let a1 := Function.update a 1 x
        let a2 := Function.update a1 (1 + Size) y
        ⟨a2, len + 1⟩
    else
      if a (len - 1 + Size) < y then
        let min_elem := lower_bound a Size (Size + len) y
        let a1 := copy_backward a min_elem (Size + len) (Size + len + 1)
        let a2 := copy_backward a1 (min_elem - Size) len (len + 1)
        let a3 := Function.update a2 (min_elem - Size) x
        let a4 := Function.update a3 min_elem y
        ⟨a4, len + 1⟩
      else
        let a1 := Function.update a len x
        let a2 := Function.update a1 (len + Size) y
        ⟨a2, len + 1⟩
  else if a (len + Size - 2) < y then
    let min_elem := lower_bound a Size (Size + len - 1) y
    let a1 := copy_backward a min_elem (Size + len - 1) (Size + len)
    let a2 := copy_backward a1 (min_elem - Size) (len - 1) len
    let a3 := Function.update a2 (min_elem - Size) x
    let a4 := Function.update a3 min_elem y
    ⟨a4, len⟩
  else if a (len - 1 + Size) < y then
    let a1 := Function.update a (len - 1) x
    let a2 := Function.update a1 (len - 1 + Size) y
    ⟨a2, len⟩
  else c

/-- A sequence of `Save` calls, in order, starting from `c`. -/
def SaveAll (Size : Nat) (c : CriticalPointArray F) (ps : List (F × F)) :
    CriticalPointArray F :=
  ps.foldl (fun c p => Save Size c p.1 p.2) c

/-- The ordinates in use, `y(0), ..., y(size-1)`. -/
def ys (Size : Nat) (c : CriticalPointArray F) : List F :=
  (List.range c._length).map (fun i => y Size c i)

/-- The abscissas in use, `x(0), ..., x(size-1)`. -/
def xs (c : CriticalPointArray F) : List F :=
  (List.range c._length).map (fun i => x c i)

/-- Size bound and descending order of the ordinates in use. -/
def Ordered (Size : Nat) (c : CriticalPointArray F) : Prop :=
  c._length ≤ Size ∧ ∀ i j, i < j → j < c._length → y Size c j ≤ y Size c i

end CriticalPointArray

/-! ## `Spline<_Scalar,_Size>` -/

/-- State of a `Spline<_Scalar,_Size>`: `_num_breaks`, the cells of `_breaks`
and of `_coeffs` (`_coeffs i k` is `_coeffs(i,k)`), and the extents of the two
arrays, `_breaks.size()` and `_coeffs.rows()`. -/
structure Spline (F : Type) where
  _num_breaks : Nat
  breaks_size : Nat
  coeffs_rows : Nat
  _breaks : Nat → F
  _coeffs : Nat → Nat → F

namespace Spline

variable {F : Type} [LinearOrderedField F]

/-- Coefficient `x(i)` of an input array. -/
def elem (x : List F) (i : Nat) : F := x.getD i 0

/-- `_AssertSize(x,y)` for inputs of run-time size: `y.size() == x.size()`,
`x.size() > 1`, and `BreaksSize >= x.size()` for a spline of fixed capacity
(`BreaksSize = none` is `Eigen::Dynamic`). -/
def _AssertSize (BreaksSize : Option Nat) (x y : List F) : Bool :=
  decide (y.length = x.length) && decide (1 < x.length) &&
    (match BreaksSize with
     | none => true
     | some N => decide (x.length ≤ N))

/-- The assertion of line 251: `(x.segment(1,n-1) > x.segment(0,n-1)).all()`. -/
def ascending (x : List F) : Bool :=
  decide (∀ i, i < x.length - 1 → elem x i < elem x (i + 1))

/-- Lines 242-248: `_num_breaks = x.size()` and, for a dynamic spline whose
`_breaks` is too small, `resize`; the cells of the resized arrays are
uninitialised and are given by `ub`, `uc`. -/
def prepare (BreaksSize : Option Nat) (ub : Nat → F) (uc : Nat → Nat → F)
    (s : Spline F) (n : Nat) : Spline F :=
  match BreaksSize with
  | none =>
    if s.breaks_size < n then
      { _num_breaks := n, breaks_size := n, coeffs_rows := n - 1, _breaks := ub, _coeffs := uc }
    else { s with _num_breaks := n }
  | some _ => { s with _num_breaks := n }

/-- The arrays `_SetSpline` works on: `_breaks` and the four columns
`_coeffs.col(0)`, ..., `_coeffs.col(3)`. -/
structure Work (F : Type) where
  br : Nat → F
  c0 : Nat → F
  c1 : Nat → F
  c2 : Nat → F
  c3 : Nat → F

/-- The arrays of a spline, column by column. -/
def load (s : Spline F) : Work F :=
  { br := s._breaks, c0 := fun i => s._coeffs i 0, c1 := fun i => s._coeffs i 1,
    c2 := fun i => s._coeffs i 2, c3 := fun i => s._coeffs i 3 }

/-- Write the arrays back; a column other than 0..3 does not exist. -/
def store (s : Spline F) (w : Work F) : Spline F :=
  { s with
    _breaks := w.br,
    _coeffs := fun i k =>
      if k = 0 then w.c0 i else if k = 1 then w.c1 i else if k = 2 then w.c2 i
      else if k = 3 then w.c3 i else s._coeffs i k }

/-- Lines 255-261, the branch `n == 2`. -/
def build_two (w : Work F) (x y : List F) : Work F :=
  let br := Function.update w.br 0 (elem x 0)
  let br := Function.update br 1 (elem x 1)
  let c0 := Function.update w.c0 0 ((elem y 1 - elem y 0) / (elem x 1 - elem x 0))
  let c1 := Function.update w.c1 0 (elem y 0)
  { w with br := br, c0 := c0, c1 := c1 }

/-- Lines 263-277: segment lengths, slopes, right-hand side, main diagonal and
sub-diagonal. A slice whose length `n-4` or `n-3` is not positive assigns
nothing. -/
def assemble (n : Nat) (w : Work F) (x y : List F) : Work F :=
  -- auxiliar
  let br : Nat → F := fun i => if i < n - 1 then elem x (i + 1) - elem x i else w.br i
  let c2 : Nat → F := fun i => if i < n - 1 then (elem y (i + 1) - elem y i) / br i else w.c2 i
  -- RHS
  let c1 : Nat → F := Function.update w.c1 0 0
  let c1 : Nat → F := fun i => if 1 ≤ i ∧ i < 1 + (n - 2) then 3 * (c2 i - c2 (i - 1)) else c1 i
  -- main diagonal (with boundary conditions)
  let c3 : Nat → F :=
    fun i => if 1 ≤ i ∧ i < 1 + (n - 4) then 2 * (elem x (i + 2) - elem x i) else w.c3 i
  let c3 : Nat → F := Function.update c3 0 (2 * (elem x 2 - elem x 0))
  let c3 : Nat → F := Function.update c3 (n - 3) (2 * (elem x (n - 1) - elem x (n - 3)))
  -- sub-diagonal
  let c0 : Nat → F := fun i => if i < n - 3 then br (i + 1) else w.c0 i
  { br := br, c0 := c0, c1 := c1, c2 := c2, c3 := c3 }

/-- Working registers of the elimination: columns 0 and 1 of `_coeffs` and `l`. -/
structure Sweep (F : Type) where
  c0 : Nat → F
  c1 : Nat → F
  l : F

/-- Body of the elimination loop, lines 285-288, at index `i`. -/
def forward_step (c3 : Nat → F) (i : Nat) (w : Sweep F) : Sweep F :=
  let d := 1 / (c3 i - w.c0 (i - 1) * w.l)
  let c1 := Function.update w.c1 (i + 1) ((w.c1 (i + 1) - w.c1 i * w.l) * d)
  let l := w.c0 i
  let c0 := Function.update w.c0 i (w.c0 i * d)
  { c0 := c0, c1 := c1, l := l }

/-- The loop `for (i = 1; i < n-2; ++i)` after its first `k` iterations
`i = 1, ..., k`. -/
def forward_loop (c3 : Nat → F) : Nat → Sweep F → Sweep F
  | 0, w => w
  | k + 1, w => forward_step c3 (k + 1) (forward_loop c3 k w)

/-- Body of the back substitution, line 291, at index `i`. -/
def backward_step (c0 : Nat → F) (i : Nat) (c1 : Nat → F) : Nat → F :=
  Function.update c1 (i + 1) (c1 (i + 1) - c0 i * c1 (i + 2))

/-- The loop `for (i = n-4; i >= 0; i--)` run over `i = m-1, m-2, ..., 0`. -/
def backward_loop (c0 : Nat → F) : Nat → (Nat → F) → Nat → F
  | 0, c1 => c1
  | m + 1, c1 => backward_loop c0 m (backward_step c0 m c1)

/-- Lines 279-292: the tridiagonal solve, in place. The first loop runs
`i = 1, ..., n-3`, the second `i = n-4, ..., 0`. -/
def solve (n : Nat) (w : Work F) : Work F :=
  let l := w.c0 0
  let c0 := Function.update w.c0 0 (w.c0 0 / w.c3 0)
  let c1 := Function.update w.c1 1 (w.c1 1 / w.c3 0)
  let f := forward_loop w.c3 (n - 3) { c0 := c0, c1 := c1, l := l }
  let c1 := backward_loop f.c0 (n - 3) f.c1
  { w with c0 := f.c0, c1 := c1 }

/-- Lines 294-308: the coefficients of the cubics, and `_breaks = x`. -/
def coefficients (n : Nat) (w : Work F) (x y : List F) : Work F :=
  let c0 : Nat → F :=
    fun i => if i < n - 2 then (w.c1 (i + 1) - w.c1 i) / (3 * w.br i) else w.c0 i
  let c0 : Nat → F := Function.update c0 (n - 2) (- w.c1 (n - 2) / (3 * w.br (n - 2)))
  let c2 : Nat → F :=
    fun i => if i < n - 2 then w.c2 i - (2 * w.c1 i + w.c1 (i + 1)) * w.br i / 3 else w.c2 i
  let c2 : Nat → F :=
    Function.update c2 (n - 2) (c2 (n - 2) - 2 * w.c1 (n - 2) * w.br (n - 2) / 3)
  let c3 : Nat → F := fun i => if i < n - 1 then elem y i else w.c3 i
  let br : Nat → F := fun i => if i < n then elem x i else w.br i
  { br := br, c0 := c0, c1 := w.c1, c2 := c2, c3 := c3 }

/-- Lines 255-308 of `_SetSpline` on the prepared state, `n = _num_breaks`. -/
def build (s : Spline F) (x y : List F) : Spline F :=
  let n := s._num_breaks
  if n = 2 then store s (build_two (load s) x y)
  else store s (coefficients n (solve n (assemble n (load s) x y)) x y)

/-- `_SetSpline(x,y)`: `none` when the assertion of line 251 fails. -/
def _SetSpline (BreaksSize : Option Nat) (ub : Nat → F) (uc : Nat → Nat → F)
    (s : Spline F) (x y : List F) : Option (Spline F) :=
  let s1 := prepare BreaksSize ub uc s x.length
  if ascending x then some (build s1 x y) else none

/-- `set(x,y)`: `_AssertSize` then `_SetSpline`; `none` when an assertion fails. -/
def set (BreaksSize : Option Nat) (ub : Nat → F) (uc : Nat → Nat → F)
    (s : Spline F) (x y : List F) : Option (Spline F) :=
  if _AssertSize BreaksSize x y then _SetSpline BreaksSize ub uc s x y else none

/-- The members as the constructors leave them before `_AssertSize`:
`_num_breaks` zero, a dynamic `_breaks`/`_coeffs` empty, a fixed one of
`BreaksSize` cells and `BreaksSize - 1` rows; the cells are uninitialised and
given by `ub`, `uc`. -/
def init (BreaksSize : Option Nat) (ub : Nat → F) (uc : Nat → Nat → F) : Spline F :=
  match BreaksSize with
  | none => { _num_breaks := 0, breaks_size := 0, coeffs_rows := 0, _breaks := ub, _coeffs := uc }
  | some N =>
    { _num_breaks := 0, breaks_size := N, coeffs_rows := N - 1, _breaks := ub, _coeffs := uc }

/-- The explicit constructor `Spline(x,y)`. -/
def construct (BreaksSize : Option Nat) (ub : Nat → F) (uc : Nat → Nat → F)
    (x y : List F) : Option (Spline F) :=
  set BreaksSize ub uc (init BreaksSize ub uc) x y

/-- Index `it` of `operator()(x)`, lines 141-142: `upper_bound` over the first
`_num_breaks` cells of `_breaks`, minus one, not below zero (signed arithmetic). -/
def segment_index (s : Spline F) (x : F) : Nat :=
  Int.toNat (max ((upper_bound s._breaks 0 s._num_breaks x : Int) - 1) 0)

/-- The arithmetic of lines 143-144 and 149-150 on row `it`. -/
def cubic (s : Spline F) (x : F) (it : Nat) : F :=
  let h := x - s._breaks it
  ((s._coeffs it 0 * h + s._coeffs it 1) * h + s._coeffs it 2) * h + s._coeffs it 3

/-- `operator()(x, it)`: `none` when cell `it` lies outside `_breaks` or row
`it` outside `_coeffs` (an index outside an Eigen array). -/
def operator_call_at (s : Spline F) (x : F) (it : Nat) : Option F :=
  if it < s.breaks_size ∧ it < s.coeffs_rows then some (cubic s x it) else none

/-- `operator()(x)`: locate the segment, then evaluate its row. -/
def operator_call (s : Spline F) (x : F) : Option F :=
  operator_call_at s x (segment_index s x)

/-- Lines 167-193: the body of the segment sweep at segment `i`; `sqrt` is
`std::sqrt`. The call `(*this)(x,i)` is `cubic s x i`: the sweep visits rows
`i < _num_breaks - 1` only. -/
def maxima_segment (Size : Nat) (sqrt : F → F) (s : Spline F) (i : Nat)
    (M : CriticalPointArray F) : CriticalPointArray F :=
  if s._coeffs i 0 ≠ 0 then
    let x := s._coeffs i 1 * s._coeffs i 1 - 3 * s._coeffs i 0 * s._coeffs i 2
    if x > 0 then
      if s._coeffs i 1 ≥ 0 then
        if s._coeffs i 0 < 0 then
          let x := s._breaks i - (s._coeffs i 1 + sqrt x) / (3 * s._coeffs i 0)
          if x < s._breaks (i + 1) then M.Save Size x (cubic s x i) else M
        else M
      else
        let x := s._coeffs i 1 + sqrt x
        if (x ≥ 0 ∧ s._coeffs i 0 < 0) ∨ (x ≤ 0 ∧ s._coeffs i 0 > 0) then
          let x := s._breaks i - x / (3 * s._coeffs i 0)
          if x < s._breaks (i + 1) then M.Save Size x (cubic s x i) else M
        else M
    else M
  else if s._coeffs i 1 < 0 ∧ s._coeffs i 2 ≥ 0 then
    let x := s._breaks i - (1 / 2) * s._coeffs i 2 / s._coeffs i 1
    if x < s._breaks (i + 1) then M.Save Size x (cubic s x i) else M
  else M

/-- The loop `for (i = 0; i < _num_breaks - 1; ++i)` after its first `k`
iterations `i = 0, ..., k-1`. -/
def maxima_loop (Size : Nat) (sqrt : F → F) (s : Spline F) :
    Nat → CriticalPointArray F → CriticalPointArray F
  | 0, M => M
  | k + 1, M => maxima_segment Size sqrt s k (maxima_loop Size sqrt s k M)

/-- Lines 196-206: the two boundary checks. -/
def maxima_boundaries (Size : Nat) (s : Spline F) (M : CriticalPointArray F) :
    CriticalPointArray F :=
  let n := s._num_breaks
  let M := if s._coeffs 0 2 < 0 then M.Save Size (s._breaks 0) (s._coeffs 0 3) else M
  let x := s._breaks (n - 1) - s._breaks (n - 2)
  if (3 * s._coeffs (n - 2) 0 * x + 2 * s._coeffs (n - 2) 1) * x + s._coeffs (n - 2) 2 > 0 then
    M.Save Size (s._breaks (n - 1)) (cubic s (s._breaks (n - 1)) (n - 2))
  else M

/-- `maxima(_maxima)`, lines 161-207, with `_N = Size`: `none` when the
assertion `_num_breaks > 0` fails. -/
def maxima_into (Size : Nat) (sqrt : F → F) (s : Spline F) (M : CriticalPointArray F) :
    Option (CriticalPointArray F) :=
  if 0 < s._num_breaks then
    some (maxima_boundaries Size s
      (maxima_loop Size sqrt s (s._num_breaks - 1) (CriticalPointArray.setZero M)))
  else none

/-- `maxima<_N>()`, lines 154-158: a default-constructed array passed to
`maxima(_maxima)`. -/
def maxima (Size : Nat) (sqrt : F → F) (s : Spline F) : Option (CriticalPointArray F) :=
  maxima_into Size sqrt s CriticalPointArray.Zero

/-! ### Quantities the statements are written in -/

/-- Segment length `x[i+1] - x[i]`. -/
def dx (x : List F) (i : Nat) : F := elem x (i + 1) - elem x i

/-- Segment slope `(y[i+1] - y[i]) / (x[i+1] - x[i])`. -/
def slope (x y : List F) (i : Nat) : F := (elem y (i + 1) - elem y i) / dx x i

/-- The spline has storage for `n` breakpoints and `n - 1` coefficient rows. -/
def Holds (s : Spline F) (n : Nat) : Prop :=
  s._num_breaks = n ∧ n ≤ s.breaks_size ∧ n - 1 ≤ s.coeffs_rows

/-- Storage as the class lays it out: a fixed spline has `BreaksSize` cells and
`BreaksSize - 1` rows; a dynamic one has one row less than cells. -/
def Shaped (BreaksSize : Option Nat) (s : Spline F) : Prop :=
  s.coeffs_rows = s.breaks_size - 1 ∧ ∀ N, BreaksSize = some N → s.breaks_size = N

/-! ### Reference recurrences of the elimination (used in the proofs) -/

/-- Modified super-diagonal of the elimination for sub-diagonal `E` and
diagonal `D`. -/
def cprime (E D : Nat → F) : Nat → F
  | 0 => E 0 / D 0
  | j + 1 => E (j + 1) * (1 / (D (j + 1) - cprime E D j * E j))

/-- Modified right-hand side of the elimination; the right-hand side of
equation `j` is `C (j+1)`. -/
def rprime (E D C : Nat → F) : Nat → F
  | 0 => C 1 / D 0
  | j + 1 => (C (j + 2) - rprime E D C j * E j) * (1 / (D (j + 1) - cprime E D j * E j))

/-- Pivot of elimination step `j`. -/
def pivot (E D : Nat → F) : Nat → F
  | 0 => D 0
  | j + 1 => D (j + 1) - cprime E D j * E j

end Spline

/-! ### Concrete storage contents -/

/-- Cells of `_breaks` that hold zero. -/
def zero_cells : Nat → ℚ := fun _ => 0

/-- Cells of `_coeffs` that hold zero. -/
def zero_rows : Nat → Nat → ℚ := fun _ _ => 0

/-- Cells of `_breaks` that hold 7, a value no build below writes. -/
def stale_cells : Nat → ℚ := fun _ => 7

/-- Cells of `_coeffs` that hold 7, a value no build below writes. -/
def stale_rows : Nat → Nat → ℚ := fun _ _ => 7

/-! ## What `maxima` passes to `Save` -/

namespace CriticalPointArray

variable {F : Type} [LinearOrderedField F]

/-- The entries in use, `(x(0),y(0)), ..., (x(size-1),y(size-1))`. -/
def pairs (Size : Nat) (c : CriticalPointArray F) : List (F × F) :=
  (List.range c._length).map (fun i => (x c i, y Size c i))

end CriticalPointArray

namespace Spline

variable {F : Type} [LinearOrderedField F]

/-- In exact arithmetic `std::sqrt(t)` is the non-negative square root of `t`. -/
def SqrtAt (sqrt : F → F) (t : F) : Prop := 0 ≤ sqrt t ∧ sqrt t * sqrt t = t

/-- The abscissa the sweep passes to `Save` for segment `i`, lines 167-193, and
`none` when it passes nothing: the branches of `maxima_segment`, with the call of
`Save` replaced by its first argument. -/
def segment_candidate (sqrt : F → F) (s : Spline F) (i : Nat) : Option F :=
  if s._coeffs i 0 ≠ 0 then
    let x := s._coeffs i 1 * s._coeffs i 1 - 3 * s._coeffs i 0 * s._coeffs i 2
    if x > 0 then
      if s._coeffs i 1 ≥ 0 then
        if s._coeffs i 0 < 0 then
          let x := s._breaks i - (s._coeffs i 1 + sqrt x) / (3 * s._coeffs i 0)
          if x < s._breaks (i + 1) then some x else none
        else none
      else
        let x := s._coeffs i 1 + sqrt x
        if (x ≥ 0 ∧ s._coeffs i 0 < 0) ∨ (x ≤ 0 ∧ s._coeffs i 0 > 0) then
          let x := s._breaks i - x / (3 * s._coeffs i 0)
          if x < s._breaks (i + 1) then some x else none
        else none
    else none
  else if s._coeffs i 1 < 0 ∧ s._coeffs i 2 ≥ 0 then
    let x := s._breaks i - (1 / 2) * s._coeffs i 2 / s._coeffs i 1
    if x < s._breaks (i + 1) then some x else none
  else none

/-- The branches of `segment_candidate` as a function of the five numbers the sweep
reads for a segment: `a = _coeffs(i,0)`, `b = _coeffs(i,1)`, `c = _coeffs(i,2)`,
`x0 = _breaks(i)`, `x1 = _breaks(i+1)`. -/
def candidate_of (sqrt : F → F) (a b c x0 x1 : F) : Option F :=
  if a ≠ 0 then
    let x := b * b - 3 * a * c
    if x > 0 then
      if b ≥ 0 then
        if a < 0 then
          let x := x0 - (b + sqrt x) / (3 * a)
          if x < x1 then some x else none
        else none
      else
        let x := b + sqrt x
        if (x ≥ 0 ∧ a < 0) ∨ (x ≤ 0 ∧ a > 0) then
          let x := x0 - x / (3 * a)
          if x < x1 then some x else none
        else none
    else none
  else if b < 0 ∧ c ≥ 0 then
    let x := x0 - (1 / 2) * c / b
    if x < x1 then some x else none
  else none

/-- The arguments of the `Save` call of segment `i`, if the sweep makes one. -/
def segment_offer (sqrt : F → F) (s : Spline F) (i : Nat) : Option (F × F) :=
  (segment_candidate sqrt s i).map (fun x => (x, cubic s x i))

/-- The arguments of the `Save` calls of the sweep over segments `0, ..., k-1`, in
call order. -/
def sweep_offers (sqrt : F → F) (s : Spline F) : Nat → List (F × F)
  | 0 => []
  | k + 1 => sweep_offers sqrt s k ++ (segment_offer sqrt s k).toList

/-- The arguments of the `Save` call of lines 197-199, if it is made. -/
def left_offer (s : Spline F) : Option (F × F) :=
  if s._coeffs 0 2 < 0 then some (s._breaks 0, s._coeffs 0 3) else none

/-- The arguments of the `Save` call of lines 201-206, if it is made. -/
def right_offer (s : Spline F) : Option (F × F) :=
  let n := s._num_breaks
  let x := s._breaks (n - 1) - s._breaks (n - 2)
  if (3 * s._coeffs (n - 2) 0 * x + 2 * s._coeffs (n - 2) 1) * x + s._coeffs (n - 2) 2 > 0 then
    some (s._breaks (n - 1), cubic s (s._breaks (n - 1)) (n - 2))
  else none

/-- All arguments `maxima` passes to `Save`, in call order: the sweep, the left
boundary, the right boundary. -/
def maxima_offers (sqrt : F → F) (s : Spline F) : List (F × F) :=
  sweep_offers sqrt s (s._num_breaks - 1) ++ (left_offer s).toList ++ (right_offer s).toList

end Spline

/-! ## Where `set` stops, and the blocks `_SetSpline` takes -/

namespace Spline

variable {F : Type} [LinearOrderedField F]

/-- `set(x,y)` with the members as they are when the call ends: `Except.ok` at the `return`
of line 260 or after line 308, `Except.error` at the assertion that fails. `_AssertSize`
(line 132) fails before any member is written; the assertion of line 251 fails after
lines 242-248 have run. -/
def set_run (BreaksSize : Option Nat) (ub : Nat → F) (uc : Nat → Nat → F)
    (s : Spline F) (x y : List F) : Except (Spline F) (Spline F) :=
  if _AssertSize BreaksSize x y then
    let s1 := prepare BreaksSize ub uc s x.length
    if ascending x then Except.ok (build s1 x y) else Except.error s1
  else Except.error s

end Spline

/-- A block `segment(start, len)`, `head(len)` (`start = 0`) or a single coefficient
`a(i)` (`start = i`, `len = 1`) of an array of `extent` cells; `start` and `len` are
`Eigen::Index`, signed. -/
structure Block where
  extent : Int
  start : Int
  len : Int
deriving DecidableEq

namespace Block

/-- Eigen's precondition on a block: `start >= 0`, `len >= 0` and
`start <= extent - len`. For a single coefficient it reads `0 <= i < extent`. -/
def inside (b : Block) : Bool :=
  decide (0 ≤ b.start ∧ 0 ≤ b.len ∧ b.start ≤ b.extent - b.len)

end Block

/-- The blocks of the loop body of lines 285-288 at index `i`, on columns of `rows`
cells. -/
def forward_blocks (rows : Int) (i : Int) : List Block :=
  [⟨rows, i, 1⟩, ⟨rows, i - 1, 1⟩, ⟨rows, i + 1, 1⟩, ⟨rows, i, 1⟩, ⟨rows, i, 1⟩]

/-- The blocks of the loop body of line 291 at index `i`. -/
def backward_blocks (rows : Int) (i : Int) : List Block :=
  [⟨rows, i + 1, 1⟩, ⟨rows, i, 1⟩, ⟨rows, i + 2, 1⟩]

/-- The blocks of lines 256-259, the branch `n == 2`. -/
def two_point_blocks (n bs rows : Int) : List Block :=
  [⟨bs, 0, 1⟩, ⟨n, 0, 1⟩, ⟨bs, 1, 1⟩, ⟨n, 1, 1⟩,
   ⟨rows, 0, 1⟩, ⟨n, 1, 1⟩, ⟨n, 0, 1⟩, ⟨n, 1, 1⟩, ⟨n, 0, 1⟩,
   ⟨rows, 0, 1⟩, ⟨n, 0, 1⟩]

/-- The blocks of lines 264-277: segment lengths, slopes, right-hand side, main
diagonal and sub-diagonal. -/
def assembly_blocks (n bs rows : Int) : List Block :=
  -- line 264
  [⟨bs, 0, n - 1⟩, ⟨n, 1, n - 1⟩, ⟨n, 0, n - 1⟩] ++
  -- line 265
  [⟨rows, 0, n - 1⟩, ⟨n, 1, n - 1⟩, ⟨n, 0, n - 1⟩, ⟨bs, 0, n - 1⟩] ++
  -- lines 268-269
  [⟨rows, 0, 1⟩, ⟨rows, 1, n - 2⟩, ⟨rows, 1, n - 2⟩, ⟨rows, 0, n - 2⟩] ++
  -- lines 272-274
  [⟨rows, 1, n - 4⟩, ⟨n, 3, n - 4⟩, ⟨n, 1, n - 4⟩] ++
  [⟨rows, 0, 1⟩, ⟨n, 2, 1⟩, ⟨n, 0, 1⟩] ++
  [⟨rows, n - 3, 1⟩, ⟨n, n - 1, 1⟩, ⟨n, n - 3, 1⟩] ++
  -- line 277
  [⟨rows, 0, n - 3⟩, ⟨bs, 1, n - 3⟩]

/-- The blocks of lines 281-292, the solve: the loop of line 284 runs
`i = 1, ..., n-3`, that of line 290 `i = n-4, ..., 0`. -/
def solve_blocks (n rows : Int) : List Block :=
  -- lines 281-283
  [⟨rows, 0, 1⟩, ⟨rows, 0, 1⟩, ⟨rows, 0, 1⟩, ⟨rows, 1, 1⟩, ⟨rows, 0, 1⟩] ++
  -- lines 284-289
  ((List.range (Int.toNat (n - 3))).map
    (fun (k : Nat) => forward_blocks rows ((k : Int) + 1))).flatten ++
  -- lines 290-292
  ((List.range (Int.toNat (n - 3))).reverse.map
    (fun (k : Nat) => backward_blocks rows (k : Int))).flatten

/-- The blocks of lines 295-308: the coefficients and `_breaks = x`. -/
def coefficient_blocks (n bs rows : Int) : List Block :=
  -- lines 295-298
  [⟨rows, 0, n - 2⟩, ⟨rows, 1, n - 2⟩, ⟨rows, 0, n - 2⟩, ⟨bs, 0, n - 2⟩] ++
  [⟨rows, n - 2, 1⟩, ⟨rows, n - 2, 1⟩, ⟨bs, n - 2, 1⟩] ++
  -- lines 300-305
  [⟨rows, 0, n - 2⟩, ⟨rows, 0, n - 2⟩, ⟨rows, 0, n - 2⟩, ⟨rows, 1, n - 2⟩, ⟨bs, 0, n - 2⟩] ++
  [⟨rows, n - 2, 1⟩, ⟨rows, n - 2, 1⟩, ⟨rows, n - 2, 1⟩, ⟨bs, n - 2, 1⟩] ++
  -- lines 307-308
  [⟨rows, 0, n - 1⟩, ⟨n, 0, n - 1⟩, ⟨bs, 0, n⟩, ⟨n, 0, n⟩]

/-- Every block `_SetSpline(x,y)` takes of `x`, `y` (both of `n` cells), of `_breaks`
(`bs` cells) and of a column of `_coeffs` (`rows` cells), in source order, lines 251-308;
the column index of `col(k)` is a literal `0..3`. -/
def _SetSpline_blocks (n bs rows : Int) : List Block :=
  -- line 251
  [⟨n, 1, n - 1⟩, ⟨n, 0, n - 1⟩] ++
  (if n = 2 then two_point_blocks n bs rows
   else assembly_blocks n bs rows ++ solve_blocks n rows ++ coefficient_blocks n bs rows)

end Spline

/-! # `bytes.h` and `binaryIO.h`

* A value is its object representation: the list of its bytes in memory order, each
  below 256; `sizeof(T)` is the length of the list.
* `std::bit_cast` to and from an unsigned integer depends on the byte order of the
  machine, a parameter `native`.
* The stream behind a `BinaryFile` is the list of the bytes of the file and one position.
  A failed `static_assert` and a thrown stream failure are `none`.
-/

namespace Binary

/-- `std::endian`: the two byte orders that line 30 of `binaryIO.h` admits. -/
inductive endian where
  | little
  | big
deriving DecidableEq

/-- Bytes `0, ..., w-1` of an unsigned integer, least significant first. -/
def uint_bytes (w v : Nat) : List Nat :=
  (List.range w).map (fun i => v / 256 ^ i % 256)

/-- `std::bit_cast<uintN_t>(x)`, lines 85-98: the unsigned integer whose object
representation on a machine of byte order `native` is the byte sequence `x` (memory
order, each byte below 256). -/
def bit_cast_uint (native : endian) (x : List Nat) : Nat :=
  match native with
  | endian.little => Nat.ofDigits 256 x
  | endian.big => Nat.ofDigits 256 x.reverse

/-- `std::bit_cast<T>(v)` for an unsigned `v` of `w` bytes: its object representation on
a machine of byte order `native`. -/
def bit_cast_bytes (native : endian) (w v : Nat) : List Nat :=
  match native with
  | endian.little => uint_bytes w v
  | endian.big => (uint_bytes w v).reverse

/-- The library calls `bswap_16`, `bswap_32`, `bswap_64` on an unsigned integer of `w`
bytes: the integer with the same bytes in the opposite order of significance. -/
def bswap (w v : Nat) : Nat :=
  Nat.ofDigits 256 (uint_bytes w v).reverse

/-- `std::byteswap`, lines 63-75, for an integer of `w` bytes; no `return` is reached for
another width. -/
def byteswap (w v : Nat) : Option Nat :=
  if w = 1 then some v
  else if w = 2 then some (bswap 2 v)
  else if w = 4 then some (bswap 4 v)
  else if w = 8 then some (bswap 8 v)
  else none

/-- `reverseBytes(x)`, lines 103-130, on the object representation `x` of an arithmetic
value, `sizeof(T)` being the length of `x`; `none` for the last overload, whose
`static_assert` rejects it. -/
def reverseBytes (native : endian) (x : List Nat) : Option (List Nat) :=
  if x.length = 1 then some x
  else if x.length = 2 then
    (byteswap 2 (bit_cast_uint native x)).map (bit_cast_bytes native 2)
  else if x.length = 4 then
    (byteswap 4 (bit_cast_uint native x)).map (bit_cast_bytes native 4)
  else if x.length = 8 then
    (byteswap 8 (bit_cast_uint native x)).map (bit_cast_bytes native 8)
  else none

/-- The flags of `FileMode` that `read` and `write` test. -/
structure FileMode where
  Read : Bool
  Write : Bool
  Append : Bool

/-- An open `BinaryFile<_Mode>`: `mode_`, and of `file_` the bytes of the file and the
position of its buffer (a `std::filebuf` keeps one position for reading and writing). -/
structure BinaryFile where
  mode_ : FileMode
  bytes : List Nat
  pos : Nat

/-- `seek(position)`, line 127. -/
def seek (f : BinaryFile) (position : Nat) : BinaryFile :=
  { f with pos := position }

/-- `tell()`, line 124. -/
def tell (f : BinaryFile) : Nat := f.pos

/-- `read(char* buffer, std::streamsize size)`, lines 132-136: the bytes read and the
file afterwards. `none` when the mode lacks `Read` (the `static_assert`) or fewer than
`size` bytes remain (`failbit` throws, line 110). -/
def read_buffer (f : BinaryFile) (size : Nat) : Option (List Nat × BinaryFile) :=
  if f.mode_.Read = true ∧ f.pos + size ≤ f.bytes.length then
    some ((f.bytes.drop f.pos).take size, { f with pos := f.pos + size })
  else none

/-- `write(const char* buffer, std::streamsize size)`, lines 193-197. `none` when the
mode has neither `Write` nor `Append` (the `static_assert`). With `Append` the stream
writes at the end of the file; otherwise at the position, a gap before it being filled
with zero bytes. -/
def write_buffer (f : BinaryFile) (buffer : List Nat) : Option BinaryFile :=
  if f.mode_.Write = true ∨ f.mode_.Append = true then
    let p := if f.mode_.Append = true then f.bytes.length else f.pos
    let old := f.bytes ++ List.replicate (p - f.bytes.length) 0
    some { f with
      bytes := old.take p ++ buffer ++ old.drop (p + buffer.length),
      pos := p + buffer.length }
  else none

/-- `read<en>(T& x)` for an arithmetic `T` of `size` bytes, lines 140-146. -/
def read (native en : endian) (f : BinaryFile) (size : Nat) :
    Option (List Nat × BinaryFile) :=
  match read_buffer f size with
  | none => none
  | some (x, g) =>
    if en ≠ native then (reverseBytes native x).map (fun y => (y, g)) else some (x, g)

/-- `write<en>(const T& x)` for an arithmetic `T`, lines 201-210. -/
def write (native en : endian) (f : BinaryFile) (x : List Nat) : Option BinaryFile :=
  if en ≠ native then
    match reverseBytes native x with
    | none => none
    | some y => write_buffer f y
  else write_buffer f x

/-- `read(T& x)` for a trivially copyable `T` that is not arithmetic, lines 148-155,
`size = sizeof(T)`; the byte order is the native one (the `static_assert` of line 151). -/
def read_record (f : BinaryFile) (size : Nat) : Option (List Nat × BinaryFile) :=
  read_buffer f size

/-- `write(const T& x)` for a trivially copyable `T` that is not arithmetic,
lines 212-219. -/
def write_record (f : BinaryFile) (x : List Nat) : Option BinaryFile :=
  write_buffer f x

end Binary

/-! # Theorems -/

namespace Spline

/-! ## The library algorithms -/

section Cells

variable {F : Type}

theorem copy_backward_loop_shift (k : Nat) : ∀ (last : Nat) (a : Nat → F), k ≤ last →
    copy_backward_loop k last (last + 1) a =
      fun i => if last - k < i ∧ i ≤ last then a (i - 1) else a i := by
  induction k with
  | zero =>
    intro last a _
    funext i
    have : ¬ (last - 0 < i ∧ i ≤ last) := by omega
    rw [if_neg this]
    rfl
  | succ k ih =>
    intro last a hk
    have h1 : last - 1 + 1 = last := by omega
    have step := ih (last - 1) (Function.update a last (a (last - 1))) (by omega)
    rw [h1] at step
    simp only [copy_backward_loop, Nat.add_sub_cancel]
    rw [step]
    funext i
    by_cases hi : last - (k + 1) < i ∧ i ≤ last
    · rw [if_pos hi]
      by_cases hl : i = last
      · subst hl
        have : ¬ (i - 1 - k < i ∧ i ≤ i - 1) := by omega
        rw [if_neg this, Function.update_same]
      · have h2 : last - 1 - k < i ∧ i ≤ last - 1 := by omega
        rw [if_pos h2, Function.update_noteq (by omega)]
    · rw [if_neg hi]
      have h2 : ¬ (last - 1 - k < i ∧ i ≤ last - 1) := by omega
      rw [if_neg h2, Function.update_noteq (by omega)]

/-- Effect of `copy_backward(first, last, last+1)`: cells `first+1..last` receive their left neighbour. -/
theorem copy_backward_shift (a : Nat → F) (first last d : Nat) (h : first ≤ last)
    (hd : d = last + 1) :
    copy_backward a first last d =
      fun i => if first < i ∧ i ≤ last then a (i - 1) else a i := by
  subst hd
  unfold copy_backward
  rw [copy_backward_loop_shift _ _ _ (Nat.sub_le _ _)]
  funext i
  have : last - (last - first) = first := by omega
  rw [this]

/-- The ordinate cells after the insertion statements of `Save` (lines 71-75 and 83-87). -/
theorem insert_cells (Size : Nat) (a : Nat → F) (m p : Nat) (x v : F) (e d1 d2 : Nat)
    (hp1 : Size ≤ p) (hp2 : p ≤ Size + m) (hm : m < Size) (he : e = Size + m)
    (hd1 : d1 = Size + m + 1) (hd2 : d2 = m + 1) (j : Nat) (hj : j ≤ m) :
    Function.update (Function.update
      (copy_backward (copy_backward a p e d1) (p - Size) m d2) (p - Size) x) p v
      (j + Size) =
    if j = p - Size then v else if p - Size < j then a (j - 1 + Size) else a (j + Size) := by
  subst he
  rw [copy_backward_shift _ _ _ _ hp2 hd1, copy_backward_shift _ _ _ _ (by omega) hd2]
  by_cases hjq : j = p - Size
  · rw [if_pos hjq]
    have : j + Size = p := by omega
    rw [this, Function.update_same]
  · rw [if_neg hjq, Function.update_noteq (by omega), Function.update_noteq (by omega)]
    rw [if_neg (by omega)]
    by_cases hqj : p - Size < j
    · rw [if_pos hqj, if_pos (by omega)]
      congr 1
      omega
    · rw [if_neg hqj, if_neg (by omega)]

end Cells

section Searches

variable {F : Type} [LinearOrderedField F]

theorem lower_bound_loop_spec (a : Nat → F) (val : F) : ∀ (fuel first len : Nat), len ≤ fuel →
    (∀ i j, first ≤ i → i ≤ j → j < first + len → a j ≤ a i) →
    first ≤ lower_bound_loop a val fuel first len ∧
    lower_bound_loop a val fuel first len ≤ first + len ∧
    (∀ i, first ≤ i → i < lower_bound_loop a val fuel first len → val < a i) ∧
    (∀ i, lower_bound_loop a val fuel first len ≤ i → i < first + len → a i ≤ val) := by
  intro fuel
  induction fuel with
  | zero =>
    intro first len hlen _
    have : len = 0 := by omega
    subst this
    simp only [lower_bound_loop]
    refine ⟨le_refl _, by omega, fun i h1 h2 => by omega, fun i h1 h2 => by omega⟩
  | succ fuel ih =>
    intro first len hlen hs
    simp only [lower_bound_loop]
    by_cases h0 : len = 0
    · rw [if_pos h0]
      refine ⟨le_refl _, by omega, fun i h1 h2 => by omega, fun i h1 h2 => by omega⟩
    · rw [if_neg h0]
      have hhalf : len / 2 < len := Nat.div_lt_self (Nat.pos_of_ne_zero h0) (by decide)
      by_cases hc : val < a (first + len / 2)
      · rw [if_pos hc]
        obtain ⟨r1, r2, r3, r4⟩ := ih (first + len / 2 + 1) (len - len / 2 - 1) (by omega)
          (fun i j hi hij hj => hs i j (by omega) hij (by omega))
        refine ⟨by omega, by omega, ?_, fun i h1 h2 => r4 i h1 (by omega)⟩
        intro i h1 h2
        by_cases hm : i ≤ first + len / 2
        · exact lt_of_lt_of_le hc (hs i (first + len / 2) h1 hm (by omega))
        · exact r3 i (by omega) h2
      · rw [if_neg hc]
        obtain ⟨r1, r2, r3, r4⟩ := ih first (len / 2) (by omega)
          (fun i j hi hij hj => hs i j hi hij (by omega))
        refine ⟨r1, by omega, r3, ?_⟩
        intro i h1 h2
        by_cases hm : i < first + len / 2
        · exact r4 i h1 hm
        · exact le_trans (hs (first + len / 2) i (by omega) (by omega) h2) (not_lt.mp hc)

/-- On a descending range `lower_bound` with `greater` returns the partition point. -/
theorem lower_bound_spec (a : Nat → F) (first last : Nat) (val : F) (h : first ≤ last)
    (hs : ∀ i j, first ≤ i → i ≤ j → j < last → a j ≤ a i) :
    first ≤ lower_bound a first last val ∧ lower_bound a first last val ≤ last ∧
    (∀ i, first ≤ i → i < lower_bound a first last val → val < a i) ∧
    (∀ i, lower_bound a first last val ≤ i → i < last → a i ≤ val) := by
  have hl : first + (last - first) = last := by omega
  have := lower_bound_loop_spec a val (last - first) first (last - first) (le_refl _)
    (fun i j hi hij hj => hs i j hi hij (by omega))
  rw [hl] at this
  exact this

theorem upper_bound_loop_spec (a : Nat → F) (val : F) : ∀ (fuel first len : Nat), len ≤ fuel →
    (∀ i j, first ≤ i → i ≤ j → j < first + len → a i ≤ a j) →
    first ≤ upper_bound_loop a val fuel first len ∧
    upper_bound_loop a val fuel first len ≤ first + len ∧
    (∀ i, first ≤ i → i < upper_bound_loop a val fuel first len → a i ≤ val) ∧
    (∀ i, upper_bound_loop a val fuel first len ≤ i → i < first + len → val < a i) := by
  intro fuel
  induction fuel with
  | zero =>
    intro first len hlen _
    have : len = 0 := by omega
    subst this
    simp only [upper_bound_loop]
    refine ⟨le_refl _, by omega, fun i h1 h2 => by omega, fun i h1 h2 => by omega⟩
  | succ fuel ih =>
    intro first len hlen hs
    simp only [upper_bound_loop]
    by_cases h0 : len = 0
    · rw [if_pos h0]
      refine ⟨le_refl _, by omega, fun i h1 h2 => by omega, fun i h1 h2 => by omega⟩
    · rw [if_neg h0]
      have hhalf : len / 2 < len := Nat.div_lt_self (Nat.pos_of_ne_zero h0) (by decide)
      by_cases hc : val < a (first + len / 2)
      · rw [if_pos hc]
        obtain ⟨r1, r2, r3, r4⟩ := ih first (len / 2) (by omega)
          (fun i j hi hij hj => hs i j hi hij (by omega))
        refine ⟨r1, by omega, r3, ?_⟩
        intro i h1 h2
        by_cases hm : i < first + len / 2
        · exact r4 i h1 hm
        · exact lt_of_lt_of_le hc (hs (first + len / 2) i (by omega) (by omega) h2)
      · rw [if_neg hc]
        obtain ⟨r1, r2, r3, r4⟩ := ih (first + len / 2 + 1) (len - len / 2 - 1) (by omega)
          (fun i j hi hij hj => hs i j (by omega) hij (by omega))
        refine ⟨by omega, by omega, ?_, fun i h1 h2 => r4 i h1 (by omega)⟩
        intro i h1 h2
        by_cases hm : i ≤ first + len / 2
        · exact le_trans (hs i (first + len / 2) h1 hm (by omega)) (not_lt.mp hc)
        · exact r3 i (by omega) h2

/-- On an ascending range `upper_bound` returns the first cell greater than `val`. -/
theorem upper_bound_spec (a : Nat → F) (n : Nat) (val : F)
    (hs : ∀ i j, i ≤ j → j < n → a i ≤ a j) :
    upper_bound a 0 n val ≤ n ∧
    (∀ i, i < upper_bound a 0 n val → a i ≤ val) ∧
    (∀ i, upper_bound a 0 n val ≤ i → i < n → val < a i) := by
  have := upper_bound_loop_spec a val (n - 0) 0 (n - 0) (le_refl _)
    (fun i j _ hij hj => hs i j hij (by omega))
  simp only [Nat.sub_zero, Nat.zero_add] at this
  unfold upper_bound
  simp only [Nat.sub_zero]
  exact ⟨this.2.1, fun i hi => this.2.2.1 i (Nat.zero_le _) hi, this.2.2.2⟩

end Searches

/-! ## `CriticalPointArray::Save` -/

namespace CriticalPointArray

variable {F : Type} [LinearOrderedField F]

theorem ordered_insert (f g : Nat → F) (m q : Nat) (v : F)
    (hs : ∀ i j, i < j → j < m → f j ≤ f i)
    (h1 : ∀ i, i < q → v < f i) (h2 : ∀ i, q ≤ i → i < m → f i ≤ v)
    (hg : ∀ j, j ≤ m → g j = if j = q then v else if q < j then f (j - 1) else f j)
    (hq : q ≤ m) :
    ∀ i j, i < j → j < m + 1 → g j ≤ g i := by
  intro i j hij hj
  rw [hg i (by omega), hg j (by omega)]
  by_cases hjq : j = q
  · rw [if_pos hjq, if_neg (by omega), if_neg (by omega)]
    exact le_of_lt (h1 i (by omega))
  · rw [if_neg hjq]
    by_cases hqj : q < j
    · rw [if_pos hqj]
      by_cases hiq : i = q
      · rw [if_pos hiq]
        exact h2 (j - 1) (by omega) (by omega)
      · rw [if_neg hiq]
        by_cases hqi : q < i
        · rw [if_pos hqi]
          exact hs (i - 1) (j - 1) (by omega) (by omega)
        · rw [if_neg hqi]
          exact hs i (j - 1) (by omega) (by omega)
    · rw [if_neg hqj, if_neg (by omega), if_neg (by omega)]
      exact hs i j hij (by omega)

/-- `Save` keeps the size bound and the descending order. -/
theorem Save_Ordered (Size : Nat) (c : CriticalPointArray F) (x v : F)
    (h : Ordered Size c) : Ordered Size (Save Size c x v) := by
  obtain ⟨hlen, hs⟩ := h
  simp only [y] at hs
  unfold Save
  simp only
  by_cases hlt : c._length < Size
  · rw [if_pos hlt]
    by_cases h0 : c._length = 0
    · rw [if_pos h0]
      refine ⟨by simp only; omega, ?_⟩
      intro i j hij hj
      simp only at hj
      omega
    · rw [if_neg h0]
      by_cases h1 : c._length = 1
      · rw [if_pos h1]
        by_cases hc : c._array (0 + Size) < v
        · rw [if_pos hc]
          refine ⟨by simp only; omega, ?_⟩
          intro i j hij hj
          simp only at hj
          have hi : i = 0 := by omega
          have hj1 : j = 1 := by omega
          subst hi; subst hj1
          simp only [y]
          rw [Function.update_noteq (by omega), Function.update_noteq (by omega),
            Function.update_same, Function.update_noteq (by omega), Function.update_same]
          exact le_of_lt hc
        · rw [if_neg hc]
          refine ⟨by simp only; omega, ?_⟩
          intro i j hij hj
          simp only at hj
          have hi : i = 0 := by omega
          have hj1 : j = 1 := by omega
          subst hi; subst hj1
          simp only [y]
          rw [Function.update_same, Function.update_noteq (by omega),
            Function.update_noteq (by omega)]
          exact not_lt.mp hc
      · rw [if_neg h1]
        by_cases hc : c._array (c._length - 1 + Size) < v
        · rw [if_pos hc]
          refine ⟨by simp only; omega, ?_⟩
          simp only [y]
          have hdesc : ∀ i j, Size ≤ i → i ≤ j → j < Size + c._length →
              c._array j ≤ c._array i := by
            intro i j hi hij hj
            rcases Nat.eq_or_lt_of_le hij with e | l
            · subst e; exact le_refl _
            · have := hs (i - Size) (j - Size) (by omega) (by omega)
              rwa [Nat.sub_add_cancel (by omega), Nat.sub_add_cancel hi] at this
          obtain ⟨p1, p2, p3, p4⟩ :=
            lower_bound_spec c._array Size (Size + c._length) v (by omega) hdesc
          refine ordered_insert (fun j => c._array (j + Size)) _ c._length
            (lower_bound c._array Size (Size + c._length) v - Size) v hs ?_ ?_ ?_ (by omega)
          · intro i hi
            exact p3 (i + Size) (by omega) (by omega)
          · intro i hi1 hi2
            exact p4 (i + Size) (by omega) (by omega)
          · intro j hj
            exact insert_cells Size c._array c._length _ x v _ _ _ p1 p2 hlt rfl rfl rfl j hj
        · rw [if_neg hc]
          refine ⟨by simp only; omega, ?_⟩
          intro i j hij hj
          simp only at hj
          simp only [y]
          rw [Function.update_noteq (show i + Size ≠ c._length + Size by omega),
            Function.update_noteq (show i + Size ≠ c._length by omega)]
          by_cases hjl : j = c._length
          · subst hjl
            rw [Function.update_same]
            have h3 : c._array (c._length - 1 + Size) ≤ c._array (i + Size) := by
              rcases Nat.eq_or_lt_of_le (Nat.le_sub_one_of_lt hij) with e | l
              · rw [e]
              · exact hs i (c._length - 1) l (by omega)
            exact le_trans (not_lt.mp hc) h3
          · rw [Function.update_noteq (by omega), Function.update_noteq (by omega)]
            exact hs i j hij (by omega)
  · rw [if_neg hlt]
    have hfull : c._length = Size := by omega
    by_cases hS : Size ≤ 1
    · -- a single slot: nothing to order
      have key : ∀ d : CriticalPointArray F, d._length = c._length → Ordered Size d := by
        intro d hd
        refine ⟨by omega, ?_⟩
        intro i j hij hj
        omega
      split_ifs
      · exact key _ rfl
      · exact key _ rfl
      · exact key _ rfl
    · by_cases hc : c._array (c._length + Size - 2) < v
      · rw [if_pos hc]
        refine ⟨hlen, ?_⟩
        simp only [y]
        have hdesc : ∀ i j, Size ≤ i → i ≤ j → j < Size + c._length - 1 →
            c._array j ≤ c._array i := by
          intro i j hi hij hj
          rcases Nat.eq_or_lt_of_le hij with e | l
          · subst e; exact le_refl _
          · have := hs (i - Size) (j - Size) (by omega) (by omega)
            rwa [Nat.sub_add_cancel (by omega), Nat.sub_add_cancel hi] at this
        obtain ⟨p1, p2, p3, p4⟩ :=
          lower_bound_spec c._array Size (Size + c._length - 1) v (by omega) hdesc
        have key := ordered_insert (fun j => c._array (j + Size))
          (fun j => Function.update (Function.update
            (copy_backward (copy_backward c._array
              (lower_bound c._array Size (Size + c._length - 1) v)
              (Size + c._length - 1) (Size + c._length))
              (lower_bound c._array Size (Size + c._length - 1) v - Size)
              (c._length - 1) c._length)
            (lower_bound c._array Size (Size + c._length - 1) v - Size) x)
            (lower_bound c._array Size (Size + c._length - 1) v) v (j + Size))
          (c._length - 1)
          (lower_bound c._array Size (Size + c._length - 1) v - Size) v
          (fun i j hij hj => hs i j hij (by omega)) ?_ ?_ ?_ (by omega)
        · intro i j hij hj
          exact key i j hij (by omega)
        · intro i hi
          exact p3 (i + Size) (by omega) (by omega)
        · intro i hi1 hi2
          exact p4 (i + Size) (by omega) (by omega)
        · intro j hj
          exact insert_cells Size c._array (c._length - 1) _ x v _ _ _ p1 (by omega) (by omega)
            (by omega) (by omega) (by omega) j hj
      · rw [if_neg hc]
        by_cases hc2 : c._array (c._length - 1 + Size) < v
        · rw [if_pos hc2]
          refine ⟨hlen, ?_⟩
          intro i j hij hj
          simp only at hj
          simp only [y]
          rw [Function.update_noteq (show i + Size ≠ c._length - 1 + Size by omega),
            Function.update_noteq (show i + Size ≠ c._length - 1 by omega)]
          by_cases hjl : j = c._length - 1
          · subst hjl
            rw [Function.update_same]
            have h3 : c._array (c._length + Size - 2) ≤ c._array (i + Size) := by
              have e2 : c._length + Size - 2 = (c._length - 2) + Size := by omega
              rw [e2]
              rcases Nat.eq_or_lt_of_le (show i ≤ c._length - 2 by omega) with e | l
              · rw [e]
              · exact hs i (c._length - 2) l (by omega)
            exact le_trans (not_lt.mp hc) h3
          · rw [Function.update_noteq (by omega), Function.update_noteq (by omega)]
            exact hs i j hij hj
        · rw [if_neg hc2]
          exact ⟨hlen, hs⟩

theorem Zero_Ordered (Size : Nat) : Ordered Size (Zero : CriticalPointArray F) := by
  refine ⟨Nat.zero_le _, ?_⟩
  intro i j _ hj
  exact absurd hj (Nat.not_lt_zero _)

theorem SaveAll_Ordered (Size : Nat) (ps : List (F × F)) :
    ∀ c : CriticalPointArray F, Ordered Size c → Ordered Size (SaveAll Size c ps) := by
  induction ps with
  | nil => intro c h; exact h
  | cons p ps ih =>
    intro c h
    exact ih _ (Save_Ordered Size c p.1 p.2 h)

/-- With at least two slots, a full ordered array ignores a candidate that is not
above its last ordinate. -/
theorem Save_reject (Size : Nat) (c : CriticalPointArray F) (x v : F) (hS : 2 ≤ Size)
    (hfull : c._length = Size) (hord : Ordered Size c) (hv : v ≤ y Size c (Size - 1)) :
    Save Size c x v = c := by
  obtain ⟨_, hs⟩ := hord
  simp only [y] at hs hv
  have h1 : ¬ c._length < Size := by omega
  have e2 : c._length + Size - 2 = (Size - 2) + Size := by omega
  have e3 : c._length - 1 + Size = (Size - 1) + Size := by omega
  have h2 : ¬ c._array (c._length + Size - 2) < v := by
    rw [e2]
    exact not_lt.mpr (le_trans hv (hs (Size - 2) (Size - 1) (by omega) (by omega)))
  have h3 : ¬ c._array (c._length - 1 + Size) < v := by
    rw [e3]
    exact not_lt.mpr hv
  simp only [Save, if_neg h1, if_neg h2, if_neg h3]

/-- Claim C2, the code at the failing input: a full `CriticalPointArray<1>` tests
`_array(_length-2+Size)`, which is cell 0, the stored abscissa; after `Save(0,5)` and
`Save(0,3)` it holds the ordinate 3, not the largest ordinate 5. With two slots the same
calls keep 5 first. -/
theorem single_slot_keeps_smaller :
    ys 1 (SaveAll 1 (CriticalPointArray.Zero : CriticalPointArray ℚ) [(0, 5), (0, 3)]) = [3] ∧
    ys 2 (SaveAll 2 (CriticalPointArray.Zero : CriticalPointArray ℚ) [(0, 5), (0, 3)]) =
      [5, 3] := by
  constructor <;> decide

/-- Claim C10, the code at the failing input: a full `CriticalPointArray<1>` holding
`(0,5)` is offered `(1,3)`; 3 is not greater than the kept ordinate 5, yet the entry
becomes `(1,3)`. -/
theorem single_slot_rejection_overwrites :
    (SaveAll 1 (CriticalPointArray.Zero : CriticalPointArray ℚ) [(0, 5)]).size = 1 ∧
    xs (SaveAll 1 (CriticalPointArray.Zero : CriticalPointArray ℚ) [(0, 5)]) = [0] ∧
    ys 1 (SaveAll 1 (CriticalPointArray.Zero : CriticalPointArray ℚ) [(0, 5)]) = [5] ∧
    xs (Save 1 (SaveAll 1 (CriticalPointArray.Zero : CriticalPointArray ℚ) [(0, 5)]) 1 3) =
      [1] ∧
    ys 1 (Save 1 (SaveAll 1 (CriticalPointArray.Zero : CriticalPointArray ℚ) [(0, 5)]) 1 3) =
      [3] := by
  refine ⟨?_, ?_, ?_, ?_, ?_⟩ <;> decide

end CriticalPointArray

namespace Spline

/-! ## Storage -/

section Storage

variable {F : Type}

theorem prepare_num_breaks (BreaksSize : Option Nat) (ub : Nat → F) (uc : Nat → Nat → F)
    (s : Spline F) (n : Nat) : (prepare BreaksSize ub uc s n)._num_breaks = n := by
  unfold prepare
  cases BreaksSize with
  | none => by_cases h : s.breaks_size < n <;> simp [h]
  | some N => rfl

/-- After `prepare` the arrays can hold `n` breaks and `n-1` rows. -/
theorem prepare_holds (BreaksSize : Option Nat) (ub : Nat → F) (uc : Nat → Nat → F)
    (s0 : Spline F) (n : Nat) (hshape : Shaped BreaksSize s0)
    (hcap : ∀ N, BreaksSize = some N → n ≤ N) :
    Holds (prepare BreaksSize ub uc s0 n) n := by
  obtain ⟨h1, h2⟩ := hshape
  cases BreaksSize with
  | none =>
    by_cases h : s0.breaks_size < n
    · simp only [prepare, Holds, if_pos h]
      exact ⟨trivial, le_refl _, le_refl _⟩
    · simp only [prepare, Holds, if_neg h]
      exact ⟨trivial, by omega, by omega⟩
  | some N =>
    have := h2 N rfl
    have := hcap N rfl
    simp only [prepare, Holds]
    exact ⟨trivial, by omega, by omega⟩

theorem assertSize_cap (BreaksSize : Option Nat) (x y : List F)
    (hsize : _AssertSize BreaksSize x y = true) :
    y.length = x.length ∧ 2 ≤ x.length ∧ ∀ N, BreaksSize = some N → x.length ≤ N := by
  unfold _AssertSize at hsize
  cases BreaksSize with
  | none =>
    simp only [Bool.and_true, Bool.and_eq_true, decide_eq_true_eq] at hsize
    exact ⟨hsize.1, hsize.2, fun N h => by cases h⟩
  | some M =>
    simp only [Bool.and_eq_true, decide_eq_true_eq] at hsize
    refine ⟨hsize.1.1, hsize.1.2, fun N h => ?_⟩
    cases h
    exact hsize.2

theorem init_Shaped (BreaksSize : Option Nat) (ub : Nat → F) (uc : Nat → Nat → F) :
    Shaped BreaksSize (init BreaksSize ub uc) := by
  cases BreaksSize with
  | none => exact ⟨rfl, fun N h => by cases h⟩
  | some M => exact ⟨rfl, fun N h => by cases h; rfl⟩

end Storage

variable {F : Type} [LinearOrderedField F]

/-! ## The tridiagonal solve -/

/-- The elimination loop computes the reference recurrences. -/
theorem forward_loop_spec (E D C : Nat → F) : ∀ k : Nat,
    (∀ j, (forward_loop D k
        { c0 := Function.update E 0 (E 0 / D 0), c1 := Function.update C 1 (C 1 / D 0),
          l := E 0 }).c0 j = if j ≤ k then cprime E D j else E j) ∧
    (∀ i, (forward_loop D k
        { c0 := Function.update E 0 (E 0 / D 0), c1 := Function.update C 1 (C 1 / D 0),
          l := E 0 }).c1 i = if 1 ≤ i ∧ i ≤ k + 1 then rprime E D C (i - 1) else C i) ∧
    (forward_loop D k
        { c0 := Function.update E 0 (E 0 / D 0), c1 := Function.update C 1 (C 1 / D 0),
          l := E 0 }).l = E k := by
  intro k
  induction k with
  | zero =>
    refine ⟨?_, ?_, rfl⟩
    · intro j
      simp only [forward_loop, Function.update_apply]
      by_cases hj : j = 0
      · subst hj; simp [cprime]
      · rw [if_neg hj, if_neg (by omega)]
    · intro i
      simp only [forward_loop, Function.update_apply]
      by_cases hi : i = 1
      · subst hi; simp [rprime]
      · rw [if_neg hi, if_neg (by omega)]
  | succ k ih =>
    obtain ⟨h0, h1, hl⟩ := ih
    refine ⟨?_, ?_, ?_⟩
    · intro j
      simp only [forward_loop, forward_step, Function.update_apply, Nat.add_sub_cancel]
      by_cases hj : j = k + 1
      · subst hj
        rw [if_pos rfl, if_pos (le_refl _), h0 (k + 1), h0 k, hl, if_neg (by omega),
          if_pos (le_refl _)]
        simp only [cprime]
      · rw [if_neg hj, h0 j]
        by_cases hjk : j ≤ k
        · rw [if_pos hjk, if_pos (by omega)]
        · rw [if_neg hjk, if_neg (by omega)]
    · intro i
      simp only [forward_loop, forward_step, Function.update_apply, Nat.add_sub_cancel]
      by_cases hi : i = k + 1 + 1
      · subst hi
        rw [if_pos rfl, if_pos (by omega), h1 (k + 1 + 1), h1 (k + 1), h0 k, hl,
          if_neg (by omega), if_pos (by omega), if_pos (le_refl _)]
        simp only [rprime, Nat.add_sub_cancel]
      · rw [if_neg hi, h1 i]
        by_cases hik : 1 ≤ i ∧ i ≤ k + 1
        · rw [if_pos hik, if_pos (by omega)]
        · rw [if_neg hik, if_neg (by omega)]
    · simp only [forward_loop, forward_step]
      rw [h0 (k + 1), if_neg (by omega)]

/-- Back substitution: cells `1..m` are rewritten from the right, the others kept. -/
theorem backward_loop_spec (c0 : Nat → F) : ∀ (m : Nat) (c1 : Nat → F),
    (∀ i, (i = 0 ∨ m < i) → backward_loop c0 m c1 i = c1 i) ∧
    (∀ j, j < m →
      backward_loop c0 m c1 (j + 1) = c1 (j + 1) - c0 j * backward_loop c0 m c1 (j + 2)) := by
  intro m
  induction m with
  | zero =>
    intro c1
    exact ⟨fun i _ => rfl, fun j hj => absurd hj (Nat.not_lt_zero _)⟩
  | succ m ih =>
    intro c1
    obtain ⟨k1, k2⟩ := ih (backward_step c0 m c1)
    refine ⟨?_, ?_⟩
    · intro i hi
      simp only [backward_loop]
      rw [k1 i (by omega)]
      simp only [backward_step, Function.update_apply]
      rw [if_neg (by omega)]
    · intro j hj
      simp only [backward_loop]
      by_cases hjm : j < m
      · rw [k2 j hjm]
        simp only [backward_step, Function.update_apply]
        rw [if_neg (by omega)]
      · have e : j = m := by omega
        subst e
        rw [k1 (j + 1) (by omega), k1 (j + 2) (by omega)]
        simp only [backward_step]
        rw [Function.update_same, Function.update_noteq (by omega)]

/-- What `solve` leaves in column 1, in terms of the reference recurrences. -/
theorem solve_c1 (n : Nat) (w : Work F) (hn : 3 ≤ n) :
    (solve n w).c1 0 = w.c1 0 ∧
    (∀ i, n - 1 ≤ i → (solve n w).c1 i = w.c1 i) ∧
    (solve n w).c1 (n - 2) = rprime w.c0 w.c3 w.c1 (n - 3) ∧
    (∀ j, j < n - 3 → (solve n w).c1 (j + 1) =
      rprime w.c0 w.c3 w.c1 j - cprime w.c0 w.c3 j * (solve n w).c1 (j + 2)) := by
  obtain ⟨f0, f1, _⟩ := forward_loop_spec w.c0 w.c3 w.c1 (n - 3)
  simp only [solve]
  generalize hf : forward_loop w.c3 (n - 3)
    { c0 := Function.update w.c0 0 (w.c0 0 / w.c3 0),
      c1 := Function.update w.c1 1 (w.c1 1 / w.c3 0), l := w.c0 0 } = f at f0 f1
  obtain ⟨b1, b2⟩ := backward_loop_spec f.c0 (n - 3) f.c1
  refine ⟨?_, ?_, ?_, ?_⟩
  · rw [b1 0 (Or.inl rfl), f1 0, if_neg (by omega)]
  · intro i hi
    rw [b1 i (Or.inr (by omega)), f1 i, if_neg (by omega)]
  · rw [b1 (n - 2) (Or.inr (by omega)), f1 (n - 2), if_pos (by omega)]
    congr 1
  · intro j hj
    rw [b2 j hj, f1 (j + 1), if_pos (by omega), f0 j, if_pos (by omega)]
    simp only [Nat.add_sub_cancel]

/-- The tridiagonal equations hold for the result of elimination and back substitution
whenever the pivots are not zero. -/
theorem thomas_identity (E D C B : Nat → F) (N : Nat)
    (hp : ∀ j, j < N → pivot E D j ≠ 0)
    (hlast : 1 ≤ N → B N = rprime E D C (N - 1))
    (hback : ∀ j, j + 1 < N → B (j + 1) = rprime E D C j - cprime E D j * B (j + 2))
    (k : Nat) (hk : k < N) :
    (if k = 0 then 0 else E (k - 1) * B k) + D k * B (k + 1) +
      (if k + 1 < N then E k * B (k + 2) else 0) = C (k + 1) := by
  cases k with
  | zero =>
    have hD : D 0 ≠ 0 := hp 0 hk
    rw [if_pos rfl]
    by_cases h1 : 0 + 1 < N
    · rw [if_pos h1, hback 0 h1]
      simp only [rprime, cprime]
      field_simp
    · rw [if_neg h1]
      have hN : N = 1 := by omega
      subst hN
      rw [hlast (le_refl _)]
      simp only [rprime, Nat.sub_self]
      field_simp
  | succ j =>
    have hP : D (j + 1) - cprime E D j * E j ≠ 0 := hp (j + 1) hk
    rw [if_neg (Nat.succ_ne_zero j)]
    simp only [Nat.add_sub_cancel]
    have hb1 := hback j (by omega)
    by_cases h1 : j + 1 + 1 < N
    · rw [if_pos h1]
      have hb2 := hback (j + 1) h1
      simp only [rprime, cprime] at hb2
      have key : (D (j + 1) - cprime E D j * E j) * B (j + 1 + 1) =
          C (j + 2) - rprime E D C j * E j - E (j + 1) * B (j + 1 + 2) := by
        rw [hb2]; field_simp
      have hr : rprime E D C j = B (j + 1) + cprime E D j * B (j + 1 + 1) := by
        rw [hb1]; ring
      rw [hr] at key
      linear_combination key
    · rw [if_neg h1]
      have hN : N = j + 2 := by omega
      have hb2 := hlast (by omega)
      rw [hN] at hb2
      simp only [Nat.add_sub_cancel, rprime] at hb2
      have key : (D (j + 1) - cprime E D j * E j) * B (j + 1 + 1) =
          C (j + 2) - rprime E D C j * E j := by
        rw [show j + 1 + 1 = j + 2 from rfl, hb2]; field_simp
      have hr : rprime E D C j = B (j + 1) + cprime E D j * B (j + 1 + 1) := by
        rw [hb1]; ring
      rw [hr] at key
      linear_combination key

/-- Pivots of the spline system are positive and the modified super-diagonal
stays in `(0, 1/2)`. -/
theorem pivot_pos (E D h : Nat → F) (N : Nat)
    (hh : ∀ j, j ≤ N → 0 < h j)
    (hE : ∀ j, j + 1 < N → E j = h (j + 1))
    (hD : ∀ j, j < N → D j = 2 * (h j + h (j + 1))) :
    ∀ j, j < N → 0 < pivot E D j ∧ (j + 1 < N → 0 < cprime E D j ∧ 2 * cprime E D j < 1) := by
  intro j
  induction j with
  | zero =>
    intro hj
    have h0 := hh 0 (by omega)
    have h1 := hh 1 (by omega)
    have hD0 : 0 < D 0 := by rw [hD 0 hj]; linarith
    refine ⟨hD0, ?_⟩
    intro hj1
    simp only [cprime]
    rw [hE 0 hj1]
    refine ⟨div_pos h1 hD0, ?_⟩
    rw [← mul_div_assoc, div_lt_one hD0, hD 0 hj]
    linarith
  | succ j ih =>
    intro hj
    obtain ⟨_, hc⟩ := ih (by omega)
    obtain ⟨c1, c2⟩ := hc hj
    have h1 := hh (j + 1) (by omega)
    have h2 := hh (j + 2) (by omega)
    have hP : 0 < D (j + 1) - cprime E D j * E j := by
      rw [hD (j + 1) hj, hE j hj]
      nlinarith
    refine ⟨hP, ?_⟩
    intro hj1
    simp only [cprime]
    rw [hE (j + 1) hj1]
    have e : h (j + 1 + 1) * (1 / (D (j + 1) - cprime E D j * E j)) =
        h (j + 1 + 1) / (D (j + 1) - cprime E D j * E j) := by ring
    rw [e]
    refine ⟨div_pos h2 hP, ?_⟩
    rw [← mul_div_assoc, div_lt_one hP, hD (j + 1) hj, hE j hj]
    nlinarith

/-! ## Assembly and coefficients -/

theorem assemble_br (n : Nat) (w : Work F) (x y : List F) (i : Nat) (hi : i < n - 1) :
    (assemble n w x y).br i = dx x i := by
  simp only [assemble, dx]
  rw [if_pos hi]

theorem assemble_c2 (n : Nat) (w : Work F) (x y : List F) (i : Nat) (hi : i < n - 1) :
    (assemble n w x y).c2 i = slope x y i := by
  simp only [assemble, slope, dx]
  rw [if_pos hi, if_pos hi]

theorem assemble_c1_zero (n : Nat) (w : Work F) (x y : List F) :
    (assemble n w x y).c1 0 = 0 := by
  simp only [assemble]
  rw [if_neg (by omega), Function.update_same]

theorem assemble_c1 (n : Nat) (w : Work F) (x y : List F) (i : Nat) (h1 : 1 ≤ i)
    (h2 : i + 2 ≤ n) :
    (assemble n w x y).c1 i = 3 * (slope x y i - slope x y (i - 1)) := by
  have a1 : i < n - 1 := by omega
  have a2 : i - 1 < n - 1 := by omega
  have a3 : 1 ≤ i ∧ i < 1 + (n - 2) := by omega
  simp only [assemble, slope, dx]
  rw [if_pos a3]
  simp only [if_pos a1, if_pos a2]

theorem assemble_c3 (n : Nat) (w : Work F) (x y : List F) (j : Nat) (hj : j + 3 ≤ n) :
    (assemble n w x y).c3 j = 2 * (dx x j + dx x (j + 1)) := by
  have e : 2 * (dx x j + dx x (j + 1)) = 2 * (elem x (j + 2) - elem x j) := by
    simp only [dx]; ring
  rw [e]
  simp only [assemble]
  by_cases h3 : j = n - 3
  · have e1 : n - 1 = j + 2 := by omega
    rw [← h3, Function.update_same, e1]
  · rw [Function.update_noteq h3]
    by_cases h0 : j = 0
    · subst h0
      rw [Function.update_same]
    · rw [Function.update_noteq h0, if_pos (by omega)]

theorem assemble_c0 (n : Nat) (w : Work F) (x y : List F) (j : Nat) (hj : j + 3 < n) :
    (assemble n w x y).c0 j = dx x (j + 1) := by
  simp only [assemble, dx]
  rw [if_pos (by omega), if_pos (by omega)]

theorem solve_br (n : Nat) (w : Work F) : (solve n w).br = w.br := rfl

theorem solve_c2 (n : Nat) (w : Work F) : (solve n w).c2 = w.c2 := rfl

/-- The solved column: zero at row 0 and a solution of the tridiagonal system. -/
theorem solved_system (n : Nat) (w : Work F) (x y : List F) (hn : 3 ≤ n)
    (hx : ∀ i, i < n - 1 → 0 < dx x i) :
    (solve n (assemble n w x y)).c1 0 = 0 ∧
    ∀ k, k + 2 < n →
      dx x k * (solve n (assemble n w x y)).c1 k +
        2 * (dx x k + dx x (k + 1)) * (solve n (assemble n w x y)).c1 (k + 1) +
        dx x (k + 1) * (if k + 3 < n then (solve n (assemble n w x y)).c1 (k + 2) else 0) =
      3 * (slope x y (k + 1) - slope x y k) := by
  obtain ⟨s0, _, s2, s3⟩ := solve_c1 n (assemble n w x y) hn
  have hB0 : (solve n (assemble n w x y)).c1 0 = 0 := by
    rw [s0, assemble_c1_zero]
  refine ⟨hB0, ?_⟩
  intro k hk
  have hpiv := pivot_pos (assemble n w x y).c0 (assemble n w x y).c3 (dx x) (n - 2)
    (fun j hj => hx j (by omega))
    (fun j hj => assemble_c0 n w x y j (by omega))
    (fun j hj => assemble_c3 n w x y j (by omega))
  have key := thomas_identity (assemble n w x y).c0 (assemble n w x y).c3
    (assemble n w x y).c1 (solve n (assemble n w x y)).c1 (n - 2)
    (fun j hj => ne_of_gt (hpiv j hj).1)
    (fun _ => by rw [s2]; congr 1)
    (fun j hj => s3 j (by omega)) k (by omega)
  rw [assemble_c3 n w x y k (by omega), assemble_c1 n w x y (k + 1) (by omega) (by omega)] at key
  simp only [Nat.add_sub_cancel] at key
  rw [← key]
  have t1 : (if k = 0 then (0 : F) else (assemble n w x y).c0 (k - 1) *
      (solve n (assemble n w x y)).c1 k) = dx x k * (solve n (assemble n w x y)).c1 k := by
    by_cases h0 : k = 0
    · subst h0
      rw [if_pos rfl, hB0, mul_zero]
    · rw [if_neg h0, assemble_c0 n w x y (k - 1) (by omega)]
      have : k - 1 + 1 = k := by omega
      rw [this]
  have t2 : (if k + 1 < n - 2 then (assemble n w x y).c0 k *
      (solve n (assemble n w x y)).c1 (k + 2) else (0 : F)) =
      dx x (k + 1) * (if k + 3 < n then (solve n (assemble n w x y)).c1 (k + 2) else 0) := by
    by_cases h3 : k + 3 < n
    · rw [if_pos (by omega), if_pos h3, assemble_c0 n w x y k h3]
    · rw [if_neg (by omega), if_neg h3, mul_zero]
  rw [t1, t2]

/-- When both assertions pass, `set` returns the built spline. -/
theorem set_eq_build (BreaksSize : Option Nat) (ub : Nat → F) (uc : Nat → Nat → F)
    (s0 : Spline F) (x y : List F) (hsize : _AssertSize BreaksSize x y = true)
    (hasc : ascending x = true) :
    set BreaksSize ub uc s0 x y = some (build (prepare BreaksSize ub uc s0 x.length) x y) := by
  simp only [set, _SetSpline, hsize, hasc, if_true]

theorem ascending_dx_pos (x : List F) (hasc : ascending x = true) :
    ∀ i, i < x.length - 1 → 0 < dx x i := by
  intro i hi
  have := of_decide_eq_true hasc i hi
  simp only [dx]
  linarith

/-- Strictly ascending input read through `elem`. -/
theorem ascending_lt (x : List F) (hasc : ascending x = true) :
    ∀ i j, i < j → j < x.length → elem x i < elem x j := by
  have hadj := of_decide_eq_true hasc
  intro i j hij
  induction j with
  | zero => exact absurd hij (Nat.not_lt_zero _)
  | succ j ih =>
    intro hj
    have hstep := hadj j (by omega)
    rcases Nat.eq_or_lt_of_le (Nat.le_of_lt_succ hij) with e | l
    · rw [e]; exact hstep
    · exact lt_trans (ih l (by omega)) hstep

theorem build_num_breaks (s : Spline F) (x y : List F) :
    (build s x y)._num_breaks = s._num_breaks := by
  unfold build
  by_cases h : s._num_breaks = 2 <;> simp [h, store]

theorem build_breaks_size (s : Spline F) (x y : List F) :
    (build s x y).breaks_size = s.breaks_size := by
  unfold build
  by_cases h : s._num_breaks = 2 <;> simp [h, store]

theorem build_coeffs_rows (s : Spline F) (x y : List F) :
    (build s x y).coeffs_rows = s.coeffs_rows := by
  unfold build
  by_cases h : s._num_breaks = 2 <;> simp [h, store]

theorem build_holds (s : Spline F) (x y : List F) (n : Nat) (h : Holds s n) :
    Holds (build s x y) n := by
  unfold Holds at *
  rw [build_num_breaks, build_breaks_size, build_coeffs_rows]
  exact h

/-- Column 1 after the general branch is the solved column. -/
theorem build_c1 (s : Spline F) (x y : List F) (hn : 3 ≤ s._num_breaks) (i : Nat) :
    (build s x y)._coeffs i 1 =
      (solve s._num_breaks (assemble s._num_breaks (load s) x y)).c1 i := by
  have h2 : ¬ s._num_breaks = 2 := by omega
  simp only [build, if_neg h2, store, coefficients]
  simp

theorem build_c0 (s : Spline F) (x y : List F) (hn : 3 ≤ s._num_breaks) (i : Nat)
    (hi : i + 2 < s._num_breaks) :
    (build s x y)._coeffs i 0 =
      ((build s x y)._coeffs (i + 1) 1 - (build s x y)._coeffs i 1) / (3 * dx x i) := by
  rw [build_c1 s x y hn, build_c1 s x y hn]
  have h2 : ¬ s._num_breaks = 2 := by omega
  simp only [build, if_neg h2, store, coefficients, if_true]
  rw [Function.update_noteq (by omega), if_pos (by omega), solve_br,
    assemble_br _ _ _ _ _ (by omega)]

theorem build_c0_last (s : Spline F) (x y : List F) (hn : 3 ≤ s._num_breaks) :
    (build s x y)._coeffs (s._num_breaks - 2) 0 =
      - (build s x y)._coeffs (s._num_breaks - 2) 1 / (3 * dx x (s._num_breaks - 2)) := by
  rw [build_c1 s x y hn]
  have h2 : ¬ s._num_breaks = 2 := by omega
  simp only [build, if_neg h2, store, coefficients, if_true]
  rw [Function.update_same, solve_br, assemble_br _ _ _ _ _ (by omega)]

theorem build_c2 (s : Spline F) (x y : List F) (hn : 3 ≤ s._num_breaks) (i : Nat)
    (hi : i + 2 < s._num_breaks) :
    (build s x y)._coeffs i 2 =
      slope x y i -
        (2 * (build s x y)._coeffs i 1 + (build s x y)._coeffs (i + 1) 1) * dx x i / 3 := by
  rw [build_c1 s x y hn, build_c1 s x y hn]
  have h2 : ¬ s._num_breaks = 2 := by omega
  simp only [build, if_neg h2, store, coefficients]
  simp only [show (2 : Nat) ≠ 0 by decide, show (2 : Nat) ≠ 1 by decide, if_false, if_true]
  rw [Function.update_noteq (by omega), if_pos (by omega), solve_br, solve_c2,
    assemble_br _ _ _ _ _ (by omega), assemble_c2 _ _ _ _ _ (by omega)]

theorem build_c2_last (s : Spline F) (x y : List F) (hn : 3 ≤ s._num_breaks) :
    (build s x y)._coeffs (s._num_breaks - 2) 2 =
      slope x y (s._num_breaks - 2) -
        2 * (build s x y)._coeffs (s._num_breaks - 2) 1 * dx x (s._num_breaks - 2) / 3 := by
  rw [build_c1 s x y hn]
  have h2 : ¬ s._num_breaks = 2 := by omega
  simp only [build, if_neg h2, store, coefficients]
  simp only [show (2 : Nat) ≠ 0 by decide, show (2 : Nat) ≠ 1 by decide, if_false, if_true]
  rw [Function.update_same, if_neg (by omega), solve_br, solve_c2,
    assemble_br _ _ _ _ _ (by omega), assemble_c2 _ _ _ _ _ (by omega)]

theorem build_c3 (s : Spline F) (x y : List F) (hn : 3 ≤ s._num_breaks) (i : Nat)
    (hi : i + 1 < s._num_breaks) :
    (build s x y)._coeffs i 3 = elem y i := by
  have h2 : ¬ s._num_breaks = 2 := by omega
  simp only [build, if_neg h2, store, coefficients]
  simp only [show (3 : Nat) ≠ 0 by decide, show (3 : Nat) ≠ 1 by decide,
    show (3 : Nat) ≠ 2 by decide, if_false, if_true]
  rw [if_pos (by omega)]

theorem build_breaks (s : Spline F) (x y : List F) (i : Nat)
    (hi : i < s._num_breaks) :
    (build s x y)._breaks i = elem x i := by
  by_cases h2 : s._num_breaks = 2
  · simp only [build, if_pos h2, store, build_two, load]
    by_cases h1 : i = 1
    · subst h1; rw [Function.update_same]
    · have h0 : i = 0 := by omega
      subst h0
      rw [Function.update_noteq (by omega), Function.update_same]
  · simp only [build, if_neg h2, store, coefficients]
    rw [if_pos hi]

/-- The solved column of the built spline satisfies the tridiagonal system. -/
theorem build_system (s : Spline F) (x y : List F) (hn : 3 ≤ s._num_breaks)
    (hx : ∀ i, i < s._num_breaks - 1 → 0 < dx x i) :
    (build s x y)._coeffs 0 1 = 0 ∧
    ∀ k, k + 2 < s._num_breaks →
      dx x k * (build s x y)._coeffs k 1 +
        2 * (dx x k + dx x (k + 1)) * (build s x y)._coeffs (k + 1) 1 +
        dx x (k + 1) * (if k + 3 < s._num_breaks then (build s x y)._coeffs (k + 2) 1 else 0) =
      3 * (slope x y (k + 1) - slope x y k) := by
  obtain ⟨h0, hk⟩ := solved_system s._num_breaks (load s) x y hn hx
  refine ⟨by rw [build_c1 s x y hn]; exact h0, ?_⟩
  intro k hk2
  rw [build_c1 s x y hn, build_c1 s x y hn, build_c1 s x y hn]
  exact hk k hk2

/-- Every cubic of the general branch starts at `y[i]` and reaches `y[i+1]` at the
right end of its segment. -/
theorem build_segment_ends (s : Spline F) (x y : List F) (hn : 3 ≤ s._num_breaks)
    (hx : ∀ i, i < s._num_breaks - 1 → 0 < dx x i) (i : Nat) (hi : i + 2 ≤ s._num_breaks) :
    (build s x y)._coeffs i 3 = elem y i ∧
    (build s x y)._coeffs i 0 * dx x i ^ 3 + (build s x y)._coeffs i 1 * dx x i ^ 2 +
      (build s x y)._coeffs i 2 * dx x i + (build s x y)._coeffs i 3 = elem y (i + 1) := by
  have hd := build_c3 s x y hn i (by omega)
  refine ⟨hd, ?_⟩
  have hpos : 0 < dx x i := hx i (by omega)
  have hne : dx x i ≠ 0 := ne_of_gt hpos
  have hm : slope x y i * dx x i = elem y (i + 1) - elem y i := by
    simp only [slope]
    field_simp
  rw [hd]
  by_cases hlast : i + 2 = s._num_breaks
  · have e : i = s._num_breaks - 2 := by omega
    have a := build_c0_last s x y hn
    have c := build_c2_last s x y hn
    rw [← e] at a c
    rw [a, c]
    field_simp
    linear_combination (9 * dx x i) * hm
  · have a := build_c0 s x y hn i (by omega)
    have c := build_c2 s x y hn i (by omega)
    rw [a, c]
    field_simp
    linear_combination (9 * dx x i) * hm

/-! ## Continuity of the built spline -/

/-- Claim C4: for every `x`, `y` that pass the assertions of `set`, with three or more
points, `set` builds a spline and at every interior breakpoint `j` (`1 <= j <= n-2`)
`3*a[j-1]*D^2 + 2*b[j-1]*D + c[j-1] = c[j]` with `D = x[j] - x[j-1]`: the first
derivatives of the two segments meeting at `x[j]` agree. (For `n = 3` the slices of
length `n-4` assign nothing.) -/
theorem first_derivative_continuity (BreaksSize : Option Nat) (ub : Nat → F)
    (uc : Nat → Nat → F) (s0 : Spline F) (x y : List F)
    (hsize : _AssertSize BreaksSize x y = true) (hasc : ascending x = true)
    (hn : 3 ≤ x.length) :
    ∃ s, set BreaksSize ub uc s0 x y = some s ∧
      ∀ j, 1 ≤ j → j + 2 ≤ x.length →
        3 * s._coeffs (j - 1) 0 * (elem x j - elem x (j - 1)) ^ 2 +
          2 * s._coeffs (j - 1) 1 * (elem x j - elem x (j - 1)) + s._coeffs (j - 1) 2 =
        s._coeffs j 2 := by
  refine ⟨_, set_eq_build BreaksSize ub uc s0 x y hsize hasc, ?_⟩
  intro j h1 h2
  have hnb := prepare_num_breaks BreaksSize ub uc s0 x.length
  generalize prepare BreaksSize ub uc s0 x.length = s at hnb
  have hn3 : 3 ≤ s._num_breaks := by omega
  have hx : ∀ i, i < s._num_breaks - 1 → 0 < dx x i := by
    rw [hnb]; exact ascending_dx_pos x hasc
  obtain ⟨_, hsys⟩ := build_system s x y hn3 hx
  have hk := hsys (j - 1) (by omega)
  have ej : j - 1 + 1 = j := by omega
  have ej2 : j - 1 + 2 = j + 1 := by omega
  rw [ej, ej2] at hk
  have hd : elem x j - elem x (j - 1) = dx x (j - 1) := by
    simp only [dx, ej]
  have hpos : 0 < dx x (j - 1) := hx (j - 1) (by omega)
  have hposj : 0 < dx x j := hx j (by omega)
  have hne : dx x (j - 1) ≠ 0 := ne_of_gt hpos
  have a0 := build_c0 s x y hn3 (j - 1) (by omega)
  have c0 := build_c2 s x y hn3 (j - 1) (by omega)
  rw [ej] at a0 c0
  rw [hd, a0, c0]
  by_cases hlast : j + 2 = s._num_breaks
  · have ejl : j = s._num_breaks - 2 := by omega
    have cl := build_c2_last s x y hn3
    rw [← ejl] at cl
    rw [if_neg (by omega), mul_zero, add_zero] at hk
    rw [cl]
    field_simp
    linear_combination (9 * dx x (j - 1)) * hk
  · have cj := build_c2 s x y hn3 j (by omega)
    rw [if_pos (by omega)] at hk
    rw [cj]
    field_simp
    linear_combination (9 * dx x (j - 1)) * hk

/-- Witness of C4: five points on a dynamic spline. -/
theorem first_derivative_continuity_witness :
    _AssertSize none [(0 : ℚ), 1, 2, 3, 4] [(0 : ℚ), 1, 0, 1, 0] = true ∧
    ascending [(0 : ℚ), 1, 2, 3, 4] = true ∧ 3 ≤ [(0 : ℚ), 1, 2, 3, 4].length ∧
    ∃ s, set none zero_cells zero_rows (init none zero_cells zero_rows)
        [0, 1, 2, 3, 4] [0, 1, 0, 1, 0] = some s ∧
      ∀ j, 1 ≤ j → j + 2 ≤ [(0 : ℚ), 1, 2, 3, 4].length →
        3 * s._coeffs (j - 1) 0 *
            (elem [(0 : ℚ), 1, 2, 3, 4] j - elem [(0 : ℚ), 1, 2, 3, 4] (j - 1)) ^ 2 +
          2 * s._coeffs (j - 1) 1 *
            (elem [(0 : ℚ), 1, 2, 3, 4] j - elem [(0 : ℚ), 1, 2, 3, 4] (j - 1)) +
          s._coeffs (j - 1) 2 = s._coeffs j 2 :=
  ⟨by decide, by decide, by decide,
    first_derivative_continuity none zero_cells zero_rows _ _ _ (by decide) (by decide)
      (by decide)⟩

/-- Claim C5: for every `x`, `y` that pass the assertions of `set`, with three or more
points, every segment `i` (`0 <= i <= n-2`) of the built spline has `coeffs[i][3] = y[i]`,
its cubic at `h = x[i+1] - x[i]` equals `y[i+1]` (as a polynomial in `h` and as the value
of `operator()(x[i+1], i)`), and the two cubics meeting at an interior breakpoint take
the same value there. -/
theorem segment_interpolation (BreaksSize : Option Nat) (ub : Nat → F)
    (uc : Nat → Nat → F) (s0 : Spline F) (x y : List F)
    (hsize : _AssertSize BreaksSize x y = true) (hasc : ascending x = true)
    (hn : 3 ≤ x.length) :
    ∃ s, set BreaksSize ub uc s0 x y = some s ∧
      (∀ i, i + 2 ≤ x.length →
        s._coeffs i 3 = elem y i ∧
        s._coeffs i 0 * (elem x (i + 1) - elem x i) ^ 3 +
          s._coeffs i 1 * (elem x (i + 1) - elem x i) ^ 2 +
          s._coeffs i 2 * (elem x (i + 1) - elem x i) + s._coeffs i 3 = elem y (i + 1) ∧
        cubic s (elem x (i + 1)) i = elem y (i + 1)) ∧
      (∀ j, 1 ≤ j → j + 2 ≤ x.length →
        cubic s (elem x j) (j - 1) = cubic s (elem x j) j) := by
  refine ⟨_, set_eq_build BreaksSize ub uc s0 x y hsize hasc, ?_⟩
  have hnb := prepare_num_breaks BreaksSize ub uc s0 x.length
  generalize prepare BreaksSize ub uc s0 x.length = s at hnb
  have hn3 : 3 ≤ s._num_breaks := by omega
  have hx : ∀ i, i < s._num_breaks - 1 → 0 < dx x i := by
    rw [hnb]; exact ascending_dx_pos x hasc
  have ends : ∀ i, i + 2 ≤ x.length →
      (build s x y)._coeffs i 3 = elem y i ∧
      (build s x y)._coeffs i 0 * (elem x (i + 1) - elem x i) ^ 3 +
        (build s x y)._coeffs i 1 * (elem x (i + 1) - elem x i) ^ 2 +
        (build s x y)._coeffs i 2 * (elem x (i + 1) - elem x i) + (build s x y)._coeffs i 3 =
        elem y (i + 1) ∧
      cubic (build s x y) (elem x (i + 1)) i = elem y (i + 1) := by
    intro i hi
    obtain ⟨e1, e2⟩ := build_segment_ends s x y hn3 hx i (by omega)
    simp only [dx] at e2
    refine ⟨e1, e2, ?_⟩
    simp only [cubic]
    rw [build_breaks s x y i (by omega), ← e2]
    ring
  refine ⟨ends, ?_⟩
  intro j h1 h2
  have ej : j - 1 + 1 = j := by omega
  have hl := (ends (j - 1) (by omega)).2.2
  rw [ej] at hl
  rw [hl]
  simp only [cubic]
  rw [build_breaks s x y j (by omega), (ends j h2).1]
  ring

/-- Witness of C5: four points in a spline of capacity 6 whose storage holds stale
content. -/
theorem segment_interpolation_witness :
    _AssertSize (some 6) [(0 : ℚ), 1, 3, 4] [(1 : ℚ), 2, 0, 5] = true ∧
    ascending [(0 : ℚ), 1, 3, 4] = true ∧ 3 ≤ [(0 : ℚ), 1, 3, 4].length ∧
    ∃ s, set (some 6) stale_cells stale_rows (init (some 6) stale_cells stale_rows)
        [0, 1, 3, 4] [1, 2, 0, 5] = some s ∧
      (∀ i, i + 2 ≤ [(0 : ℚ), 1, 3, 4].length →
        s._coeffs i 3 = elem [(1 : ℚ), 2, 0, 5] i ∧
        s._coeffs i 0 * (elem [(0 : ℚ), 1, 3, 4] (i + 1) - elem [(0 : ℚ), 1, 3, 4] i) ^ 3 +
          s._coeffs i 1 * (elem [(0 : ℚ), 1, 3, 4] (i + 1) - elem [(0 : ℚ), 1, 3, 4] i) ^ 2 +
          s._coeffs i 2 * (elem [(0 : ℚ), 1, 3, 4] (i + 1) - elem [(0 : ℚ), 1, 3, 4] i) +
          s._coeffs i 3 = elem [(1 : ℚ), 2, 0, 5] (i + 1) ∧
        cubic s (elem [(0 : ℚ), 1, 3, 4] (i + 1)) i = elem [(1 : ℚ), 2, 0, 5] (i + 1)) ∧
      (∀ j, 1 ≤ j → j + 2 ≤ [(0 : ℚ), 1, 3, 4].length →
        cubic s (elem [(0 : ℚ), 1, 3, 4] j) (j - 1) = cubic s (elem [(0 : ℚ), 1, 3, 4] j) j) :=
  ⟨by decide, by decide, by decide,
    segment_interpolation (some 6) stale_cells stale_rows _ _ _ (by decide) (by decide)
      (by decide)⟩

/-- Claim C6: for every `x`, `y` that pass the assertions of `set`, with three or more
points, at every interior breakpoint `j` (`1 <= j <= n-2`) of the built spline
`6*a[j-1]*(x[j]-x[j-1]) + 2*b[j-1] = 2*b[j]`: the second derivatives of the two segments
meeting at `x[j]` agree. -/
theorem second_derivative_continuity (BreaksSize : Option Nat) (ub : Nat → F)
    (uc : Nat → Nat → F) (s0 : Spline F) (x y : List F)
    (hsize : _AssertSize BreaksSize x y = true) (hasc : ascending x = true)
    (hn : 3 ≤ x.length) :
    ∃ s, set BreaksSize ub uc s0 x y = some s ∧
      ∀ j, 1 ≤ j → j + 2 ≤ x.length →
        6 * s._coeffs (j - 1) 0 * (elem x j - elem x (j - 1)) + 2 * s._coeffs (j - 1) 1 =
        2 * s._coeffs j 1 := by
  refine ⟨_, set_eq_build BreaksSize ub uc s0 x y hsize hasc, ?_⟩
  intro j h1 h2
  have hnb := prepare_num_breaks BreaksSize ub uc s0 x.length
  generalize prepare BreaksSize ub uc s0 x.length = s at hnb
  have hn3 : 3 ≤ s._num_breaks := by omega
  have hx : ∀ i, i < s._num_breaks - 1 → 0 < dx x i := by
    rw [hnb]; exact ascending_dx_pos x hasc
  have ej : j - 1 + 1 = j := by omega
  have hd : elem x j - elem x (j - 1) = dx x (j - 1) := by
    simp only [dx, ej]
  have hne : dx x (j - 1) ≠ 0 := ne_of_gt (hx (j - 1) (by omega))
  have a0 := build_c0 s x y hn3 (j - 1) (by omega)
  rw [ej] at a0
  rw [hd, a0]
  field_simp
  ring

/-- Witness of C6: three points, the smallest general build, on a dynamic spline. -/
theorem second_derivative_continuity_witness :
    _AssertSize none [(0 : ℚ), 2, 5] [(1 : ℚ), 0, 4] = true ∧
    ascending [(0 : ℚ), 2, 5] = true ∧ 3 ≤ [(0 : ℚ), 2, 5].length ∧
    ∃ s, set none zero_cells zero_rows (init none zero_cells zero_rows)
        [0, 2, 5] [1, 0, 4] = some s ∧
      ∀ j, 1 ≤ j → j + 2 ≤ [(0 : ℚ), 2, 5].length →
        6 * s._coeffs (j - 1) 0 * (elem [(0 : ℚ), 2, 5] j - elem [(0 : ℚ), 2, 5] (j - 1)) +
          2 * s._coeffs (j - 1) 1 = 2 * s._coeffs j 1 :=
  ⟨by decide, by decide, by decide,
    second_derivative_continuity none zero_cells zero_rows _ _ _ (by decide) (by decide)
      (by decide)⟩

/-! ## The evaluator -/

/-- The signed expression `max(distance - 1, 0)` is the truncated predecessor. -/
theorem segment_index_eq (s : Spline F) (q : F) :
    segment_index s q = upper_bound s._breaks 0 s._num_breaks q - 1 := by
  simp only [segment_index]
  omega

/-- Where `operator()` looks when the first `n` breaks are strictly ascending. -/
theorem segment_index_spec (s : Spline F) (n : Nat) (hnb : s._num_breaks = n)
    (hs : ∀ i j, i < j → j < n → s._breaks i < s._breaks j) (q : F) :
    (q < s._breaks 0 → segment_index s q = 0) ∧
    (1 ≤ n → s._breaks (n - 1) ≤ q → segment_index s q = n - 1) ∧
    (s._breaks 0 ≤ q → q < s._breaks (n - 1) →
      s._breaks (segment_index s q) ≤ q ∧ q < s._breaks (segment_index s q + 1) ∧
      segment_index s q + 2 ≤ n) := by
  have hmono : ∀ i j, i ≤ j → j < n → s._breaks i ≤ s._breaks j := by
    intro i j hij hj
    rcases Nat.eq_or_lt_of_le hij with e | l
    · rw [e]
    · exact le_of_lt (hs i j l hj)
  obtain ⟨u1, u2, u3⟩ := upper_bound_spec s._breaks n q hmono
  rw [segment_index_eq, hnb]
  refine ⟨?_, ?_, ?_⟩
  · intro hq
    have : upper_bound s._breaks 0 n q = 0 := by
      by_contra hne
      exact absurd (u2 0 (Nat.pos_of_ne_zero hne)) (not_le.mpr hq)
    rw [this]
  · intro hn hq
    have : upper_bound s._breaks 0 n q = n := by
      by_contra hne
      have hlt : upper_bound s._breaks 0 n q < n := lt_of_le_of_ne u1 hne
      have h1 := u3 (upper_bound s._breaks 0 n q) (le_refl _) hlt
      have h2 := hmono (upper_bound s._breaks 0 n q) (n - 1) (by omega) (by omega)
      exact absurd (lt_of_lt_of_le h1 h2) (not_lt.mpr hq)
    rw [this]
  · intro h0 hlast
    have hp1 : 1 ≤ upper_bound s._breaks 0 n q := by
      by_contra hne
      have hz : upper_bound s._breaks 0 n q = 0 := by omega
      have hn0 : 0 < n := by
        by_contra hn0
        have : n = 0 := by omega
        subst this
        exact absurd (lt_of_le_of_lt h0 hlast) (lt_irrefl _)
      have := u3 0 (by omega) hn0
      exact absurd this (not_lt.mpr h0)
    have hp2 : upper_bound s._breaks 0 n q < n := by
      by_contra hne
      have hz : upper_bound s._breaks 0 n q = n := by omega
      have := u2 (n - 1) (by omega)
      exact absurd this (not_le.mpr hlast)
    refine ⟨u2 _ (by omega), ?_, by omega⟩
    have e : upper_bound s._breaks 0 n q - 1 + 1 = upper_bound s._breaks 0 n q := by omega
    rw [e]
    exact u3 _ (le_refl _) hp2

/-- Claim C8: for every built spline (storage shaped as the class lays it out, input
passing the assertions of `set`) and every query `q`: if `breaks[0] <= q < breaks[n-1]`
the index `i` chosen by `operator()(q)` has `breaks[i] <= q < breaks[i+1]`; if
`q < breaks[0]` the index is 0; and for `q < breaks[n-1]` the call returns
`((a_i*h + b_i)*h + c_i)*h + d_i` with `h = q - breaks[i]`, the value of
`operator()(q, i)`. -/
theorem segment_location (BreaksSize : Option Nat) (ub : Nat → F) (uc : Nat → Nat → F)
    (s0 : Spline F) (x y : List F) (hshape : Shaped BreaksSize s0)
    (hsize : _AssertSize BreaksSize x y = true) (hasc : ascending x = true) :
    ∃ s, set BreaksSize ub uc s0 x y = some s ∧
      (∀ q, s._breaks 0 ≤ q → q < s._breaks (x.length - 1) →
        s._breaks (segment_index s q) ≤ q ∧ q < s._breaks (segment_index s q + 1)) ∧
      (∀ q, q < s._breaks 0 → segment_index s q = 0) ∧
      (∀ q, q < s._breaks (x.length - 1) →
        operator_call s q =
          some (((s._coeffs (segment_index s q) 0 * (q - s._breaks (segment_index s q)) +
            s._coeffs (segment_index s q) 1) * (q - s._breaks (segment_index s q)) +
            s._coeffs (segment_index s q) 2) * (q - s._breaks (segment_index s q)) +
            s._coeffs (segment_index s q) 3) ∧
        operator_call s q = operator_call_at s q (segment_index s q)) := by
  refine ⟨_, set_eq_build BreaksSize ub uc s0 x y hsize hasc, ?_⟩
  obtain ⟨_, hn2, hcap⟩ := assertSize_cap BreaksSize x y hsize
  have hold := build_holds _ x y _ (prepare_holds BreaksSize ub uc s0 x.length hshape hcap)
  have hnb := prepare_num_breaks BreaksSize ub uc s0 x.length
  generalize prepare BreaksSize ub uc s0 x.length = s1 at hold hnb
  have hbr : ∀ i, i < x.length → (build s1 x y)._breaks i = elem x i := by
    intro i hi
    exact build_breaks s1 x y i (by omega)
  have hs : ∀ i j, i < j → j < x.length →
      (build s1 x y)._breaks i < (build s1 x y)._breaks j := by
    intro i j hij hj
    rw [hbr i (by omega), hbr j hj]
    exact ascending_lt x hasc i j hij hj
  obtain ⟨hnum, hb, hc⟩ := hold
  refine ⟨?_, ?_, ?_⟩
  · intro q h0 h1
    obtain ⟨r1, r2, _⟩ := (segment_index_spec (build s1 x y) x.length hnum hs q).2.2 h0 h1
    exact ⟨r1, r2⟩
  · intro q h0
    exact (segment_index_spec (build s1 x y) x.length hnum hs q).1 h0
  · intro q h1
    refine ⟨?_, rfl⟩
    have hidx : segment_index (build s1 x y) q + 2 ≤ x.length := by
      by_cases h0 : (build s1 x y)._breaks 0 ≤ q
      · exact ((segment_index_spec (build s1 x y) x.length hnum hs q).2.2 h0 h1).2.2
      · rw [(segment_index_spec (build s1 x y) x.length hnum hs q).1 (not_le.mp h0)]
        omega
    simp only [operator_call, operator_call_at, cubic]
    rw [if_pos ⟨by omega, by omega⟩]

/-- Witness of C8: two points on a freshly constructed dynamic spline. -/
theorem segment_location_witness :
    Shaped none (init none zero_cells zero_rows) ∧
    _AssertSize none [(0 : ℚ), 1] [(0 : ℚ), 2] = true ∧ ascending [(0 : ℚ), 1] = true ∧
    ∃ s, set none zero_cells zero_rows (init none zero_cells zero_rows) [0, 1] [0, 2] =
        some s ∧
      (∀ q, s._breaks 0 ≤ q → q < s._breaks ([(0 : ℚ), 1].length - 1) →
        s._breaks (segment_index s q) ≤ q ∧ q < s._breaks (segment_index s q + 1)) ∧
      (∀ q, q < s._breaks 0 → segment_index s q = 0) ∧
      (∀ q, q < s._breaks ([(0 : ℚ), 1].length - 1) →
        operator_call s q =
          some (((s._coeffs (segment_index s q) 0 * (q - s._breaks (segment_index s q)) +
            s._coeffs (segment_index s q) 1) * (q - s._breaks (segment_index s q)) +
            s._coeffs (segment_index s q) 2) * (q - s._breaks (segment_index s q)) +
            s._coeffs (segment_index s q) 3) ∧
        operator_call s q = operator_call_at s q (segment_index s q)) :=
  ⟨init_Shaped none zero_cells zero_rows, by decide, by decide,
    segment_location none zero_cells zero_rows _ _ _ (init_Shaped none zero_cells zero_rows)
      (by decide) (by decide)⟩

/-- The search-based evaluator returns `y[i]` at every sample but the last, for
three or more points. -/
theorem interpolation_interior (BreaksSize : Option Nat) (ub : Nat → F) (uc : Nat → Nat → F)
    (s0 : Spline F) (x y : List F) (hshape : Shaped BreaksSize s0)
    (hsize : _AssertSize BreaksSize x y = true) (hasc : ascending x = true)
    (hn : 3 ≤ x.length) :
    ∃ s, set BreaksSize ub uc s0 x y = some s ∧
      ∀ i, i + 2 ≤ x.length → operator_call s (elem x i) = some (elem y i) := by
  refine ⟨_, set_eq_build BreaksSize ub uc s0 x y hsize hasc, ?_⟩
  obtain ⟨_, hn2, hcap⟩ := assertSize_cap BreaksSize x y hsize
  have hold := build_holds _ x y _ (prepare_holds BreaksSize ub uc s0 x.length hshape hcap)
  have hnb := prepare_num_breaks BreaksSize ub uc s0 x.length
  generalize prepare BreaksSize ub uc s0 x.length = s1 at hold hnb
  have hbr : ∀ i, i < x.length → (build s1 x y)._breaks i = elem x i := by
    intro i hi
    exact build_breaks s1 x y i (by omega)
  have hlt := ascending_lt x hasc
  have hs : ∀ i j, i < j → j < x.length →
      (build s1 x y)._breaks i < (build s1 x y)._breaks j := by
    intro i j hij hj
    rw [hbr i (by omega), hbr j hj]
    exact hlt i j hij hj
  obtain ⟨hnum, hb, hc⟩ := hold
  intro i hi
  have h0 : (build s1 x y)._breaks 0 ≤ elem x i := by
    rw [hbr 0 (by omega)]
    rcases Nat.eq_zero_or_pos i with e | l
    · rw [e]
    · exact le_of_lt (hlt 0 i l (by omega))
  have h1 : elem x i < (build s1 x y)._breaks (x.length - 1) := by
    rw [hbr _ (by omega)]
    exact hlt i _ (by omega) (by omega)
  obtain ⟨r1, r2, r3⟩ := (segment_index_spec (build s1 x y) x.length hnum hs (elem x i)).2.2 h0 h1
  have hidx : segment_index (build s1 x y) (elem x i) = i := by
    rw [hbr _ (by omega)] at r1 r2
    rcases Nat.lt_trichotomy (segment_index (build s1 x y) (elem x i)) i with l | e | g
    · rcases Nat.eq_or_lt_of_le (Nat.succ_le_of_lt l) with e' | l'
      · rw [show segment_index (build s1 x y) (elem x i) + 1 = i from e'] at r2
        exact absurd r2 (lt_irrefl _)
      · exact absurd (lt_trans (hlt _ i l' (by omega)) r2) (lt_irrefl _)
    · exact e
    · exact absurd (lt_of_lt_of_le (hlt i _ g (by omega)) r1) (lt_irrefl _)
  simp only [operator_call, operator_call_at, hidx]
  rw [if_pos ⟨by omega, by omega⟩]
  simp only [cubic]
  rw [hbr i (by omega), build_c3 s1 x y (by omega) i (by omega)]
  congr 1
  ring

/-- At or beyond the last breakpoint `operator()` selects index `n-1`, one past the
last segment `n-2`, for every valid input. -/
theorem segment_index_beyond (BreaksSize : Option Nat) (ub : Nat → F) (uc : Nat → Nat → F)
    (s0 : Spline F) (x y : List F)
    (hsize : _AssertSize BreaksSize x y = true) (hasc : ascending x = true) :
    ∃ s, set BreaksSize ub uc s0 x y = some s ∧
      ∀ q, s._breaks (x.length - 1) ≤ q → segment_index s q = x.length - 1 := by
  refine ⟨_, set_eq_build BreaksSize ub uc s0 x y hsize hasc, ?_⟩
  obtain ⟨_, hn2, _⟩ := assertSize_cap BreaksSize x y hsize
  have hnb := prepare_num_breaks BreaksSize ub uc s0 x.length
  generalize prepare BreaksSize ub uc s0 x.length = s1 at hnb
  have hs : ∀ i j, i < j → j < x.length →
      (build s1 x y)._breaks i < (build s1 x y)._breaks j := by
    intro i j hij hj
    rw [build_breaks s1 x y i (by omega), build_breaks s1 x y j (by omega)]
    exact ascending_lt x hasc i j hij hj
  intro q hq
  exact (segment_index_spec (build s1 x y) x.length
    (by rw [build_num_breaks]; exact hnb) hs q).2.1 (by omega) hq

/-- Claim C1, the code at the failing input: the dynamic spline built from
`x = [0,1,2]`, `y = [0,1,0]` has two coefficient rows; `operator()(x[2])` selects index
2 and reads outside `_coeffs`. In a spline of capacity 4 that row exists but is never
written, and the call returns its stale content 7 instead of `y[2] = 0`. -/
theorem interpolation_last_sample_fails :
    (∃ s : Spline ℚ, construct none zero_cells zero_rows [0, 1, 2] [0, 1, 0] = some s ∧
      s._num_breaks = 3 ∧ s.coeffs_rows = 2 ∧ segment_index s 2 = 2 ∧
      operator_call s 2 = none) ∧
    (∃ s : Spline ℚ, construct (some 4) stale_cells stale_rows [0, 1, 2] [0, 1, 0] = some s ∧
      s._num_breaks = 3 ∧ s.coeffs_rows = 3 ∧ segment_index s 2 = 2 ∧
      operator_call s 2 = some 7) := by
  refine ⟨⟨_, rfl, by decide, by decide, by decide, by decide⟩,
    ⟨_, rfl, by decide, by decide, by decide, ?_⟩⟩
  have hi : segment_index (build (prepare (some 4) stale_cells stale_rows
      (init (some 4) stale_cells stale_rows) [(0 : ℚ), 1, 2].length) [0, 1, 2] [0, 1, 0]) 2
      = 2 := by decide
  rw [operator_call, hi]
  norm_num [operator_call_at, cubic, build, prepare, init, store, load, coefficients, solve,
    assemble, forward_loop, backward_loop, elem, Function.update, stale_cells, stale_rows]

/-- Claim C7, the code at the failing input: for `x = [0,1,2,3]`, `y = [0,1,8,27]` the
queries 3 (the last breakpoint) and 4 (beyond it) select index 3, not the last segment 2;
the dynamic spline has three rows and the read falls outside `_coeffs`. -/
theorem upper_clamp_missing :
    ∃ s : Spline ℚ, construct none zero_cells zero_rows [0, 1, 2, 3] [0, 1, 8, 27] = some s ∧
      s._num_breaks = 4 ∧ s.coeffs_rows = 3 ∧
      segment_index s 3 = 3 ∧ segment_index s 4 = 3 ∧
      operator_call s 3 = none ∧ operator_call s 4 = none :=
  ⟨_, rfl, by decide, by decide, by decide, by decide, by decide, by decide⟩

/-- What the branch `n == 2` stores and what the evaluator then returns on `[x0, x1)`:
the slope multiplies `h^3`, `y0` multiplies `h^2`, and the linear and constant
coefficients are cells the branch never writes. -/
theorem two_point_value (ub : Nat → F) (uc : Nat → Nat → F) (x0 x1 y0 y1 q : F)
    (hx : x0 < x1) (h0 : x0 ≤ q) (h1 : q < x1) :
    ∃ s, construct none ub uc [x0, x1] [y0, y1] = some s ∧
      operator_call s q =
        some ((((y1 - y0) / (x1 - x0) * (q - x0) + y0) * (q - x0) + uc 0 2) * (q - x0) +
          uc 0 3) := by
  have hasc : ascending [x0, x1] = true := by
    apply decide_eq_true
    intro i hi
    have : i = 0 := by simp at hi; omega
    subst this
    simpa [elem] using hx
  have hsize : _AssertSize (none : Option Nat) [x0, x1] [y0, y1] = true := by
    simp [_AssertSize]
  obtain ⟨s, hs, _, _, hval⟩ := segment_location none ub uc (init none ub uc) [x0, x1] [y0, y1]
    ⟨rfl, fun N h => by cases h⟩ hsize hasc
  refine ⟨s, hs, ?_⟩
  have hb : set none ub uc (init none ub uc) [x0, x1] [y0, y1] =
      some (build (prepare none ub uc (init none ub uc) 2) [x0, x1] [y0, y1]) :=
    set_eq_build none ub uc _ _ _ hsize hasc
  rw [hb] at hs
  have hs' := (Option.some.inj hs).symm
  have hidx : segment_index s q = 0 := by
    rw [hs', segment_index_eq]
    simp [upper_bound, upper_bound_loop, build, build_two, prepare, init, store, load,
      elem, Function.update, h1, not_lt.mpr h0]
  have hq : q < s._breaks ([x0, x1].length - 1) := by
    rw [hs']
    simpa [build, build_two, prepare, init, store, load, elem, Function.update] using h1
  rw [(hval q hq).1, hidx, hs']
  simp [build, build_two, prepare, init, store, load, elem, Function.update]

/-- Claim C9, the code at the failing input: built from `(0,0),(1,2)` the branch
`n == 2` stores the slope 2 in column 0 and `y0` in column 1 and writes neither column 2
nor column 3; on zero-filled storage `operator()(0.5)` returns `2 * 0.5^3 = 1/4`, not 1. -/
theorem two_point_half :
    ∃ s : Spline ℚ, construct none zero_cells zero_rows [0, 1] [0, 2] = some s ∧
      s._coeffs 0 0 = 2 ∧ s._coeffs 0 1 = 0 ∧ s._coeffs 0 2 = zero_rows 0 2 ∧
      s._coeffs 0 3 = zero_rows 0 3 ∧ segment_index s (1 / 2) = 0 ∧
      operator_call s (1 / 2) = some (1 / 4) := by
  refine ⟨_, rfl, ?_, ?_, ?_, ?_, ?_, ?_⟩
  · norm_num [build, build_two, prepare, init, store, load, elem, Function.update]
  · norm_num [build, build_two, prepare, init, store, load, elem, Function.update]
  · norm_num [build, build_two, prepare, init, store, load, elem, Function.update]
  · norm_num [build, build_two, prepare, init, store, load, elem, Function.update]
  · norm_num [segment_index, upper_bound, upper_bound_loop, build, build_two, prepare, init,
      store, load, elem, Function.update]
  · norm_num [operator_call, operator_call_at, cubic, segment_index, upper_bound,
      upper_bound_loop, build, build_two, prepare, init, store, load, elem, Function.update,
      zero_rows]

/-! ## Maxima -/

theorem maxima_segment_Ordered (Size : Nat) (sqrt : F → F) (s : Spline F) (i : Nat)
    (M : CriticalPointArray F) (h : CriticalPointArray.Ordered Size M) :
    CriticalPointArray.Ordered Size (maxima_segment Size sqrt s i M) := by
  unfold maxima_segment
  simp only
  split_ifs <;> first | exact h | exact CriticalPointArray.Save_Ordered Size M _ _ h

theorem maxima_loop_Ordered (Size : Nat) (sqrt : F → F) (s : Spline F) (k : Nat)
    (M : CriticalPointArray F) (h : CriticalPointArray.Ordered Size M) :
    CriticalPointArray.Ordered Size (maxima_loop Size sqrt s k M) := by
  induction k with
  | zero => exact h
  | succ k ih => exact maxima_segment_Ordered Size sqrt s k _ ih

theorem maxima_boundaries_Ordered (Size : Nat) (s : Spline F)
    (M : CriticalPointArray F) (h : CriticalPointArray.Ordered Size M) :
    CriticalPointArray.Ordered Size (maxima_boundaries Size s M) := by
  have h1 : CriticalPointArray.Ordered Size
      (if s._coeffs 0 2 < 0 then M.Save Size (s._breaks 0) (s._coeffs 0 3) else M) := by
    by_cases hc : s._coeffs 0 2 < 0
    · rw [if_pos hc]
      exact CriticalPointArray.Save_Ordered Size M _ _ h
    · rw [if_neg hc]
      exact h
  unfold maxima_boundaries
  simp only
  generalize (if s._coeffs 0 2 < 0 then M.Save Size (s._breaks 0) (s._coeffs 0 3) else M) = M1
    at h1
  by_cases hc : (3 * s._coeffs (s._num_breaks - 2) 0 *
      (s._breaks (s._num_breaks - 1) - s._breaks (s._num_breaks - 2)) +
      2 * s._coeffs (s._num_breaks - 2) 1) *
      (s._breaks (s._num_breaks - 1) - s._breaks (s._num_breaks - 2)) +
      s._coeffs (s._num_breaks - 2) 2 > 0
  · rw [if_pos hc]
    exact CriticalPointArray.Save_Ordered Size _ _ _ h1
  · rw [if_neg hc]
    exact h1

/-- Claim C3: after any sequence of `Save` calls on an initially empty
`CriticalPointArray<Size>` the size is at most `Size` and `y(i) >= y(j)` for all
`i < j < size()`; and the array `maxima<Size>()` returns for a spline with
`_num_breaks > 0` has at most `Size` entries in descending order of `y`. -/
theorem ordering_and_size (Size : Nat) :
    (∀ ps : List (F × F),
      (CriticalPointArray.SaveAll Size CriticalPointArray.Zero ps).size ≤ Size ∧
      ∀ i j, i < j → j < (CriticalPointArray.SaveAll Size CriticalPointArray.Zero ps).size →
        (CriticalPointArray.SaveAll Size CriticalPointArray.Zero ps).y Size j ≤
          (CriticalPointArray.SaveAll Size CriticalPointArray.Zero ps).y Size i) ∧
    (∀ (sqrt : F → F) (s : Spline F), 0 < s._num_breaks →
      ∃ M, maxima Size sqrt s = some M ∧ M.size ≤ Size ∧
        ∀ i j, i < j → j < M.size → M.y Size j ≤ M.y Size i) := by
  refine ⟨?_, ?_⟩
  · intro ps
    exact CriticalPointArray.SaveAll_Ordered Size ps _ (CriticalPointArray.Zero_Ordered Size)
  · intro sqrt s hs
    have e : maxima Size sqrt s = some (maxima_boundaries Size s
        (maxima_loop Size sqrt s (s._num_breaks - 1)
          (CriticalPointArray.setZero CriticalPointArray.Zero))) := by
      simp only [maxima, maxima_into, if_pos hs]
    refine ⟨_, e, ?_⟩
    exact maxima_boundaries_Ordered Size s _
      (maxima_loop_Ordered Size sqrt s _ _ (CriticalPointArray.Zero_Ordered Size))

end Spline

/-! ## The entries of a `CriticalPointArray` -/

section Entries

variable {F : Type}

/-- The abscissa cells after the insertion statements of `Save` (lines 71-75 and 83-87). -/
theorem insert_cells_x (Size : Nat) (a : Nat → F) (m p : Nat) (x v : F) (e d1 d2 : Nat)
    (hp1 : Size ≤ p) (hp2 : p ≤ Size + m) (hm : m < Size) (he : e = Size + m)
    (hd1 : d1 = Size + m + 1) (hd2 : d2 = m + 1) (j : Nat) (hj : j ≤ m) :
    Function.update (Function.update
      (copy_backward (copy_backward a p e d1) (p - Size) m d2) (p - Size) x) p v j =
    if j = p - Size then x else if p - Size < j then a (j - 1) else a j := by
  subst he
  rw [copy_backward_shift _ _ _ _ hp2 hd1, copy_backward_shift _ _ _ _ (by omega) hd2]
  rw [Function.update_noteq (by omega)]
  by_cases hjq : j = p - Size
  · rw [if_pos hjq, hjq, Function.update_same]
  · rw [if_neg hjq, Function.update_noteq hjq]
    by_cases hqj : p - Size < j
    · rw [if_pos hqj, if_pos ⟨hqj, hj⟩, if_neg (by omega)]
    · rw [if_neg hqj, if_neg (by omega), if_neg (by omega)]

theorem pairs_length (Size : Nat) (c : CriticalPointArray F) :
    (CriticalPointArray.pairs Size c).length = c._length := by
  simp only [CriticalPointArray.pairs, List.length_map, List.length_range]

theorem pairs_getElem (Size : Nat) (c : CriticalPointArray F) (i : Nat)
    (hi : i < (CriticalPointArray.pairs Size c).length) :
    (CriticalPointArray.pairs Size c)[i] = (c._array i, c._array (i + Size)) := by
  simp only [CriticalPointArray.pairs, List.getElem_map, List.getElem_range,
    CriticalPointArray.x, CriticalPointArray.y]

theorem take_cons_take (n : Nat) (a : F × F) (l : List (F × F)) :
    (a :: l.take n).take n = (a :: l).take n := by
  cases n with
  | zero => rfl
  | succ k =>
    rw [List.take_succ_cons, List.take_succ_cons, List.take_take, Nat.min_eq_left (Nat.le_succ k)]

/-- An array whose entries in use are `p`, `q` has size two and holds them in its cells. -/
theorem pairs_two (Size : Nat) (c : CriticalPointArray F) (p q : F × F)
    (h : CriticalPointArray.pairs Size c = [p, q]) :
    CriticalPointArray.size c = 2 ∧ CriticalPointArray.x c 0 = p.1 ∧
      CriticalPointArray.y Size c 0 = p.2 ∧ CriticalPointArray.x c 1 = q.1 ∧
      CriticalPointArray.y Size c 1 = q.2 := by
  have hl : (CriticalPointArray.pairs Size c).length = 2 := by rw [h]; rfl
  have g0 := pairs_getElem Size c 0 (by omega)
  have g1 := pairs_getElem Size c 1 (by omega)
  simp only [h, List.getElem_cons_zero, List.getElem_cons_succ] at g0 g1
  rw [pairs_length] at hl
  rw [Prod.ext_iff] at g0 g1
  exact ⟨hl, g0.1.symm, g0.2.symm, g1.1.symm, g1.2.symm⟩

end Entries

namespace CriticalPointArray

variable {F : Type} [LinearOrderedField F]

/-- A candidate above every kept ordinate goes to the front; the entries move one slot
down and the one that no longer fits is dropped. -/
theorem Save_front_cells (Size : Nat) (c : CriticalPointArray F) (x v : F) (hS : 1 ≤ Size)
    (hord : Ordered Size c) (hall : ∀ i, i < c._length → c._array (i + Size) < v) :
    (Save Size c x v)._length = min (c._length + 1) Size ∧
    ∀ j, j < min (c._length + 1) Size →
      (Save Size c x v)._array j = (if j = 0 then x else c._array (j - 1)) ∧
      (Save Size c x v)._array (j + Size) = (if j = 0 then v else c._array (j - 1 + Size)) := by
  obtain ⟨hlen, hs⟩ := hord
  simp only [y] at hs
  have hdesc : ∀ n, ∀ i j, Size ≤ i → i ≤ j → j < Size + n → n ≤ c._length →
      c._array j ≤ c._array i := by
    intro n i j hi hij hj hn
    rcases Nat.eq_or_lt_of_le hij with e | l
    · subst e; exact le_refl _
    · have := hs (i - Size) (j - Size) (by omega) (by omega)
      rwa [Nat.sub_add_cancel (by omega), Nat.sub_add_cancel hi] at this
  -- the partition point of the search is the first ordinate cell
  have hfirst : ∀ n, 1 ≤ n → n ≤ c._length →
      lower_bound c._array Size (Size + n) v = Size := by
    intro n hn1 hn
    obtain ⟨p1, p2, p3, _⟩ := lower_bound_spec c._array Size (Size + n) v (by omega)
      (fun i j hi hij hj => hdesc n i j hi hij hj hn)
    by_contra hne
    have h1 := p3 Size (le_refl _) (by omega)
    have h2 := hall 0 (by omega)
    rw [Nat.zero_add] at h2
    exact absurd h1 (not_lt.mpr (le_of_lt h2))
  unfold Save
  simp only
  by_cases hlt : c._length < Size
  · rw [if_pos hlt, Nat.min_eq_left (by omega)]
    by_cases h0 : c._length = 0
    · rw [if_pos h0]
      refine ⟨rfl, ?_⟩
      intro j hj
      have hj0 : j = 0 := by omega
      subst hj0
      dsimp only
      simp only [Function.update_apply]
      refine ⟨?_, ?_⟩ <;> split_ifs <;> first | rfl | contradiction | (exfalso; omega)
    · rw [if_neg h0]
      by_cases h1 : c._length = 1
      · rw [if_pos h1]
        have hc := hall 0 (by omega)
        rw [if_pos hc]
        refine ⟨rfl, ?_⟩
        intro j hj
        dsimp only
        simp only [Function.update_apply]
        rcases Nat.eq_zero_or_pos j with e | l
        · subst e
          refine ⟨?_, ?_⟩ <;> split_ifs <;> first | rfl | contradiction | (exfalso; omega)
        · have hj1 : j = 1 := by omega
          subst hj1
          refine ⟨?_, ?_⟩ <;> split_ifs <;> first | rfl | contradiction | (exfalso; omega)
      · rw [if_neg h1]
        have hc : c._array (c._length - 1 + Size) < v := hall (c._length - 1) (by omega)
        rw [if_pos hc, hfirst c._length (by omega) (le_refl _)]
        refine ⟨rfl, ?_⟩
        intro j hj
        have ix := insert_cells_x Size c._array c._length Size x v (Size + c._length)
          (Size + c._length + 1) (c._length + 1) (le_refl _) (by omega) hlt rfl rfl rfl j
          (by omega)
        have iy := insert_cells Size c._array c._length Size x v (Size + c._length)
          (Size + c._length + 1) (c._length + 1) (le_refl _) (by omega) hlt rfl rfl rfl j
          (by omega)
        rw [Nat.sub_self] at ix iy
        dsimp only
        rw [Nat.sub_self]
        refine ⟨?_, ?_⟩
        · rw [ix]
          by_cases hj0 : j = 0
          · rw [if_pos hj0, if_pos hj0]
          · rw [if_neg hj0, if_neg hj0, if_pos (by omega)]
        · rw [iy]
          by_cases hj0 : j = 0
          · rw [if_pos hj0, if_pos hj0]
          · rw [if_neg hj0, if_neg hj0, if_pos (by omega)]
  · rw [if_neg hlt]
    have hfull : c._length = Size := by omega
    rw [Nat.min_eq_right (by omega)]
    by_cases hS1 : Size = 1
    · -- a single slot: both full branches store the candidate in it
      have hy0 := hall 0 (by omega)
      by_cases hc : c._array (c._length + Size - 2) < v
      · rw [if_pos hc]
        refine ⟨hfull, ?_⟩
        intro j hj
        have hj0 : j = 0 := by omega
        subst hj0
        simp only [if_true]
        have hlb : lower_bound c._array Size (Size + c._length - 1) v = Size := by
          have e : Size + c._length - 1 = Size := by omega
          rw [e]
          simp only [lower_bound, Nat.sub_self, lower_bound_loop]
        rw [hlb, Nat.sub_self]
        have e1 : copy_backward c._array Size (Size + c._length - 1) (Size + c._length) =
            c._array := by
          have e : Size + c._length - 1 - Size = 0 := by omega
          simp only [copy_backward, e, copy_backward_loop]
        have e2 : copy_backward c._array 0 (c._length - 1) c._length = c._array := by
          have e : c._length - 1 - 0 = 0 := by omega
          simp only [copy_backward, e, copy_backward_loop]
        rw [e1, e2]
        refine ⟨?_, ?_⟩
        · rw [Function.update_noteq (by omega), Function.update_same]
        · rw [Nat.zero_add, Function.update_same]
      · rw [if_neg hc]
        have e3 : c._length - 1 + Size = 0 + Size := by omega
        rw [e3, if_pos hy0]
        refine ⟨hfull, ?_⟩
        intro j hj
        have hj0 : j = 0 := by omega
        subst hj0
        simp only [if_true]
        have e4 : c._length - 1 = 0 := by omega
        rw [e4]
        refine ⟨?_, ?_⟩
        · rw [Function.update_noteq (by omega), Function.update_same]
        · rw [Function.update_same]
    · have e2 : c._length + Size - 2 = (c._length - 2) + Size := by omega
      have hc : c._array (c._length + Size - 2) < v := by
        rw [e2]; exact hall (c._length - 2) (by omega)
      rw [if_pos hc]
      have e5 : Size + c._length - 1 = Size + (c._length - 1) := by omega
      have hlb : lower_bound c._array Size (Size + c._length - 1) v = Size := by
        rw [e5]; exact hfirst (c._length - 1) (by omega) (by omega)
      rw [hlb]
      refine ⟨hfull, ?_⟩
      intro j hj
      have ix := insert_cells_x Size c._array (c._length - 1) Size x v (Size + c._length - 1)
        (Size + c._length) c._length (le_refl _) (by omega) (by omega) (by omega) (by omega)
        (by omega) j (by omega)
      have iy := insert_cells Size c._array (c._length - 1) Size x v (Size + c._length - 1)
        (Size + c._length) c._length (le_refl _) (by omega) (by omega) (by omega) (by omega)
        (by omega) j (by omega)
      rw [Nat.sub_self] at ix iy
      dsimp only
      rw [Nat.sub_self]
      refine ⟨?_, ?_⟩
      · rw [ix]
        by_cases hj0 : j = 0
        · rw [if_pos hj0, if_pos hj0]
        · rw [if_neg hj0, if_neg hj0, if_pos (by omega)]
      · rw [iy]
        by_cases hj0 : j = 0
        · rw [if_pos hj0, if_pos hj0]
        · rw [if_neg hj0, if_neg hj0, if_pos (by omega)]

/-- A candidate above every kept ordinate: the entries afterwards are the candidate
followed by the old entries, cut to the capacity. -/
theorem Save_front (Size : Nat) (c : CriticalPointArray F) (x v : F) (hS : 1 ≤ Size)
    (hord : Ordered Size c) (hall : ∀ p, p ∈ pairs Size c → p.2 < v) :
    pairs Size (Save Size c x v) = ((x, v) :: pairs Size c).take Size := by
  have hall' : ∀ i, i < c._length → c._array (i + Size) < v := by
    intro i hi
    have hi' : i < (pairs Size c).length := by rw [pairs_length]; exact hi
    have := hall _ (List.getElem_mem hi')
    rw [pairs_getElem] at this
    exact this
  obtain ⟨hl, hcell⟩ := Save_front_cells Size c x v hS hord hall'
  apply List.ext_getElem
  · rw [pairs_length, hl, List.length_take, List.length_cons, pairs_length]
    exact Nat.min_comm _ _
  · intro i h1 h2
    rw [pairs_getElem, List.getElem_take]
    rw [pairs_length, hl] at h1
    obtain ⟨e1, e2⟩ := hcell i h1
    rw [e1, e2]
    rcases Nat.eq_zero_or_pos i with e | l
    · subst e
      simp
    · obtain ⟨k, rfl⟩ : ∃ k, i = k + 1 := ⟨i - 1, by omega⟩
      rw [List.getElem_cons_succ, pairs_getElem]
      simp

/-- Offers in strictly increasing order of `y`: the array holds the last `Size` of them,
newest first. -/
theorem SaveAll_increasing (Size : Nat) (hS : 1 ≤ Size) (ps : List (F × F))
    (hinc : ps.Pairwise (fun p q => p.2 < q.2)) :
    pairs Size (SaveAll Size (CriticalPointArray.Zero : CriticalPointArray F) ps) =
      ps.reverse.take Size := by
  induction ps using List.reverseRecOn with
  | nil => simp [SaveAll, pairs, CriticalPointArray.Zero]
  | append_singleton ps p ih =>
    rw [List.pairwise_append] at hinc
    obtain ⟨h1, _, h3⟩ := hinc
    have ih' := ih h1
    have hsave : SaveAll Size (CriticalPointArray.Zero : CriticalPointArray F) (ps ++ [p]) =
        Save Size (SaveAll Size CriticalPointArray.Zero ps) p.1 p.2 := by
      simp only [SaveAll, List.foldl_append, List.foldl_cons, List.foldl_nil]
    rw [hsave, Save_front Size _ p.1 p.2 hS (SaveAll_Ordered Size ps _ (Zero_Ordered Size)), ih',
      take_cons_take, List.reverse_append]
    · rfl
    · intro q hq
      rw [ih'] at hq
      have hq' : q ∈ ps := List.mem_reverse.mp (List.mem_of_mem_take hq)
      exact h3 q hq' p (List.mem_singleton.mpr rfl)

/-- Claim C11: for every capacity `K >= 1`, offering `K+1` points whose `y` values strictly
increase, `y_0 < y_1 < ... < y_K`, to an empty `CriticalPointArray<K>` leaves `size() = K`,
and the entries in use are the last `K` points offered, in reverse order:
`y(0..K-1) = (y_K, ..., y_1)`, each with its own `x`. -/
theorem capacity_property (K : Nat) (hK : 1 ≤ K) (ps : List (F × F))
    (hlen : ps.length = K + 1) (hinc : ps.Pairwise (fun p q => p.2 < q.2)) :
    (SaveAll K (CriticalPointArray.Zero : CriticalPointArray F) ps).size = K ∧
    pairs K (SaveAll K (CriticalPointArray.Zero : CriticalPointArray F) ps) = ps.tail.reverse ∧
    ys K (SaveAll K (CriticalPointArray.Zero : CriticalPointArray F) ps) =
      (ps.tail.map Prod.snd).reverse := by
  have hp := SaveAll_increasing K hK ps hinc
  have ht : ps.reverse.take K = ps.tail.reverse := by
    cases ps with
    | nil => simp at hlen
    | cons a t =>
      have hlt : t.length = K := by simpa using hlen
      rw [List.tail_cons, List.reverse_cons, List.take_append_of_le_length (by simp [hlt]),
        List.take_of_length_le (by simp [hlt])]
  rw [ht] at hp
  have hsize : (SaveAll K (CriticalPointArray.Zero : CriticalPointArray F) ps).size = K := by
    have := congrArg List.length hp
    rw [pairs_length, List.length_reverse, List.length_tail, hlen] at this
    simpa [size] using this
  refine ⟨hsize, hp, ?_⟩
  have : ys K (SaveAll K (CriticalPointArray.Zero : CriticalPointArray F) ps) =
      (pairs K (SaveAll K (CriticalPointArray.Zero : CriticalPointArray F) ps)).map Prod.snd := by
    simp only [ys, pairs, List.map_map]
    rfl
  rw [this, hp, List.map_reverse]

/-- Witness of C11: three points offered to an array of capacity 2. -/
theorem capacity_property_witness :
    1 ≤ 2 ∧ ([(0, 1), (1, 2), (2, 5)] : List (ℚ × ℚ)).length = 2 + 1 ∧
    ([(0, 1), (1, 2), (2, 5)] : List (ℚ × ℚ)).Pairwise (fun p q => p.2 < q.2) ∧
    (SaveAll 2 (CriticalPointArray.Zero : CriticalPointArray ℚ) [(0, 1), (1, 2), (2, 5)]).size =
      2 ∧
    pairs 2 (SaveAll 2 (CriticalPointArray.Zero : CriticalPointArray ℚ)
      [(0, 1), (1, 2), (2, 5)]) = ([(0, 1), (1, 2), (2, 5)] : List (ℚ × ℚ)).tail.reverse ∧
    ys 2 (SaveAll 2 (CriticalPointArray.Zero : CriticalPointArray ℚ) [(0, 1), (1, 2), (2, 5)]) =
      (([(0, 1), (1, 2), (2, 5)] : List (ℚ × ℚ)).tail.map Prod.snd).reverse :=
  ⟨by decide, by decide, by decide,
    capacity_property 2 (by decide) _ (by decide) (by decide)⟩

end CriticalPointArray

namespace Spline

section Sizes

variable {F : Type}

theorem assertSize_of_length (BreaksSize : Option Nat) (x y : List F)
    (hy : y.length = x.length) (h2 : 1 < x.length)
    (hcap : ∀ N, BreaksSize = some N → x.length ≤ N) :
    _AssertSize BreaksSize x y = true := by
  cases BreaksSize with
  | none => simp [_AssertSize, hy, h2]
  | some N => simpa [_AssertSize, hy, h2] using hcap N rfl

end Sizes

variable {F : Type} [LinearOrderedField F]

/-! ## What `maxima` passes to `Save` -/

/-- The sweep body is a `Save` of the segment's offer, or nothing. -/
theorem maxima_segment_eq (Size : Nat) (sqrt : F → F) (s : Spline F) (i : Nat)
    (M : CriticalPointArray F) :
    maxima_segment Size sqrt s i M =
      CriticalPointArray.SaveAll Size M (segment_offer sqrt s i).toList := by
  unfold maxima_segment segment_offer segment_candidate
  simp only
  split_ifs <;> rfl

theorem SaveAll_append (Size : Nat) (c : CriticalPointArray F) (ps qs : List (F × F)) :
    CriticalPointArray.SaveAll Size c (ps ++ qs) =
      CriticalPointArray.SaveAll Size (CriticalPointArray.SaveAll Size c ps) qs := by
  simp only [CriticalPointArray.SaveAll, List.foldl_append]

theorem maxima_loop_eq (Size : Nat) (sqrt : F → F) (s : Spline F) (k : Nat)
    (M : CriticalPointArray F) :
    maxima_loop Size sqrt s k M = CriticalPointArray.SaveAll Size M (sweep_offers sqrt s k) := by
  induction k with
  | zero => rfl
  | succ k ih =>
    simp only [maxima_loop, sweep_offers]
    rw [maxima_segment_eq, ih, SaveAll_append]

theorem maxima_boundaries_eq (Size : Nat) (s : Spline F) (M : CriticalPointArray F) :
    maxima_boundaries Size s M =
      CriticalPointArray.SaveAll Size M ((left_offer s).toList ++ (right_offer s).toList) := by
  unfold maxima_boundaries left_offer right_offer
  simp only
  split_ifs <;> rfl

/-- The array `maxima` returns is the result of the `Save` calls on its offers. -/
theorem maxima_into_eq (Size : Nat) (sqrt : F → F) (s : Spline F) (M : CriticalPointArray F)
    (h : 0 < s._num_breaks) :
    maxima_into Size sqrt s M =
      some (CriticalPointArray.SaveAll Size CriticalPointArray.Zero (maxima_offers sqrt s)) := by
  simp only [maxima_into, if_pos h, maxima_offers, CriticalPointArray.setZero]
  rw [maxima_boundaries_eq, maxima_loop_eq]
  simp only [SaveAll_append, List.append_assoc]

/-- When the sweep has a candidate for segment `i`, its step is one `Save`. -/
theorem maxima_segment_some (Size : Nat) (sqrt : F → F) (s : Spline F) (i : Nat)
    (M : CriticalPointArray F) (x : F) (hc : segment_candidate sqrt s i = some x) :
    maxima_segment Size sqrt s i M = M.Save Size x (cubic s x i) := by
  rw [maxima_segment_eq, segment_offer, hc]
  rfl

/-- When the sweep has no candidate for segment `i`, its step leaves the array alone. -/
theorem maxima_segment_none (Size : Nat) (sqrt : F → F) (s : Spline F) (i : Nat)
    (M : CriticalPointArray F) (hc : segment_candidate sqrt s i = none) :
    maxima_segment Size sqrt s i M = M := by
  rw [maxima_segment_eq, segment_offer, hc]
  rfl

/-- The candidate of segment `i` is `candidate_of` at the five numbers the sweep reads. -/
theorem segment_candidate_of (sqrt : F → F) (s : Spline F) (i : Nat) :
    segment_candidate sqrt s i =
      candidate_of sqrt (s._coeffs i 0) (s._coeffs i 1) (s._coeffs i 2) (s._breaks i)
        (s._breaks (i + 1)) := rfl

/-- The branches of `segment_candidate`, one statement per `Save` call of the sweep. -/
theorem segment_candidate_cases (sqrt : F → F) (s : Spline F) (i : Nat) (x : F)
    (hc : segment_candidate sqrt s i = some x) :
    (s._coeffs i 0 ≠ 0 ∧
      0 < s._coeffs i 1 * s._coeffs i 1 - 3 * s._coeffs i 0 * s._coeffs i 2 ∧
      (0 ≤ s._coeffs i 1 ∧ s._coeffs i 0 < 0 ∨
        s._coeffs i 1 < 0 ∧
          (0 ≤ s._coeffs i 1 +
              sqrt (s._coeffs i 1 * s._coeffs i 1 - 3 * s._coeffs i 0 * s._coeffs i 2) ∧
            s._coeffs i 0 < 0 ∨
           s._coeffs i 1 +
              sqrt (s._coeffs i 1 * s._coeffs i 1 - 3 * s._coeffs i 0 * s._coeffs i 2) ≤ 0 ∧
            0 < s._coeffs i 0)) ∧
      x = s._breaks i -
        (s._coeffs i 1 +
          sqrt (s._coeffs i 1 * s._coeffs i 1 - 3 * s._coeffs i 0 * s._coeffs i 2)) /
          (3 * s._coeffs i 0) ∧
      x < s._breaks (i + 1)) ∨
    (s._coeffs i 0 = 0 ∧ s._coeffs i 1 < 0 ∧ 0 ≤ s._coeffs i 2 ∧
      x = s._breaks i - (1 / 2) * s._coeffs i 2 / s._coeffs i 1 ∧ x < s._breaks (i + 1)) := by
  unfold segment_candidate at hc
  simp only at hc
  by_cases ha : s._coeffs i 0 = 0
  · right
    rw [if_neg (not_not.mpr ha)] at hc
    by_cases hbc : s._coeffs i 1 < 0 ∧ s._coeffs i 2 ≥ 0
    · rw [if_pos hbc] at hc
      by_cases hx : s._breaks i - (1 / 2) * s._coeffs i 2 / s._coeffs i 1 < s._breaks (i + 1)
      · rw [if_pos hx] at hc
        have e := Option.some.inj hc
        rw [← e]
        exact ⟨ha, hbc.1, hbc.2, rfl, hx⟩
      · rw [if_neg hx] at hc
        cases hc
    · rw [if_neg hbc] at hc
      cases hc
  · left
    rw [if_pos ha] at hc
    by_cases hd : s._coeffs i 1 * s._coeffs i 1 - 3 * s._coeffs i 0 * s._coeffs i 2 > 0
    · rw [if_pos hd] at hc
      by_cases hb : s._coeffs i 1 ≥ 0
      · rw [if_pos hb] at hc
        by_cases han : s._coeffs i 0 < 0
        · rw [if_pos han] at hc
          by_cases hx : s._breaks i - (s._coeffs i 1 +
              sqrt (s._coeffs i 1 * s._coeffs i 1 - 3 * s._coeffs i 0 * s._coeffs i 2)) /
              (3 * s._coeffs i 0) < s._breaks (i + 1)
          · rw [if_pos hx] at hc
            have e := Option.some.inj hc
            rw [← e]
            exact ⟨ha, hd, Or.inl ⟨hb, han⟩, rfl, hx⟩
          · rw [if_neg hx] at hc
            cases hc
        · rw [if_neg han] at hc
          cases hc
      · rw [if_neg hb] at hc
        by_cases hs : (s._coeffs i 1 +
              sqrt (s._coeffs i 1 * s._coeffs i 1 - 3 * s._coeffs i 0 * s._coeffs i 2) ≥ 0 ∧
            s._coeffs i 0 < 0) ∨
          (s._coeffs i 1 +
              sqrt (s._coeffs i 1 * s._coeffs i 1 - 3 * s._coeffs i 0 * s._coeffs i 2) ≤ 0 ∧
            s._coeffs i 0 > 0)
        · rw [if_pos hs] at hc
          by_cases hx : s._breaks i - (s._coeffs i 1 +
              sqrt (s._coeffs i 1 * s._coeffs i 1 - 3 * s._coeffs i 0 * s._coeffs i 2)) /
              (3 * s._coeffs i 0) < s._breaks (i + 1)
          · rw [if_pos hx] at hc
            have e := Option.some.inj hc
            rw [← e]
            exact ⟨ha, hd, Or.inr ⟨not_le.mp hb, hs⟩, rfl, hx⟩
          · rw [if_neg hx] at hc
            cases hc
        · rw [if_neg hs] at hc
          cases hc
    · rw [if_neg hd] at hc
      cases hc

/-- The root `h = -(b + r)/(3a)` with `r^2 = b^2 - 3ac` annuls `3a h^2 + 2b h + c`. -/
theorem root_identity (a b c r : F) (ha : a ≠ 0) (hr : r * r = b * b - 3 * a * c) :
    3 * a * (-((b + r) / (3 * a))) ^ 2 + 2 * b * (-((b + r) / (3 * a))) + c = 0 := by
  have key : 3 * a * (-((b + r) / (3 * a))) ^ 2 + 2 * b * (-((b + r) / (3 * a))) + c =
      (r * r - (b * b - 3 * a * c)) / (3 * a) := by
    field_simp
    ring
  rw [key, hr, sub_self, zero_div]

theorem root_second (a b r : F) (ha : a ≠ 0) :
    6 * a * (-((b + r) / (3 * a))) + 2 * b = -2 * r := by
  field_simp
  ring

/-- The right boundary check, with the derivative and the value written as polynomials in
`h = breaks[n-1] - breaks[n-2]`. -/
theorem right_offer_eq (s : Spline F) :
    right_offer s =
      if 0 < 3 * s._coeffs (s._num_breaks - 2) 0 *
            (s._breaks (s._num_breaks - 1) - s._breaks (s._num_breaks - 2)) ^ 2 +
          2 * s._coeffs (s._num_breaks - 2) 1 *
            (s._breaks (s._num_breaks - 1) - s._breaks (s._num_breaks - 2)) +
          s._coeffs (s._num_breaks - 2) 2
      then some (s._breaks (s._num_breaks - 1),
        s._coeffs (s._num_breaks - 2) 0 *
            (s._breaks (s._num_breaks - 1) - s._breaks (s._num_breaks - 2)) ^ 3 +
          s._coeffs (s._num_breaks - 2) 1 *
            (s._breaks (s._num_breaks - 1) - s._breaks (s._num_breaks - 2)) ^ 2 +
          s._coeffs (s._num_breaks - 2) 2 *
            (s._breaks (s._num_breaks - 1) - s._breaks (s._num_breaks - 2)) +
          s._coeffs (s._num_breaks - 2) 3)
      else none := by
  have e1 : (3 * s._coeffs (s._num_breaks - 2) 0 *
        (s._breaks (s._num_breaks - 1) - s._breaks (s._num_breaks - 2)) +
        2 * s._coeffs (s._num_breaks - 2) 1) *
        (s._breaks (s._num_breaks - 1) - s._breaks (s._num_breaks - 2)) +
        s._coeffs (s._num_breaks - 2) 2 =
      3 * s._coeffs (s._num_breaks - 2) 0 *
            (s._breaks (s._num_breaks - 1) - s._breaks (s._num_breaks - 2)) ^ 2 +
          2 * s._coeffs (s._num_breaks - 2) 1 *
            (s._breaks (s._num_breaks - 1) - s._breaks (s._num_breaks - 2)) +
          s._coeffs (s._num_breaks - 2) 2 := by ring
  have e2 : cubic s (s._breaks (s._num_breaks - 1)) (s._num_breaks - 2) =
      s._coeffs (s._num_breaks - 2) 0 *
            (s._breaks (s._num_breaks - 1) - s._breaks (s._num_breaks - 2)) ^ 3 +
          s._coeffs (s._num_breaks - 2) 1 *
            (s._breaks (s._num_breaks - 1) - s._breaks (s._num_breaks - 2)) ^ 2 +
          s._coeffs (s._num_breaks - 2) 2 *
            (s._breaks (s._num_breaks - 1) - s._breaks (s._num_breaks - 2)) +
          s._coeffs (s._num_breaks - 2) 3 := by
    simp only [cubic]
    ring
  simp only [right_offer, gt_iff_lt, e1, e2]

/-! ## Square roots -/

/-- An exact square root of a square is the non-negative base. -/
theorem sqrt_of_square (sqrt : F → F) (t q : F) (hq : 0 ≤ q) (ht : q * q = t)
    (h : SqrtAt sqrt t) : sqrt t = q := by
  obtain ⟨h0, hr⟩ := h
  have e : (sqrt t - q) * (sqrt t + q) = 0 := by
    have : (sqrt t - q) * (sqrt t + q) = sqrt t * sqrt t - q * q := by ring
    rw [this, hr, ht, sub_self]
  rcases mul_eq_zero.mp e with e1 | e2
  · linarith
  · linarith

/-- Bounds on the square root of `180/49`. -/
theorem sqrt_bounds (sqrt : F → F) (h : SqrtAt sqrt (180 / 49)) :
    12 / 7 < sqrt (180 / 49) ∧ sqrt (180 / 49) < 27 / 14 := by
  obtain ⟨h0, hr⟩ := h
  constructor
  · by_contra hc
    have hle : sqrt (180 / 49) ≤ 12 / 7 := not_lt.mp hc
    have : sqrt (180 / 49) * sqrt (180 / 49) ≤ 12 / 7 * (12 / 7) :=
      mul_le_mul hle hle h0 (by norm_num)
    rw [hr] at this
    norm_num at this
  · by_contra hc
    have hle : 27 / 14 ≤ sqrt (180 / 49) := not_lt.mp hc
    have : (27 / 14 : F) * (27 / 14) ≤ sqrt (180 / 49) * sqrt (180 / 49) :=
      mul_le_mul hle hle (by norm_num) h0
    rw [hr] at this
    norm_num at this

/-- `Real.sqrt` is exact at every non-negative argument. -/
theorem real_sqrtAt (t : ℝ) (ht : 0 ≤ t) : SqrtAt Real.sqrt t :=
  ⟨Real.sqrt_nonneg t, Real.mul_self_sqrt ht⟩

/-! ## Sample splines -/

theorem ascending_three : ascending ([0, 1, 2] : List F) = true := by
  apply decide_eq_true
  intro i hi
  have hi4 : i < 2 := hi
  interval_cases i <;> norm_num [elem]

theorem ascending_four : ascending ([0, 1, 2, 3] : List F) = true := by
  apply decide_eq_true
  intro i hi
  have hi4 : i < 3 := hi
  interval_cases i <;> norm_num [elem]

theorem ascending_five : ascending ([0, 1, 2, 3, 4] : List F) = true := by
  apply decide_eq_true
  intro i hi
  have hi4 : i < 4 := hi
  interval_cases i <;> norm_num [elem]

/-- When both assertions pass, the constructor returns the spline built on the prepared
members, whose `_num_breaks` is the number of points. -/
theorem construct_build (BreaksSize : Option Nat) (ub : Nat → F) (uc : Nat → Nat → F)
    (x y : List F) (hsize : _AssertSize BreaksSize x y = true) (hasc : ascending x = true) :
    ∃ s1 : Spline F, s1._num_breaks = x.length ∧
      construct BreaksSize ub uc x y = some (build s1 x y) :=
  ⟨_, prepare_num_breaks BreaksSize ub uc _ x.length,
    set_eq_build BreaksSize ub uc _ x y hsize hasc⟩

/-! ### Coefficient tables of the sample splines -/

/-- Row `i` of the general branch in terms of the solved column, the column being
continued by zero at the last breakpoint. -/
theorem build_row (s : Spline F) (x y : List F) (hn : 3 ≤ s._num_breaks) (i : Nat)
    (hi : i + 2 ≤ s._num_breaks) :
    (build s x y)._coeffs i 0 =
      ((if i + 2 < s._num_breaks then (build s x y)._coeffs (i + 1) 1 else 0) -
        (build s x y)._coeffs i 1) / (3 * dx x i) ∧
    (build s x y)._coeffs i 2 =
      slope x y i - (2 * (build s x y)._coeffs i 1 +
        (if i + 2 < s._num_breaks then (build s x y)._coeffs (i + 1) 1 else 0)) * dx x i / 3 ∧
    (build s x y)._coeffs i 3 = elem y i := by
  refine ⟨?_, ?_, build_c3 s x y hn i (by omega)⟩
  · by_cases h : i + 2 < s._num_breaks
    · rw [if_pos h]
      exact build_c0 s x y hn i h
    · have e : i = s._num_breaks - 2 := by omega
      rw [if_neg h, e, build_c0_last s x y hn]
      ring
  · by_cases h : i + 2 < s._num_breaks
    · rw [if_pos h]
      exact build_c2 s x y hn i h
    · have e : i = s._num_breaks - 2 := by omega
      rw [if_neg h, e, build_c2_last s x y hn]
      ring

/-- The coefficient rows for `x = [0,1,2,3,4]`, `y = [0,1,0,1,0]`. -/
theorem oscillating_rows (s1 : Spline F) (h5 : s1._num_breaks = 5) :
    ((build s1 [0, 1, 2, 3, 4] [0, 1, 0, 1, 0])._breaks 0 = 0 ∧
     (build s1 [0, 1, 2, 3, 4] [0, 1, 0, 1, 0])._breaks 1 = 1 ∧
     (build s1 [0, 1, 2, 3, 4] [0, 1, 0, 1, 0])._breaks 2 = 2 ∧
     (build s1 [0, 1, 2, 3, 4] [0, 1, 0, 1, 0])._breaks 3 = 3 ∧
     (build s1 [0, 1, 2, 3, 4] [0, 1, 0, 1, 0])._breaks 4 = 4) ∧
    ((build s1 [0, 1, 2, 3, 4] [0, 1, 0, 1, 0])._coeffs 0 0 = -(5 / 7) ∧
     (build s1 [0, 1, 2, 3, 4] [0, 1, 0, 1, 0])._coeffs 0 1 = 0 ∧
     (build s1 [0, 1, 2, 3, 4] [0, 1, 0, 1, 0])._coeffs 0 2 = 12 / 7 ∧
     (build s1 [0, 1, 2, 3, 4] [0, 1, 0, 1, 0])._coeffs 0 3 = 0) ∧
    ((build s1 [0, 1, 2, 3, 4] [0, 1, 0, 1, 0])._coeffs 1 0 = 11 / 7 ∧
     (build s1 [0, 1, 2, 3, 4] [0, 1, 0, 1, 0])._coeffs 1 1 = -(15 / 7) ∧
     (build s1 [0, 1, 2, 3, 4] [0, 1, 0, 1, 0])._coeffs 1 2 = -(3 / 7) ∧
     (build s1 [0, 1, 2, 3, 4] [0, 1, 0, 1, 0])._coeffs 1 3 = 1) ∧
    ((build s1 [0, 1, 2, 3, 4] [0, 1, 0, 1, 0])._coeffs 2 0 = -(11 / 7) ∧
     (build s1 [0, 1, 2, 3, 4] [0, 1, 0, 1, 0])._coeffs 2 1 = 18 / 7 ∧
     (build s1 [0, 1, 2, 3, 4] [0, 1, 0, 1, 0])._coeffs 2 2 = 0 ∧
     (build s1 [0, 1, 2, 3, 4] [0, 1, 0, 1, 0])._coeffs 2 3 = 0) ∧
    ((build s1 [0, 1, 2, 3, 4] [0, 1, 0, 1, 0])._coeffs 3 0 = 5 / 7 ∧
     (build s1 [0, 1, 2, 3, 4] [0, 1, 0, 1, 0])._coeffs 3 1 = -(15 / 7) ∧
     (build s1 [0, 1, 2, 3, 4] [0, 1, 0, 1, 0])._coeffs 3 2 = 3 / 7 ∧
     (build s1 [0, 1, 2, 3, 4] [0, 1, 0, 1, 0])._coeffs 3 3 = 1) := by
  have hn : 3 ≤ s1._num_breaks := by omega
  have hx : ∀ i, i < s1._num_breaks - 1 → 0 < dx ([0, 1, 2, 3, 4] : List F) i := by
    intro i hi
    have hi4 : i < 4 := by omega
    interval_cases i <;> norm_num [dx, elem]
  obtain ⟨hB0, hsys⟩ := build_system s1 [0, 1, 2, 3, 4] [0, 1, 0, 1, 0] hn hx
  have e0 := hsys 0 (by omega)
  have e1 := hsys 1 (by omega)
  have e2 := hsys 2 (by omega)
  norm_num [dx, slope, elem, h5, hB0] at e0 e1 e2
  have hB1 : (build s1 [0, 1, 2, 3, 4] [0, 1, 0, 1, 0])._coeffs 1 1 = -(15 / 7) := by linarith
  have hB2 : (build s1 [0, 1, 2, 3, 4] [0, 1, 0, 1, 0])._coeffs 2 1 = 18 / 7 := by linarith
  have hB3 : (build s1 [0, 1, 2, 3, 4] [0, 1, 0, 1, 0])._coeffs 3 1 = -(15 / 7) := by linarith
  obtain ⟨a0, c0, d0⟩ := build_row s1 [0, 1, 2, 3, 4] [0, 1, 0, 1, 0] hn 0 (by omega)
  obtain ⟨a1, c1, d1⟩ := build_row s1 [0, 1, 2, 3, 4] [0, 1, 0, 1, 0] hn 1 (by omega)
  obtain ⟨a2, c2, d2⟩ := build_row s1 [0, 1, 2, 3, 4] [0, 1, 0, 1, 0] hn 2 (by omega)
  obtain ⟨a3, c3, d3⟩ := build_row s1 [0, 1, 2, 3, 4] [0, 1, 0, 1, 0] hn 3 (by omega)
  norm_num [dx, slope, elem, h5, hB0, hB1, hB2, hB3] at a0 c0 d0 a1 c1 d1 a2 c2 d2 a3 c3 d3
  refine ⟨?_, ⟨a0, hB0, c0, d0⟩, ⟨a1, hB1, c1, d1⟩, ⟨a2, hB2, c2, d2⟩, ⟨a3, hB3, c3, d3⟩⟩
  refine ⟨?_, ?_, ?_, ?_, ?_⟩ <;> rw [build_breaks s1 _ _ _ (by omega)] <;> norm_num [elem]

/-- The coefficient rows for `x = [0,1,2]`, `y = [0,1,0]`. -/
theorem peak_rows (s1 : Spline F) (h : s1._num_breaks = 3) :
    ((build s1 [0, 1, 2] [0, 1, 0])._breaks 0 = 0 ∧
     (build s1 [0, 1, 2] [0, 1, 0])._breaks 1 = 1 ∧
     (build s1 [0, 1, 2] [0, 1, 0])._breaks 2 = 2) ∧
    ((build s1 [0, 1, 2] [0, 1, 0])._coeffs 0 0 = -(1 / 2) ∧
     (build s1 [0, 1, 2] [0, 1, 0])._coeffs 0 1 = 0 ∧
     (build s1 [0, 1, 2] [0, 1, 0])._coeffs 0 2 = 3 / 2 ∧
     (build s1 [0, 1, 2] [0, 1, 0])._coeffs 0 3 = 0) ∧
    ((build s1 [0, 1, 2] [0, 1, 0])._coeffs 1 0 = 1 / 2 ∧
     (build s1 [0, 1, 2] [0, 1, 0])._coeffs 1 1 = -(3 / 2) ∧
     (build s1 [0, 1, 2] [0, 1, 0])._coeffs 1 2 = 0 ∧
     (build s1 [0, 1, 2] [0, 1, 0])._coeffs 1 3 = 1) := by
  have hn : 3 ≤ s1._num_breaks := by omega
  have hx : ∀ i, i < s1._num_breaks - 1 → 0 < dx ([0, 1, 2] : List F) i := by
    intro i hi
    have hi4 : i < 2 := by omega
    interval_cases i <;> norm_num [dx, elem]
  obtain ⟨hB0, hsys⟩ := build_system s1 [0, 1, 2] [0, 1, 0] hn hx
  have e0 := hsys 0 (by omega)
  norm_num [dx, slope, elem, h, hB0] at e0
  have hB1 : (build s1 [0, 1, 2] [0, 1, 0])._coeffs 1 1 = -(3 / 2) := by linarith
  obtain ⟨a0, c0, d0⟩ := build_row s1 [0, 1, 2] [0, 1, 0] hn 0 (by omega)
  obtain ⟨a1, c1, d1⟩ := build_row s1 [0, 1, 2] [0, 1, 0] hn 1 (by omega)
  norm_num [dx, slope, elem, h, hB0, hB1] at a0 c0 d0 a1 c1 d1
  refine ⟨?_, ⟨a0, hB0, c0, d0⟩, ⟨a1, hB1, c1, d1⟩⟩
  refine ⟨?_, ?_, ?_⟩ <;> rw [build_breaks s1 _ _ _ (by omega)] <;> norm_num [elem]

/-- The coefficient rows for `x = [0,1,2]`, `y = [1,0,1]`. -/
theorem valley_rows (s1 : Spline F) (h : s1._num_breaks = 3) :
    ((build s1 [0, 1, 2] [1, 0, 1])._breaks 0 = 0 ∧
     (build s1 [0, 1, 2] [1, 0, 1])._breaks 1 = 1 ∧
     (build s1 [0, 1, 2] [1, 0, 1])._breaks 2 = 2) ∧
    ((build s1 [0, 1, 2] [1, 0, 1])._coeffs 0 0 = 1 / 2 ∧
     (build s1 [0, 1, 2] [1, 0, 1])._coeffs 0 1 = 0 ∧
     (build s1 [0, 1, 2] [1, 0, 1])._coeffs 0 2 = -(3 / 2) ∧
     (build s1 [0, 1, 2] [1, 0, 1])._coeffs 0 3 = 1) ∧
    ((build s1 [0, 1, 2] [1, 0, 1])._coeffs 1 0 = -(1 / 2) ∧
     (build s1 [0, 1, 2] [1, 0, 1])._coeffs 1 1 = 3 / 2 ∧
     (build s1 [0, 1, 2] [1, 0, 1])._coeffs 1 2 = 0 ∧
     (build s1 [0, 1, 2] [1, 0, 1])._coeffs 1 3 = 0) := by
  have hn : 3 ≤ s1._num_breaks := by omega
  have hx : ∀ i, i < s1._num_breaks - 1 → 0 < dx ([0, 1, 2] : List F) i := by
    intro i hi
    have hi4 : i < 2 := by omega
    interval_cases i <;> norm_num [dx, elem]
  obtain ⟨hB0, hsys⟩ := build_system s1 [0, 1, 2] [1, 0, 1] hn hx
  have e0 := hsys 0 (by omega)
  norm_num [dx, slope, elem, h, hB0] at e0
  have hB1 : (build s1 [0, 1, 2] [1, 0, 1])._coeffs 1 1 = 3 / 2 := by linarith
  obtain ⟨a0, c0, d0⟩ := build_row s1 [0, 1, 2] [1, 0, 1] hn 0 (by omega)
  obtain ⟨a1, c1, d1⟩ := build_row s1 [0, 1, 2] [1, 0, 1] hn 1 (by omega)
  norm_num [dx, slope, elem, h, hB0, hB1] at a0 c0 d0 a1 c1 d1
  refine ⟨?_, ⟨a0, hB0, c0, d0⟩, ⟨a1, hB1, c1, d1⟩⟩
  refine ⟨?_, ?_, ?_⟩ <;> rw [build_breaks s1 _ _ _ (by omega)] <;> norm_num [elem]

/-- The coefficient rows for `x = [0,1,2,3]`, `y = [0,1,1,0]`. -/
theorem plateau_rows (s1 : Spline F) (h : s1._num_breaks = 4) :
    ((build s1 [0, 1, 2, 3] [0, 1, 1, 0])._breaks 0 = 0 ∧
     (build s1 [0, 1, 2, 3] [0, 1, 1, 0])._breaks 1 = 1 ∧
     (build s1 [0, 1, 2, 3] [0, 1, 1, 0])._breaks 2 = 2 ∧
     (build s1 [0, 1, 2, 3] [0, 1, 1, 0])._breaks 3 = 3) ∧
    ((build s1 [0, 1, 2, 3] [0, 1, 1, 0])._coeffs 0 0 = -(1 / 5) ∧
     (build s1 [0, 1, 2, 3] [0, 1, 1, 0])._coeffs 0 1 = 0 ∧
     (build s1 [0, 1, 2, 3] [0, 1, 1, 0])._coeffs 0 2 = 6 / 5 ∧
     (build s1 [0, 1, 2, 3] [0, 1, 1, 0])._coeffs 0 3 = 0) ∧
    ((build s1 [0, 1, 2, 3] [0, 1, 1, 0])._coeffs 1 0 = 0 ∧
     (build s1 [0, 1, 2, 3] [0, 1, 1, 0])._coeffs 1 1 = -(3 / 5) ∧
     (build s1 [0, 1, 2, 3] [0, 1, 1, 0])._coeffs 1 2 = 3 / 5 ∧
     (build s1 [0, 1, 2, 3] [0, 1, 1, 0])._coeffs 1 3 = 1) ∧
    ((build s1 [0, 1, 2, 3] [0, 1, 1, 0])._coeffs 2 0 = 1 / 5 ∧
     (build s1 [0, 1, 2, 3] [0, 1, 1, 0])._coeffs 2 1 = -(3 / 5) ∧
     (build s1 [0, 1, 2, 3] [0, 1, 1, 0])._coeffs 2 2 = -(3 / 5) ∧
     (build s1 [0, 1, 2, 3] [0, 1, 1, 0])._coeffs 2 3 = 1) := by
  have hn : 3 ≤ s1._num_breaks := by omega
  have hx : ∀ i, i < s1._num_breaks - 1 → 0 < dx ([0, 1, 2, 3] : List F) i := by
    intro i hi
    have hi4 : i < 3 := by omega
    interval_cases i <;> norm_num [dx, elem]
  obtain ⟨hB0, hsys⟩ := build_system s1 [0, 1, 2, 3] [0, 1, 1, 0] hn hx
  have e0 := hsys 0 (by omega)
  have e1 := hsys 1 (by omega)
  norm_num [dx, slope, elem, h, hB0] at e0 e1
  have hB1 : (build s1 [0, 1, 2, 3] [0, 1, 1, 0])._coeffs 1 1 = -(3 / 5) := by linarith
  have hB2 : (build s1 [0, 1, 2, 3] [0, 1, 1, 0])._coeffs 2 1 = -(3 / 5) := by linarith
  obtain ⟨a0, c0, d0⟩ := build_row s1 [0, 1, 2, 3] [0, 1, 1, 0] hn 0 (by omega)
  obtain ⟨a1, c1, d1⟩ := build_row s1 [0, 1, 2, 3] [0, 1, 1, 0] hn 1 (by omega)
  obtain ⟨a2, c2, d2⟩ := build_row s1 [0, 1, 2, 3] [0, 1, 1, 0] hn 2 (by omega)
  norm_num [dx, slope, elem, h, hB0, hB1, hB2] at a0 c0 d0 a1 c1 d1 a2 c2 d2
  refine ⟨?_, ⟨a0, hB0, c0, d0⟩, ⟨a1, hB1, c1, d1⟩, ⟨a2, hB2, c2, d2⟩⟩
  refine ⟨?_, ?_, ?_, ?_⟩ <;> rw [build_breaks s1 _ _ _ (by omega)] <;> norm_num [elem]

/-- The coefficient rows for `x = [0,1,2,3,4]`, `y = [0,1,8,27,64]`. -/
theorem cube_rows (s1 : Spline F) (h : s1._num_breaks = 5) :
    ((build s1 [0, 1, 2, 3, 4] [0, 1, 8, 27, 64])._breaks 0 = 0 ∧
     (build s1 [0, 1, 2, 3, 4] [0, 1, 8, 27, 64])._breaks 1 = 1 ∧
     (build s1 [0, 1, 2, 3, 4] [0, 1, 8, 27, 64])._breaks 2 = 2 ∧
     (build s1 [0, 1, 2, 3, 4] [0, 1, 8, 27, 64])._breaks 3 = 3 ∧
     (build s1 [0, 1, 2, 3, 4] [0, 1, 8, 27, 64])._breaks 4 = 4) ∧
    ((build s1 [0, 1, 2, 3, 4] [0, 1, 8, 27, 64])._coeffs 0 0 = 15 / 14 ∧
     (build s1 [0, 1, 2, 3, 4] [0, 1, 8, 27, 64])._coeffs 0 1 = 0 ∧
     (build s1 [0, 1, 2, 3, 4] [0, 1, 8, 27, 64])._coeffs 0 2 = -(1 / 14) ∧
     (build s1 [0, 1, 2, 3, 4] [0, 1, 8, 27, 64])._coeffs 0 3 = 0) ∧
    ((build s1 [0, 1, 2, 3, 4] [0, 1, 8, 27, 64])._coeffs 1 0 = 9 / 14 ∧
     (build s1 [0, 1, 2, 3, 4] [0, 1, 8, 27, 64])._coeffs 1 1 = 45 / 14 ∧
     (build s1 [0, 1, 2, 3, 4] [0, 1, 8, 27, 64])._coeffs 1 2 = 22 / 7 ∧
     (build s1 [0, 1, 2, 3, 4] [0, 1, 8, 27, 64])._coeffs 1 3 = 1) ∧
    ((build s1 [0, 1, 2, 3, 4] [0, 1, 8, 27, 64])._coeffs 2 0 = 33 / 14 ∧
     (build s1 [0, 1, 2, 3, 4] [0, 1, 8, 27, 64])._coeffs 2 1 = 36 / 7 ∧
     (build s1 [0, 1, 2, 3, 4] [0, 1, 8, 27, 64])._coeffs 2 2 = 23 / 2 ∧
     (build s1 [0, 1, 2, 3, 4] [0, 1, 8, 27, 64])._coeffs 2 3 = 8) ∧
    ((build s1 [0, 1, 2, 3, 4] [0, 1, 8, 27, 64])._coeffs 3 0 = -(57 / 14) ∧
     (build s1 [0, 1, 2, 3, 4] [0, 1, 8, 27, 64])._coeffs 3 1 = 171 / 14 ∧
     (build s1 [0, 1, 2, 3, 4] [0, 1, 8, 27, 64])._coeffs 3 2 = 202 / 7 ∧
     (build s1 [0, 1, 2, 3, 4] [0, 1, 8, 27, 64])._coeffs 3 3 = 27) := by
  have hn : 3 ≤ s1._num_breaks := by omega
  have hx : ∀ i, i < s1._num_breaks - 1 → 0 < dx ([0, 1, 2, 3, 4] : List F) i := by
    intro i hi
    have hi4 : i < 4 := by omega
    interval_cases i <;> norm_num [dx, elem]
  obtain ⟨hB0, hsys⟩ := build_system s1 [0, 1, 2, 3, 4] [0, 1, 8, 27, 64] hn hx
  have e0 := hsys 0 (by omega)
  have e1 := hsys 1 (by omega)
  have e2 := hsys 2 (by omega)
  norm_num [dx, slope, elem, h, hB0] at e0 e1 e2
  have hB1 : (build s1 [0, 1, 2, 3, 4] [0, 1, 8, 27, 64])._coeffs 1 1 = 45 / 14 := by linarith
  have hB2 : (build s1 [0, 1, 2, 3, 4] [0, 1, 8, 27, 64])._coeffs 2 1 = 36 / 7 := by linarith
  have hB3 : (build s1 [0, 1, 2, 3, 4] [0, 1, 8, 27, 64])._coeffs 3 1 = 171 / 14 := by linarith
  obtain ⟨a0, c0, d0⟩ := build_row s1 [0, 1, 2, 3, 4] [0, 1, 8, 27, 64] hn 0 (by omega)
  obtain ⟨a1, c1, d1⟩ := build_row s1 [0, 1, 2, 3, 4] [0, 1, 8, 27, 64] hn 1 (by omega)
  obtain ⟨a2, c2, d2⟩ := build_row s1 [0, 1, 2, 3, 4] [0, 1, 8, 27, 64] hn 2 (by omega)
  obtain ⟨a3, c3, d3⟩ := build_row s1 [0, 1, 2, 3, 4] [0, 1, 8, 27, 64] hn 3 (by omega)
  norm_num [dx, slope, elem, h, hB0, hB1, hB2, hB3] at a0 c0 d0 a1 c1 d1 a2 c2 d2 a3 c3 d3
  refine ⟨?_, ⟨a0, hB0, c0, d0⟩, ⟨a1, hB1, c1, d1⟩, ⟨a2, hB2, c2, d2⟩, ⟨a3, hB3, c3, d3⟩⟩
  refine ⟨?_, ?_, ?_, ?_, ?_⟩ <;> rw [build_breaks s1 _ _ _ (by omega)] <;> norm_num [elem]

/-! ### Offers on the sample splines -/

theorem oscillating_candidate_zero (sqrt : F → F) (h : SqrtAt sqrt (180 / 49)) :
    candidate_of sqrt (-(5 / 7)) 0 (12 / 7) 0 1 = some (7 * sqrt (180 / 49) / 15) := by
  obtain ⟨hl, hu⟩ := sqrt_bounds sqrt h
  norm_num [candidate_of]
  have e : -(sqrt (180 / 49) / -(15 / 7)) = 7 * sqrt (180 / 49) / 15 := by ring
  rw [e]
  exact ⟨by linarith, rfl⟩

theorem oscillating_candidate_one (sqrt : F → F) (h : SqrtAt sqrt (324 / 49)) :
    candidate_of sqrt (11 / 7) (-(15 / 7)) (-(3 / 7)) 1 2 = none := by
  have e := sqrt_of_square sqrt (324 / 49) (18 / 7) (by norm_num) (by norm_num) h
  norm_num [candidate_of, e]

theorem oscillating_candidate_two (sqrt : F → F) (h : SqrtAt sqrt (324 / 49)) :
    candidate_of sqrt (-(11 / 7)) (18 / 7) 0 2 3 = none := by
  have e := sqrt_of_square sqrt (324 / 49) (18 / 7) (by norm_num) (by norm_num) h
  norm_num [candidate_of, e]

theorem oscillating_candidate_three (sqrt : F → F) (h : SqrtAt sqrt (180 / 49)) :
    candidate_of sqrt (5 / 7) (-(15 / 7)) (3 / 7) 3 4 = some (4 - 7 * sqrt (180 / 49) / 15) := by
  obtain ⟨hl, hu⟩ := sqrt_bounds sqrt h
  norm_num [candidate_of]
  have e : 3 - (-(15 / 7) + sqrt (180 / 49)) / (15 / 7) = 4 - 7 * sqrt (180 / 49) / 15 := by ring
  rw [e]
  exact ⟨by linarith, by linarith, rfl⟩

theorem oscillating_value_zero (r : F) (hr : r * r = 180 / 49) :
    ((-(5 / 7) * (7 * r / 15 - 0) + 0) * (7 * r / 15 - 0) + 12 / 7) * (7 * r / 15 - 0) + 0 =
      8 * r / 15 := by
  linear_combination (-(49 / 675) * r) * hr

theorem oscillating_value_three (r : F) (hr : r * r = 180 / 49) :
    ((5 / 7 * (4 - 7 * r / 15 - 3) + -(15 / 7)) * (4 - 7 * r / 15 - 3) + 3 / 7) *
      (4 - 7 * r / 15 - 3) + 1 = 8 * r / 15 := by
  linear_combination (-(49 / 675) * r) * hr

theorem oscillating_bounds (r : F) (hl : 12 / 7 < r) (hu : r < 27 / 14) :
    ((0 : F) < 7 * r / 15 ∧ 7 * r / 15 < 4) ∧
    ((0 : F) < 4 - 7 * r / 15 ∧ 4 - 7 * r / 15 < 4) ∧
    |7 * r / 15 - 1| < 1 / 5 ∧ |4 - 7 * r / 15 - 3| < 1 / 5 ∧ |8 * r / 15 - 1| < 1 / 10 := by
  refine ⟨⟨by linarith, by linarith⟩, ⟨by linarith, by linarith⟩, ?_, ?_, ?_⟩ <;>
    rw [abs_lt] <;> constructor <;> linarith

theorem peak_candidate (sqrt : F → F) (h : SqrtAt sqrt (9 / 4)) :
    candidate_of sqrt (1 / 2) (-(3 / 2)) 0 1 2 = some 1 := by
  have e := sqrt_of_square sqrt (9 / 4) (3 / 2) (by norm_num) (by norm_num) h
  norm_num [candidate_of, e]

theorem plateau_candidate (sqrt : F → F) :
    candidate_of sqrt 0 (-(3 / 5)) (3 / 5) 1 2 = some (3 / 2) := by
  norm_num [candidate_of]

theorem valley_candidate_zero (sqrt : F → F) :
    candidate_of sqrt (1 / 2) 0 (-(3 / 2)) 0 1 = none := by
  norm_num [candidate_of]

theorem valley_candidate_one (sqrt : F → F) (h : 0 ≤ sqrt (9 / 4)) :
    candidate_of sqrt (-(1 / 2)) (3 / 2) 0 1 2 = none := by
  norm_num [candidate_of]
  intro h1
  have e : 1 - (3 / 2 + sqrt (9 / 4)) / -(3 / 2) = 2 + 2 * sqrt (9 / 4) / 3 := by ring
  rw [e]
  linarith

theorem cube_candidate_zero (sqrt : F → F) :
    candidate_of sqrt (15 / 14) 0 (-(1 / 14)) 0 1 = none := by
  norm_num [candidate_of]

theorem cube_candidate_one (sqrt : F → F) :
    candidate_of sqrt (9 / 14) (45 / 14) (22 / 7) 1 2 = none := by
  norm_num [candidate_of]

theorem cube_candidate_two (sqrt : F → F) :
    candidate_of sqrt (33 / 14) (36 / 7) (23 / 2) 2 3 = none := by
  norm_num [candidate_of]

theorem cube_candidate_three (sqrt : F → F) (h : 0 ≤ sqrt (98325 / 196)) :
    candidate_of sqrt (-(57 / 14)) (171 / 14) (202 / 7) 3 4 = none := by
  norm_num [candidate_of]
  intro h1
  exfalso
  have e : 3 - (171 / 14 + sqrt (98325 / 196)) / -(171 / 14) =
      4 + 14 * sqrt (98325 / 196) / 171 := by ring
  rw [e] at h1
  linarith

/-! ### The offers of whole splines -/

/-- Two offers whose ordinates do not increase are stored in the order offered. -/
theorem two_offers_kept (Size : Nat) (hS : 2 ≤ Size) (x1 v1 x2 v2 : F) (h : ¬ v1 < v2) :
    CriticalPointArray.size
        (CriticalPointArray.SaveAll Size CriticalPointArray.Zero [(x1, v1), (x2, v2)]) = 2 ∧
      CriticalPointArray.x
        (CriticalPointArray.SaveAll Size CriticalPointArray.Zero [(x1, v1), (x2, v2)]) 0 = x1 ∧
      CriticalPointArray.x
        (CriticalPointArray.SaveAll Size CriticalPointArray.Zero [(x1, v1), (x2, v2)]) 1 = x2 ∧
      CriticalPointArray.y Size
        (CriticalPointArray.SaveAll Size CriticalPointArray.Zero [(x1, v1), (x2, v2)]) 0 = v1 ∧
      CriticalPointArray.y Size
        (CriticalPointArray.SaveAll Size CriticalPointArray.Zero [(x1, v1), (x2, v2)]) 1 = v2 := by
  have h0 : 0 < Size := by omega
  have h1 : 1 < Size := by omega
  have hne : Size ≠ 0 := by omega
  have e1 : CriticalPointArray.Save Size CriticalPointArray.Zero x1 v1 =
      ⟨Function.update (Function.update (fun _ => 0) 0 x1) (0 + Size) v1, 1⟩ := by
    simp only [CriticalPointArray.Save, CriticalPointArray.Zero, if_pos h0, if_true]
  have hv : Function.update (Function.update (fun _ => (0 : F)) 0 x1) (0 + Size) v1 (0 + Size)
      = v1 := Function.update_same _ _ _
  have e2 : CriticalPointArray.SaveAll Size CriticalPointArray.Zero [(x1, v1), (x2, v2)] =
      ⟨Function.update (Function.update
        (Function.update (Function.update (fun _ => 0) 0 x1) (0 + Size) v1) 1 x2)
        (1 + Size) v2, 2⟩ := by
    simp only [CriticalPointArray.SaveAll, List.foldl, e1]
    simp only [CriticalPointArray.Save, if_pos h1, hv, if_neg h, if_true]
    simp
  rw [e2]
  simp only [CriticalPointArray.size, CriticalPointArray.x, CriticalPointArray.y,
    Function.update_apply]
  refine ⟨trivial, ?_, ?_, ?_, ?_⟩ <;> split_ifs <;> first | rfl | contradiction | (exfalso; omega)

/-- The offers of `maxima` on the spline built from `x = [0,1,2,3,4]`, `y = [0,1,0,1,0]`. -/
theorem oscillating_offers (sqrt : F → F) (s1 : Spline F) (h5 : s1._num_breaks = 5)
    (h1 : SqrtAt sqrt (180 / 49)) (h2 : SqrtAt sqrt (324 / 49)) :
    maxima_offers sqrt (build s1 [0, 1, 2, 3, 4] [0, 1, 0, 1, 0]) =
      [(7 * sqrt (180 / 49) / 15, 8 * sqrt (180 / 49) / 15),
       (4 - 7 * sqrt (180 / 49) / 15, 8 * sqrt (180 / 49) / 15)] := by
  have hr := h1.2
  obtain ⟨⟨b0, b1, b2, b3, b4⟩, ⟨r00, r01, r02, r03⟩, ⟨r10, r11, r12, r13⟩,
    ⟨r20, r21, r22, r23⟩, ⟨r30, r31, r32, r33⟩⟩ := oscillating_rows s1 h5
  have hn5 := build_num_breaks s1 [0, 1, 2, 3, 4] [0, 1, 0, 1, 0]
  rw [h5] at hn5
  generalize build s1 [0, 1, 2, 3, 4] [0, 1, 0, 1, 0] = s at *
  have c0 : segment_offer sqrt s 0 = some (7 * sqrt (180 / 49) / 15, 8 * sqrt (180 / 49) / 15) := by
    rw [segment_offer, segment_candidate_of, r00, r01, r02, b0, b1,
      oscillating_candidate_zero sqrt h1]
    simp only [Option.map, cubic, r00, r01, r02, r03, b0]
    rw [oscillating_value_zero _ hr]
  have c1 : segment_offer sqrt s 1 = none := by
    rw [segment_offer, segment_candidate_of, r10, r11, r12, b1, b2,
      oscillating_candidate_one sqrt h2]
    rfl
  have c2 : segment_offer sqrt s 2 = none := by
    rw [segment_offer, segment_candidate_of, r20, r21, r22, b2, b3,
      oscillating_candidate_two sqrt h2]
    rfl
  have c3 : segment_offer sqrt s 3 =
      some (4 - 7 * sqrt (180 / 49) / 15, 8 * sqrt (180 / 49) / 15) := by
    rw [segment_offer, segment_candidate_of, r30, r31, r32, b3, b4,
      oscillating_candidate_three sqrt h1]
    simp only [Option.map, cubic, r30, r31, r32, r33, b3]
    rw [oscillating_value_three _ hr]
  have cl : left_offer s = none := by
    rw [left_offer, r02, if_neg (by norm_num)]
  have cr : right_offer s = none := by
    simp only [right_offer, hn5, r30, r31, r32, b3, b4]
    rw [if_neg (by norm_num)]
  have e : sweep_offers sqrt s 4 = ((([] ++ (segment_offer sqrt s 0).toList) ++
      (segment_offer sqrt s 1).toList) ++ (segment_offer sqrt s 2).toList) ++
      (segment_offer sqrt s 3).toList := rfl
  simp only [maxima_offers, hn5, e, c0, c1, c2, c3, cl, cr]
  rfl

/-- The offers of `maxima` on the spline built from `x = [0,1,2]`, `y = [1,0,1]`. -/
theorem valley_offers (sqrt : F → F) (s1 : Spline F) (h3 : s1._num_breaks = 3)
    (h : 0 ≤ sqrt (9 / 4)) :
    maxima_offers sqrt (build s1 [0, 1, 2] [1, 0, 1]) = [(0, 1), (2, 1)] := by
  obtain ⟨⟨b0, b1, b2⟩, ⟨r00, r01, r02, r03⟩, ⟨r10, r11, r12, r13⟩⟩ := valley_rows s1 h3
  have hn := build_num_breaks s1 [0, 1, 2] [1, 0, 1]
  rw [h3] at hn
  generalize build s1 [0, 1, 2] [1, 0, 1] = s at *
  have c0 : segment_offer sqrt s 0 = none := by
    rw [segment_offer, segment_candidate_of, r00, r01, r02, b0, b1, valley_candidate_zero sqrt]
    rfl
  have c1 : segment_offer sqrt s 1 = none := by
    rw [segment_offer, segment_candidate_of, r10, r11, r12, b1, b2,
      valley_candidate_one sqrt h]
    rfl
  have cl : left_offer s = some (0, 1) := by
    rw [left_offer, r02, if_pos (by norm_num), b0, r03]
  have cr : right_offer s = some (2, 1) := by
    simp only [right_offer, hn, cubic, r10, r11, r12, r13, b1, b2]
    norm_num
  have e : sweep_offers sqrt s 2 = ([] ++ (segment_offer sqrt s 0).toList) ++
      (segment_offer sqrt s 1).toList := rfl
  simp only [maxima_offers, hn, e, c0, c1, cl, cr]
  rfl

/-- The offers of `maxima` on the spline built from `x = [0,1,2,3,4]`,
`y = [0,1,8,27,64]`: nothing from the sweep, then both boundaries. -/
theorem cube_offers (sqrt : F → F) (s1 : Spline F) (h5 : s1._num_breaks = 5)
    (h : 0 ≤ sqrt (98325 / 196)) :
    (∀ i, i < 4 → segment_candidate sqrt (build s1 [0, 1, 2, 3, 4] [0, 1, 8, 27, 64]) i = none) ∧
    left_offer (build s1 [0, 1, 2, 3, 4] [0, 1, 8, 27, 64]) = some (0, 0) ∧
    right_offer (build s1 [0, 1, 2, 3, 4] [0, 1, 8, 27, 64]) = some (4, 64) ∧
    maxima_offers sqrt (build s1 [0, 1, 2, 3, 4] [0, 1, 8, 27, 64]) = [(0, 0), (4, 64)] := by
  obtain ⟨⟨b0, b1, b2, b3, b4⟩, ⟨r00, r01, r02, r03⟩, ⟨r10, r11, r12, r13⟩,
    ⟨r20, r21, r22, r23⟩, ⟨r30, r31, r32, r33⟩⟩ := cube_rows s1 h5
  have hn := build_num_breaks s1 [0, 1, 2, 3, 4] [0, 1, 8, 27, 64]
  rw [h5] at hn
  generalize build s1 [0, 1, 2, 3, 4] [0, 1, 8, 27, 64] = s at *
  have k0 : segment_candidate sqrt s 0 = none := by
    rw [segment_candidate_of, r00, r01, r02, b0, b1, cube_candidate_zero sqrt]
  have k1 : segment_candidate sqrt s 1 = none := by
    rw [segment_candidate_of, r10, r11, r12, b1, b2, cube_candidate_one sqrt]
  have k2 : segment_candidate sqrt s 2 = none := by
    rw [segment_candidate_of, r20, r21, r22, b2, b3, cube_candidate_two sqrt]
  have k3 : segment_candidate sqrt s 3 = none := by
    rw [segment_candidate_of, r30, r31, r32, b3, b4, cube_candidate_three sqrt h]
  have cl : left_offer s = some (0, 0) := by
    rw [left_offer, r02, if_pos (by norm_num), b0, r03]
  have cr : right_offer s = some (4, 64) := by
    simp only [right_offer, hn, cubic, r30, r31, r32, r33, b3, b4]
    norm_num
  refine ⟨?_, cl, cr, ?_⟩
  · intro i hi
    interval_cases i
    · exact k0
    · exact k1
    · exact k2
    · exact k3
  · have e : sweep_offers sqrt s 4 = ((([] ++ (segment_offer sqrt s 0).toList) ++
        (segment_offer sqrt s 1).toList) ++ (segment_offer sqrt s 2).toList) ++
        (segment_offer sqrt s 3).toList := rfl
    simp only [maxima_offers, hn, e, segment_offer, k0, k1, k2, k3, cl, cr]
    rfl

/-! ## The segment sweep -/

/-- Claim C12: for every segment `i` with row `(a,b,c,d)` and every abscissa `x` the sweep of
`maxima` passes to `Save` for it (in the branch `a != 0` as in the branch `a == 0`), with
`std::sqrt` exact at the discriminant `b*b - 3*a*c`, the offset `h = x - breaks[i]`
satisfies `3*a*h^2 + 2*b*h + c = 0` and `6*a*h + 2*b < 0`, and the step of the sweep is
`Save(x, a*h^3 + b*h^2 + c*h + d)`. -/
theorem candidate_is_maximum (Size : Nat) (sqrt : F → F) (s : Spline F) (i : Nat)
    (M : CriticalPointArray F) (x : F)
    (hsq : SqrtAt sqrt (s._coeffs i 1 * s._coeffs i 1 - 3 * s._coeffs i 0 * s._coeffs i 2))
    (hc : segment_candidate sqrt s i = some x) :
    3 * s._coeffs i 0 * (x - s._breaks i) ^ 2 + 2 * s._coeffs i 1 * (x - s._breaks i) +
      s._coeffs i 2 = 0 ∧
    6 * s._coeffs i 0 * (x - s._breaks i) + 2 * s._coeffs i 1 < 0 ∧
    maxima_segment Size sqrt s i M =
      M.Save Size x (s._coeffs i 0 * (x - s._breaks i) ^ 3 + s._coeffs i 1 * (x - s._breaks i) ^ 2 +
        s._coeffs i 2 * (x - s._breaks i) + s._coeffs i 3) := by
  have hsave : maxima_segment Size sqrt s i M =
      M.Save Size x (s._coeffs i 0 * (x - s._breaks i) ^ 3 + s._coeffs i 1 * (x - s._breaks i) ^ 2 +
        s._coeffs i 2 * (x - s._breaks i) + s._coeffs i 3) := by
    rw [maxima_segment_eq, segment_offer, hc]
    simp only [Option.map_some', Option.toList_some, CriticalPointArray.SaveAll, List.foldl_cons,
      List.foldl_nil, cubic]
    congr 1
    ring
  obtain ⟨h0, hr⟩ := hsq
  rcases segment_candidate_cases sqrt s i x hc with ⟨ha, hd, _, hx, _⟩ | ⟨ha, hb, _, hx, _⟩
  · have hh : x - s._breaks i = -((s._coeffs i 1 +
        sqrt (s._coeffs i 1 * s._coeffs i 1 - 3 * s._coeffs i 0 * s._coeffs i 2)) /
        (3 * s._coeffs i 0)) := by
      rw [hx]; ring
    have hpos : 0 < sqrt (s._coeffs i 1 * s._coeffs i 1 - 3 * s._coeffs i 0 * s._coeffs i 2) := by
      rcases lt_or_eq_of_le h0 with l | e
      · exact l
      · rw [← e, mul_zero] at hr
        rw [← hr] at hd
        exact absurd hd (lt_irrefl _)
    refine ⟨?_, ?_, hsave⟩
    · rw [hh]
      exact root_identity _ _ _ _ ha hr
    · rw [hh, root_second _ _ _ ha]
      linarith
  · have hb' : s._coeffs i 1 ≠ 0 := ne_of_lt hb
    have hh : x - s._breaks i = -((1 / 2) * s._coeffs i 2 / s._coeffs i 1) := by
      rw [hx]; ring
    refine ⟨?_, ?_, hsave⟩
    · rw [hh, ha]
      field_simp
      ring
    · rw [ha]
      linarith

/-- Witness of C12: segment 0 of the spline through `(0,0),(1,1),(2,0),(3,1),(4,0)`. -/
theorem candidate_is_maximum_witness :
    ∃ s : Spline ℝ,
      construct none (fun _ => 0) (fun _ _ => 0) [0, 1, 2, 3, 4] [0, 1, 0, 1, 0] = some s ∧
      SqrtAt Real.sqrt (s._coeffs 0 1 * s._coeffs 0 1 - 3 * s._coeffs 0 0 * s._coeffs 0 2) ∧
      segment_candidate Real.sqrt s 0 = some (7 * Real.sqrt (180 / 49) / 15) ∧
      (3 * s._coeffs 0 0 * (7 * Real.sqrt (180 / 49) / 15 - s._breaks 0) ^ 2 +
          2 * s._coeffs 0 1 * (7 * Real.sqrt (180 / 49) / 15 - s._breaks 0) +
          s._coeffs 0 2 = 0 ∧
        6 * s._coeffs 0 0 * (7 * Real.sqrt (180 / 49) / 15 - s._breaks 0) +
          2 * s._coeffs 0 1 < 0 ∧
        maxima_segment 2 Real.sqrt s 0 CriticalPointArray.Zero =
          CriticalPointArray.Zero.Save 2 (7 * Real.sqrt (180 / 49) / 15)
            (s._coeffs 0 0 * (7 * Real.sqrt (180 / 49) / 15 - s._breaks 0) ^ 3 +
              s._coeffs 0 1 * (7 * Real.sqrt (180 / 49) / 15 - s._breaks 0) ^ 2 +
              s._coeffs 0 2 * (7 * Real.sqrt (180 / 49) / 15 - s._breaks 0) +
              s._coeffs 0 3)) := by
  obtain ⟨s1, h5, hb⟩ := construct_build none (fun _ => (0 : ℝ)) (fun _ _ => 0)
    [0, 1, 2, 3, 4] [0, 1, 0, 1, 0] rfl ascending_five
  obtain ⟨⟨b0, b1, _⟩, ⟨r00, r01, r02, _⟩, _⟩ := oscillating_rows s1 h5
  have hsq : SqrtAt Real.sqrt
      ((build s1 [0, 1, 2, 3, 4] [0, 1, 0, 1, 0])._coeffs 0 1 *
          (build s1 [0, 1, 2, 3, 4] [0, 1, 0, 1, 0])._coeffs 0 1 -
        3 * (build s1 [0, 1, 2, 3, 4] [0, 1, 0, 1, 0])._coeffs 0 0 *
          (build s1 [0, 1, 2, 3, 4] [0, 1, 0, 1, 0])._coeffs 0 2) :=
    real_sqrtAt _ (by rw [r00, r01, r02]; norm_num)
  have hc : segment_candidate Real.sqrt (build s1 [0, 1, 2, 3, 4] [0, 1, 0, 1, 0]) 0 =
      some (7 * Real.sqrt (180 / 49) / 15) := by
    rw [segment_candidate_of, r00, r01, r02, b0, b1]
    exact oscillating_candidate_zero Real.sqrt (real_sqrtAt _ (by norm_num))
  exact ⟨_, hb, hsq, hc, candidate_is_maximum 2 Real.sqrt _ 0 _ _ hsq hc⟩

/-- Counterexample to C13: on the spline through `(0,0),(1,1),(2,0)` the sweep offers, for
segment 1, the abscissa `1 = breaks[1]`, whose local offset is `h = 0`. -/
theorem left_breakpoint_offered :
    ∃ s : Spline ℝ,
      construct none (fun _ => 0) (fun _ _ => 0) [0, 1, 2] [0, 1, 0] = some s ∧
      segment_candidate Real.sqrt s 1 = some 1 ∧ (1 : ℝ) - s._breaks 1 = 0 ∧
      ∀ M : CriticalPointArray ℝ, maxima_segment 2 Real.sqrt s 1 M = M.Save 2 1 1 := by
  obtain ⟨s1, h3, hb⟩ := construct_build none (fun _ => (0 : ℝ)) (fun _ _ => 0)
    [0, 1, 2] [0, 1, 0] rfl ascending_three
  obtain ⟨⟨_, b1, b2⟩, _, ⟨r10, r11, r12, r13⟩⟩ := peak_rows s1 h3
  have hc : segment_candidate Real.sqrt (build s1 [0, 1, 2] [0, 1, 0]) 1 = some 1 := by
    rw [segment_candidate_of, r10, r11, r12, b1, b2]
    exact peak_candidate Real.sqrt (real_sqrtAt _ (by norm_num))
  refine ⟨_, hb, hc, by rw [b1, sub_self], ?_⟩
  intro M
  rw [maxima_segment_eq, segment_offer, hc]
  simp only [Option.map, Option.toList, CriticalPointArray.SaveAll, List.foldl, cubic,
    r10, r11, r12, r13, b1]
  norm_num

/-- Claim C13, as amended: for every segment `i`, every abscissa `x` the sweep of `maxima`
passes to `Save` (with `std::sqrt` exact at the discriminant) has local offset
`h = x - breaks[i]` with `0 <= h < breaks[i+1] - breaks[i]`: the right end is excluded,
the left end `h = 0` is not. -/
theorem candidate_in_half_open_segment (Size : Nat) (sqrt : F → F) (s : Spline F) (i : Nat)
    (M : CriticalPointArray F) (x : F)
    (hsq : SqrtAt sqrt (s._coeffs i 1 * s._coeffs i 1 - 3 * s._coeffs i 0 * s._coeffs i 2))
    (hc : segment_candidate sqrt s i = some x) :
    maxima_segment Size sqrt s i M = M.Save Size x (cubic s x i) ∧
    0 ≤ x - s._breaks i ∧ x - s._breaks i < s._breaks (i + 1) - s._breaks i := by
  refine ⟨maxima_segment_some Size sqrt s i M x hc, ?_⟩
  obtain ⟨h0, _⟩ := hsq
  rcases segment_candidate_cases sqrt s i x hc with ⟨ha, hd, hbr, hx, hlt⟩ | ⟨ha, hb, hc0, hx, hlt⟩
  · refine ⟨?_, by linarith⟩
    have hh : x - s._breaks i = (s._coeffs i 1 +
        sqrt (s._coeffs i 1 * s._coeffs i 1 - 3 * s._coeffs i 0 * s._coeffs i 2)) /
        (-(3 * s._coeffs i 0)) := by
      rw [hx, div_neg]; ring
    rw [hh]
    rcases hbr with ⟨hb, han⟩ | ⟨hb, ⟨hs, han⟩ | ⟨hs, hap⟩⟩
    · exact div_nonneg (by linarith) (by linarith)
    · exact div_nonneg hs (by linarith)
    · exact div_nonneg_of_nonpos hs (by linarith)
  · refine ⟨?_, by linarith⟩
    have hh : x - s._breaks i = (1 / 2) * s._coeffs i 2 / (-s._coeffs i 1) := by
      rw [hx, div_neg]; ring
    rw [hh]
    exact div_nonneg (by linarith) (by linarith)

/-- Witness of C13 as amended: segment 3 of the spline through
`(0,0),(1,1),(2,0),(3,1),(4,0)`. -/
theorem candidate_in_half_open_segment_witness :
    ∃ s : Spline ℝ,
      construct none (fun _ => 0) (fun _ _ => 0) [0, 1, 2, 3, 4] [0, 1, 0, 1, 0] = some s ∧
      SqrtAt Real.sqrt (s._coeffs 3 1 * s._coeffs 3 1 - 3 * s._coeffs 3 0 * s._coeffs 3 2) ∧
      segment_candidate Real.sqrt s 3 = some (4 - 7 * Real.sqrt (180 / 49) / 15) ∧
      (maxima_segment 2 Real.sqrt s 3 CriticalPointArray.Zero =
          CriticalPointArray.Zero.Save 2 (4 - 7 * Real.sqrt (180 / 49) / 15)
            (cubic s (4 - 7 * Real.sqrt (180 / 49) / 15) 3) ∧
        0 ≤ 4 - 7 * Real.sqrt (180 / 49) / 15 - s._breaks 3 ∧
        4 - 7 * Real.sqrt (180 / 49) / 15 - s._breaks 3 < s._breaks (3 + 1) - s._breaks 3) := by
  obtain ⟨s1, h5, hb⟩ := construct_build none (fun _ => (0 : ℝ)) (fun _ _ => 0)
    [0, 1, 2, 3, 4] [0, 1, 0, 1, 0] rfl ascending_five
  obtain ⟨⟨_, _, _, b3, b4⟩, _, _, _, ⟨r30, r31, r32, _⟩⟩ := oscillating_rows s1 h5
  have hsq : SqrtAt Real.sqrt
      ((build s1 [0, 1, 2, 3, 4] [0, 1, 0, 1, 0])._coeffs 3 1 *
          (build s1 [0, 1, 2, 3, 4] [0, 1, 0, 1, 0])._coeffs 3 1 -
        3 * (build s1 [0, 1, 2, 3, 4] [0, 1, 0, 1, 0])._coeffs 3 0 *
          (build s1 [0, 1, 2, 3, 4] [0, 1, 0, 1, 0])._coeffs 3 2) :=
    real_sqrtAt _ (by rw [r30, r31, r32]; norm_num)
  have hc : segment_candidate Real.sqrt (build s1 [0, 1, 2, 3, 4] [0, 1, 0, 1, 0]) 3 =
      some (4 - 7 * Real.sqrt (180 / 49) / 15) := by
    rw [segment_candidate_of, r30, r31, r32, b3, b4]
    exact oscillating_candidate_three Real.sqrt (real_sqrtAt _ (by norm_num))
  exact ⟨_, hb, hsq, hc, candidate_in_half_open_segment 2 Real.sqrt _ 3 _ _ hsq hc⟩

/-- Counterexample to C14: on the spline through `(0,0),(1,1),(2,1),(3,0)` segment 1 has
`a = 0`, `b = -3/5` (so `b <= 0`, not `b > 0`) and `c = 3/5` (so `c >= 0`), and the sweep
offers the abscissa `3/2`, the root `h = -c/(2b) = 1/2`. -/
theorem quadratic_offer_negative_b :
    ∃ s : Spline ℝ,
      construct none (fun _ => 0) (fun _ _ => 0) [0, 1, 2, 3] [0, 1, 1, 0] = some s ∧
      s._coeffs 1 0 = 0 ∧ s._coeffs 1 1 ≤ 0 ∧ 0 ≤ s._coeffs 1 2 ∧
      segment_candidate Real.sqrt s 1 = some (3 / 2) ∧
      (3 / 2 : ℝ) - s._breaks 1 = -s._coeffs 1 2 / (2 * s._coeffs 1 1) ∧
      ∀ M : CriticalPointArray ℝ,
        maxima_segment 2 Real.sqrt s 1 M = M.Save 2 (3 / 2) (cubic s (3 / 2) 1) := by
  obtain ⟨s1, h4, hb⟩ := construct_build none (fun _ => (0 : ℝ)) (fun _ _ => 0)
    [0, 1, 2, 3] [0, 1, 1, 0] rfl ascending_four
  obtain ⟨⟨_, b1, b2, _⟩, _, ⟨r10, r11, r12, _⟩, _⟩ := plateau_rows s1 h4
  have hc : segment_candidate Real.sqrt (build s1 [0, 1, 2, 3] [0, 1, 1, 0]) 1 =
      some (3 / 2) := by
    rw [segment_candidate_of, r10, r11, r12, b1, b2]
    exact plateau_candidate Real.sqrt
  refine ⟨_, hb, r10, by rw [r11]; norm_num, by rw [r12]; norm_num, hc, ?_, ?_⟩
  · rw [r11, r12, b1]
    norm_num
  · intro M
    exact maxima_segment_some 2 Real.sqrt _ 1 M _ hc

/-- Claim C14, as amended: in a segment whose cubic coefficient `a` is zero the sweep
passes `breaks[i] - c/(2b)`, the root `h = -c/(2b)`, to `Save` exactly when `b < 0`,
`c >= 0` and that abscissa is below `breaks[i+1]`; it passes nothing when `b >= 0` or
`c < 0`. -/
theorem quadratic_segment_rule (Size : Nat) (sqrt : F → F) (s : Spline F) (i : Nat)
    (M : CriticalPointArray F) (ha : s._coeffs i 0 = 0) :
    (segment_candidate sqrt s i =
      if s._coeffs i 1 < 0 ∧ 0 ≤ s._coeffs i 2 ∧
          s._breaks i - s._coeffs i 2 / (2 * s._coeffs i 1) < s._breaks (i + 1)
      then some (s._breaks i - s._coeffs i 2 / (2 * s._coeffs i 1)) else none) ∧
    (maxima_segment Size sqrt s i M =
      if s._coeffs i 1 < 0 ∧ 0 ≤ s._coeffs i 2 ∧
          s._breaks i - s._coeffs i 2 / (2 * s._coeffs i 1) < s._breaks (i + 1)
      then M.Save Size (s._breaks i - s._coeffs i 2 / (2 * s._coeffs i 1))
        (cubic s (s._breaks i - s._coeffs i 2 / (2 * s._coeffs i 1)) i)
      else M) ∧
    (0 ≤ s._coeffs i 1 ∨ s._coeffs i 2 < 0 → maxima_segment Size sqrt s i M = M) := by
  have e : s._breaks i - (1 / 2) * s._coeffs i 2 / s._coeffs i 1 =
      s._breaks i - s._coeffs i 2 / (2 * s._coeffs i 1) := by
    by_cases hb : s._coeffs i 1 = 0
    · rw [hb]; simp
    · field_simp
  have main : segment_candidate sqrt s i =
      if s._coeffs i 1 < 0 ∧ 0 ≤ s._coeffs i 2 ∧
          s._breaks i - s._coeffs i 2 / (2 * s._coeffs i 1) < s._breaks (i + 1)
      then some (s._breaks i - s._coeffs i 2 / (2 * s._coeffs i 1)) else none := by
    unfold segment_candidate
    simp only
    rw [if_neg (not_not.mpr ha), e]
    by_cases hbc : s._coeffs i 1 < 0 ∧ s._coeffs i 2 ≥ 0
    · rw [if_pos hbc]
      by_cases hx : s._breaks i - s._coeffs i 2 / (2 * s._coeffs i 1) < s._breaks (i + 1)
      · rw [if_pos hx, if_pos ⟨hbc.1, hbc.2, hx⟩]
      · rw [if_neg hx, if_neg (fun h => hx h.2.2)]
    · rw [if_neg hbc, if_neg (fun h => hbc ⟨h.1, h.2.1⟩)]
  have step : maxima_segment Size sqrt s i M =
      if s._coeffs i 1 < 0 ∧ 0 ≤ s._coeffs i 2 ∧
          s._breaks i - s._coeffs i 2 / (2 * s._coeffs i 1) < s._breaks (i + 1)
      then M.Save Size (s._breaks i - s._coeffs i 2 / (2 * s._coeffs i 1))
        (cubic s (s._breaks i - s._coeffs i 2 / (2 * s._coeffs i 1)) i)
      else M := by
    by_cases hcond : s._coeffs i 1 < 0 ∧ 0 ≤ s._coeffs i 2 ∧
        s._breaks i - s._coeffs i 2 / (2 * s._coeffs i 1) < s._breaks (i + 1)
    · rw [if_pos hcond] at main
      rw [if_pos hcond]
      exact maxima_segment_some Size sqrt s i M _ main
    · rw [if_neg hcond] at main
      rw [if_neg hcond]
      exact maxima_segment_none Size sqrt s i M main
  refine ⟨main, step, ?_⟩
  intro h
  rw [step, if_neg]
  rintro ⟨h1, h2, _⟩
  rcases h with h | h
  · exact absurd h1 (not_lt.mpr h)
  · exact absurd h2 (not_le.mpr h)

/-- Witness of C14 as amended: segment 1 of the spline through `(0,0),(1,1),(2,1),(3,0)`. -/
theorem quadratic_segment_rule_witness :
    ∃ s : Spline ℝ,
      construct none (fun _ => 0) (fun _ _ => 0) [0, 1, 2, 3] [0, 1, 1, 0] = some s ∧
      s._coeffs 1 0 = 0 ∧
      ((segment_candidate Real.sqrt s 1 =
        if s._coeffs 1 1 < 0 ∧ 0 ≤ s._coeffs 1 2 ∧
            s._breaks 1 - s._coeffs 1 2 / (2 * s._coeffs 1 1) < s._breaks (1 + 1)
        then some (s._breaks 1 - s._coeffs 1 2 / (2 * s._coeffs 1 1)) else none) ∧
      (maxima_segment 2 Real.sqrt s 1 CriticalPointArray.Zero =
        if s._coeffs 1 1 < 0 ∧ 0 ≤ s._coeffs 1 2 ∧
            s._breaks 1 - s._coeffs 1 2 / (2 * s._coeffs 1 1) < s._breaks (1 + 1)
        then CriticalPointArray.Zero.Save 2 (s._breaks 1 - s._coeffs 1 2 / (2 * s._coeffs 1 1))
          (cubic s (s._breaks 1 - s._coeffs 1 2 / (2 * s._coeffs 1 1)) 1)
        else CriticalPointArray.Zero) ∧
      (0 ≤ s._coeffs 1 1 ∨ s._coeffs 1 2 < 0 →
        maxima_segment 2 Real.sqrt s 1 CriticalPointArray.Zero = CriticalPointArray.Zero)) := by
  obtain ⟨s1, h4, hb⟩ := construct_build none (fun _ => (0 : ℝ)) (fun _ _ => 0)
    [0, 1, 2, 3] [0, 1, 1, 0] rfl ascending_four
  obtain ⟨_, _, ⟨r10, _⟩, _⟩ := plateau_rows s1 h4
  exact ⟨_, hb, r10, quadratic_segment_rule 2 Real.sqrt _ 1 _ r10⟩

/-! ## The boundary checks -/

/-- Claim C15: for every `x`, `y` that pass the assertions of `set`, with `n >= 3` points,
the right boundary check of `maxima` passes `(breaks[n-1], v)` to `Save` exactly when
`3*a*h^2 + 2*b*h + c > 0`, where `(a,b,c,d)` is row `n-2` of the coefficients,
`h = breaks[n-1] - breaks[n-2]` and `v = a*h^3 + b*h^2 + c*h + d` is the value of the last
cubic at `h` (which equals `y[n-1]`); `breaks[n-1]` is `x[n-1]`, and the array `maxima`
returns is the result of the `Save` calls of the sweep, of the left boundary check and of
this check, in that order. -/
theorem right_boundary_candidate (BreaksSize : Option Nat) (ub : Nat → F)
    (uc : Nat → Nat → F) (s0 : Spline F) (x y : List F) (Size : Nat) (sqrt : F → F)
    (hsize : _AssertSize BreaksSize x y = true) (hasc : ascending x = true)
    (hn : 3 ≤ x.length) :
    ∃ s, set BreaksSize ub uc s0 x y = some s ∧
      s._breaks (x.length - 1) = elem x (x.length - 1) ∧
      right_offer s =
        (if 0 < 3 * s._coeffs (x.length - 2) 0 *
              (s._breaks (x.length - 1) - s._breaks (x.length - 2)) ^ 2 +
            2 * s._coeffs (x.length - 2) 1 *
              (s._breaks (x.length - 1) - s._breaks (x.length - 2)) +
            s._coeffs (x.length - 2) 2
        then some (s._breaks (x.length - 1),
          s._coeffs (x.length - 2) 0 *
              (s._breaks (x.length - 1) - s._breaks (x.length - 2)) ^ 3 +
            s._coeffs (x.length - 2) 1 *
              (s._breaks (x.length - 1) - s._breaks (x.length - 2)) ^ 2 +
            s._coeffs (x.length - 2) 2 *
              (s._breaks (x.length - 1) - s._breaks (x.length - 2)) +
            s._coeffs (x.length - 2) 3)
        else none) ∧
      s._coeffs (x.length - 2) 0 *
          (s._breaks (x.length - 1) - s._breaks (x.length - 2)) ^ 3 +
        s._coeffs (x.length - 2) 1 *
          (s._breaks (x.length - 1) - s._breaks (x.length - 2)) ^ 2 +
        s._coeffs (x.length - 2) 2 *
          (s._breaks (x.length - 1) - s._breaks (x.length - 2)) +
        s._coeffs (x.length - 2) 3 = elem y (x.length - 1) ∧
      maxima Size sqrt s = some (CriticalPointArray.SaveAll Size CriticalPointArray.Zero
        (sweep_offers sqrt s (x.length - 1) ++ (left_offer s).toList ++
          (right_offer s).toList)) := by
  refine ⟨_, set_eq_build BreaksSize ub uc s0 x y hsize hasc, ?_⟩
  have hnb := prepare_num_breaks BreaksSize ub uc s0 x.length
  generalize prepare BreaksSize ub uc s0 x.length = s1 at hnb
  have hn3 : 3 ≤ s1._num_breaks := by omega
  have hx : ∀ i, i < s1._num_breaks - 1 → 0 < dx x i := by
    rw [hnb]; exact ascending_dx_pos x hasc
  have hbn := build_num_breaks s1 x y
  rw [hnb] at hbn
  have bl := build_breaks s1 x y (x.length - 1) (by omega)
  have bp := build_breaks s1 x y (x.length - 2) (by omega)
  obtain ⟨_, hend⟩ := build_segment_ends s1 x y hn3 hx (x.length - 2) (by omega)
  have e21 : x.length - 2 + 1 = x.length - 1 := by omega
  have hr := right_offer_eq (build s1 x y)
  have hm : maxima Size sqrt (build s1 x y) =
      some (CriticalPointArray.SaveAll Size CriticalPointArray.Zero
        (maxima_offers sqrt (build s1 x y))) := maxima_into_eq Size sqrt _ _ (by omega)
  rw [hbn] at hr
  simp only [maxima_offers, hbn] at hm
  refine ⟨bl, hr, ?_, hm⟩
  rw [bl, bp]
  simp only [dx, e21] at hend
  exact hend

/-- Witness of C15: five points on a dynamic spline. -/
theorem right_boundary_candidate_witness :
    _AssertSize none [(0 : ℝ), 1, 2, 3, 4] [(0 : ℝ), 1, 0, 1, 0] = true ∧
    ascending [(0 : ℝ), 1, 2, 3, 4] = true ∧ 3 ≤ [(0 : ℝ), 1, 2, 3, 4].length ∧
    ∃ s, set none (fun _ => 0) (fun _ _ => 0) (init none (fun _ => 0) (fun _ _ => 0))
        [(0 : ℝ), 1, 2, 3, 4] [0, 1, 0, 1, 0] = some s ∧
      s._breaks ([(0 : ℝ), 1, 2, 3, 4].length - 1) =
        elem [(0 : ℝ), 1, 2, 3, 4] ([(0 : ℝ), 1, 2, 3, 4].length - 1) ∧
      right_offer s =
        (if 0 < 3 * s._coeffs ([(0 : ℝ), 1, 2, 3, 4].length - 2) 0 *
              (s._breaks ([(0 : ℝ), 1, 2, 3, 4].length - 1) -
                s._breaks ([(0 : ℝ), 1, 2, 3, 4].length - 2)) ^ 2 +
            2 * s._coeffs ([(0 : ℝ), 1, 2, 3, 4].length - 2) 1 *
              (s._breaks ([(0 : ℝ), 1, 2, 3, 4].length - 1) -
                s._breaks ([(0 : ℝ), 1, 2, 3, 4].length - 2)) +
            s._coeffs ([(0 : ℝ), 1, 2, 3, 4].length - 2) 2
        then some (s._breaks ([(0 : ℝ), 1, 2, 3, 4].length - 1),
          s._coeffs ([(0 : ℝ), 1, 2, 3, 4].length - 2) 0 *
              (s._breaks ([(0 : ℝ), 1, 2, 3, 4].length - 1) -
                s._breaks ([(0 : ℝ), 1, 2, 3, 4].length - 2)) ^ 3 +
            s._coeffs ([(0 : ℝ), 1, 2, 3, 4].length - 2) 1 *
              (s._breaks ([(0 : ℝ), 1, 2, 3, 4].length - 1) -
                s._breaks ([(0 : ℝ), 1, 2, 3, 4].length - 2)) ^ 2 +
            s._coeffs ([(0 : ℝ), 1, 2, 3, 4].length - 2) 2 *
              (s._breaks ([(0 : ℝ), 1, 2, 3, 4].length - 1) -
                s._breaks ([(0 : ℝ), 1, 2, 3, 4].length - 2)) +
            s._coeffs ([(0 : ℝ), 1, 2, 3, 4].length - 2) 3)
        else none) ∧
      s._coeffs ([(0 : ℝ), 1, 2, 3, 4].length - 2) 0 *
          (s._breaks ([(0 : ℝ), 1, 2, 3, 4].length - 1) -
            s._breaks ([(0 : ℝ), 1, 2, 3, 4].length - 2)) ^ 3 +
        s._coeffs ([(0 : ℝ), 1, 2, 3, 4].length - 2) 1 *
          (s._breaks ([(0 : ℝ), 1, 2, 3, 4].length - 1) -
            s._breaks ([(0 : ℝ), 1, 2, 3, 4].length - 2)) ^ 2 +
        s._coeffs ([(0 : ℝ), 1, 2, 3, 4].length - 2) 2 *
          (s._breaks ([(0 : ℝ), 1, 2, 3, 4].length - 1) -
            s._breaks ([(0 : ℝ), 1, 2, 3, 4].length - 2)) +
        s._coeffs ([(0 : ℝ), 1, 2, 3, 4].length - 2) 3 =
          elem [(0 : ℝ), 1, 0, 1, 0] ([(0 : ℝ), 1, 2, 3, 4].length - 1) ∧
      maxima 2 Real.sqrt s = some (CriticalPointArray.SaveAll 2 CriticalPointArray.Zero
        (sweep_offers Real.sqrt s ([(0 : ℝ), 1, 2, 3, 4].length - 1) ++ (left_offer s).toList ++
          (right_offer s).toList)) :=
  ⟨rfl, ascending_five, by decide,
    right_boundary_candidate none _ _ _ _ _ 2 Real.sqrt rfl ascending_five (by decide)⟩

/-- Counterexample to C16: on the spline through `(0,1),(1,0),(2,1)` the second derivative
of the first cubic at its left edge, `2*coeffs[0][1]`, is `0`, not negative, and
`maxima<2>()` returns the first breakpoint `(breaks[0], coeffs[0][3]) = (0, 1)` as its
entry 0. -/
theorem left_boundary_without_concavity :
    ∃ (s : Spline ℝ) (M : CriticalPointArray ℝ),
      construct none (fun _ => 0) (fun _ _ => 0) [0, 1, 2] [1, 0, 1] = some s ∧
      ¬ (2 * s._coeffs 0 1 < 0) ∧
      left_offer s = some (s._breaks 0, s._coeffs 0 3) ∧
      maxima 2 Real.sqrt s = some M ∧
      CriticalPointArray.size M = 2 ∧
      CriticalPointArray.x M 0 = s._breaks 0 ∧ CriticalPointArray.y 2 M 0 = s._coeffs 0 3 ∧
      CriticalPointArray.x M 0 = 0 ∧ CriticalPointArray.y 2 M 0 = 1 := by
  obtain ⟨s1, h3, hb⟩ := construct_build none (fun _ => (0 : ℝ)) (fun _ _ => 0)
    [0, 1, 2] [1, 0, 1] rfl ascending_three
  obtain ⟨⟨b0, _, _⟩, ⟨_, r01, r02, r03⟩, _⟩ := valley_rows s1 h3
  have hoff := valley_offers Real.sqrt s1 h3 (Real.sqrt_nonneg _)
  have h3n : s1._num_breaks = 3 := h3
  have hbn := build_num_breaks s1 [0, 1, 2] [(1 : ℝ), 0, 1]
  have hm : maxima 2 Real.sqrt (build s1 [0, 1, 2] [1, 0, 1]) =
      some (CriticalPointArray.SaveAll 2 CriticalPointArray.Zero
        (maxima_offers Real.sqrt (build s1 [0, 1, 2] [1, 0, 1]))) :=
    maxima_into_eq 2 Real.sqrt _ _ (by omega)
  rw [hoff] at hm
  obtain ⟨k0, k1, _, k3, _⟩ := two_offers_kept 2 (le_refl 2) (0 : ℝ) 1 2 1 (lt_irrefl _)
  refine ⟨_, _, hb, ?_, ?_, hm, k0, ?_, ?_, k1, k3⟩
  · rw [r01]; norm_num
  · rw [left_offer, r02, if_pos (by norm_num)]
  · rw [k1, b0]
  · rw [k3, r03]

/-- Claim C16, as amended: for every `x`, `y` that pass the assertions of `set`, with three
or more points, the left boundary check of `maxima` passes `(breaks[0], coeffs[0][3])`,
which is `(x[0], y[0])`, to `Save` exactly when `coeffs[0][2] < 0`: the first derivative of
the first cubic at its left edge is negative. The second derivative there, `2*coeffs[0][1]`,
is zero for every such spline and takes no part in the test. The array `maxima` returns is
the result of the `Save` calls of the sweep, of this check and of the right boundary check,
in that order. -/
theorem left_boundary_candidate (BreaksSize : Option Nat) (ub : Nat → F)
    (uc : Nat → Nat → F) (s0 : Spline F) (x y : List F) (Size : Nat) (sqrt : F → F)
    (hsize : _AssertSize BreaksSize x y = true) (hasc : ascending x = true)
    (hn : 3 ≤ x.length) :
    ∃ s, set BreaksSize ub uc s0 x y = some s ∧
      left_offer s =
        (if s._coeffs 0 2 < 0 then some (s._breaks 0, s._coeffs 0 3) else none) ∧
      s._breaks 0 = elem x 0 ∧ s._coeffs 0 3 = elem y 0 ∧
      2 * s._coeffs 0 1 = 0 ∧
      3 * s._coeffs 0 0 * (0 : F) ^ 2 + 2 * s._coeffs 0 1 * 0 + s._coeffs 0 2 = s._coeffs 0 2 ∧
      maxima Size sqrt s = some (CriticalPointArray.SaveAll Size CriticalPointArray.Zero
        (sweep_offers sqrt s (x.length - 1) ++ (left_offer s).toList ++
          (right_offer s).toList)) := by
  refine ⟨_, set_eq_build BreaksSize ub uc s0 x y hsize hasc, ?_⟩
  have hnb := prepare_num_breaks BreaksSize ub uc s0 x.length
  generalize prepare BreaksSize ub uc s0 x.length = s1 at hnb
  have hn3 : 3 ≤ s1._num_breaks := by omega
  have hx : ∀ i, i < s1._num_breaks - 1 → 0 < dx x i := by
    rw [hnb]; exact ascending_dx_pos x hasc
  have hbn := build_num_breaks s1 x y
  rw [hnb] at hbn
  obtain ⟨hB0, _⟩ := build_system s1 x y hn3 hx
  have hm : maxima Size sqrt (build s1 x y) =
      some (CriticalPointArray.SaveAll Size CriticalPointArray.Zero
        (maxima_offers sqrt (build s1 x y))) := maxima_into_eq Size sqrt _ _ (by omega)
  simp only [maxima_offers, hbn] at hm
  refine ⟨rfl, build_breaks s1 x y 0 (by omega), build_c3 s1 x y hn3 0 (by omega), ?_, ?_, hm⟩
  · rw [hB0, mul_zero]
  · ring

/-- Witness of C16 as amended: three points on a dynamic spline. -/
theorem left_boundary_candidate_witness :
    _AssertSize none [(0 : ℝ), 1, 2] [(1 : ℝ), 0, 1] = true ∧
    ascending [(0 : ℝ), 1, 2] = true ∧ 3 ≤ [(0 : ℝ), 1, 2].length ∧
    ∃ s, set none (fun _ => 0) (fun _ _ => 0) (init none (fun _ => 0) (fun _ _ => 0))
        [(0 : ℝ), 1, 2] [1, 0, 1] = some s ∧
      left_offer s =
        (if s._coeffs 0 2 < 0 then some (s._breaks 0, s._coeffs 0 3) else none) ∧
      s._breaks 0 = elem [(0 : ℝ), 1, 2] 0 ∧ s._coeffs 0 3 = elem [(1 : ℝ), 0, 1] 0 ∧
      2 * s._coeffs 0 1 = 0 ∧
      3 * s._coeffs 0 0 * (0 : ℝ) ^ 2 + 2 * s._coeffs 0 1 * 0 + s._coeffs 0 2 = s._coeffs 0 2 ∧
      maxima 2 Real.sqrt s = some (CriticalPointArray.SaveAll 2 CriticalPointArray.Zero
        (sweep_offers Real.sqrt s ([(0 : ℝ), 1, 2].length - 1) ++ (left_offer s).toList ++
          (right_offer s).toList)) :=
  ⟨rfl, ascending_three, by decide,
    left_boundary_candidate none _ _ _ _ _ 2 Real.sqrt rfl ascending_three (by decide)⟩

/-! ## Scenarios -/

/-- Claim C17: for `x = [0,1,2,3,4]`, `y = [0,1,0,1,0]`, storage large enough and
`std::sqrt` exact, the constructor builds a spline and `maxima<2>()` returns exactly two
entries; both lie strictly between `breaks[0]` and `breaks[4]`, entry 0 has
`|x - 1| < 0.2`, entry 1 has `|x - 3| < 0.2`, both have `|y - 1| < 0.1`, and
`y(1) <= y(0)`. -/
theorem oscillating_scenario (BreaksSize : Option Nat) (ub : Nat → F) (uc : Nat → Nat → F)
    (sqrt : F → F) (hcap : ∀ N, BreaksSize = some N → 5 ≤ N)
    (hs : ∀ t : F, 0 ≤ t → SqrtAt sqrt t) :
    ∃ s M, construct BreaksSize ub uc [0, 1, 2, 3, 4] [0, 1, 0, 1, 0] = some s ∧
      maxima 2 sqrt s = some M ∧
      CriticalPointArray.size M = 2 ∧
      (s._breaks 0 < CriticalPointArray.x M 0 ∧ CriticalPointArray.x M 0 < s._breaks 4) ∧
      (s._breaks 0 < CriticalPointArray.x M 1 ∧ CriticalPointArray.x M 1 < s._breaks 4) ∧
      |CriticalPointArray.x M 0 - 1| < 1 / 5 ∧
      |CriticalPointArray.x M 1 - 3| < 1 / 5 ∧
      |CriticalPointArray.y 2 M 0 - 1| < 1 / 10 ∧
      |CriticalPointArray.y 2 M 1 - 1| < 1 / 10 ∧
      CriticalPointArray.y 2 M 1 ≤ CriticalPointArray.y 2 M 0 := by
  have h1 : SqrtAt sqrt (180 / 49) := hs _ (by norm_num)
  have h2 : SqrtAt sqrt (324 / 49) := hs _ (by norm_num)
  obtain ⟨hl, hu⟩ := sqrt_bounds sqrt h1
  have hsize := assertSize_of_length BreaksSize ([0, 1, 2, 3, 4] : List F)
    [0, 1, 0, 1, 0] rfl (Nat.lt_of_sub_eq_succ rfl) hcap
  have hb := set_eq_build BreaksSize ub uc (init BreaksSize ub uc) [0, 1, 2, 3, 4]
    [0, 1, 0, 1, 0] hsize ascending_five
  have hnb := prepare_num_breaks BreaksSize ub uc (init BreaksSize ub uc)
    ([0, 1, 2, 3, 4] : List F).length
  generalize prepare BreaksSize ub uc (init BreaksSize ub uc)
    ([0, 1, 2, 3, 4] : List F).length = s1 at hb hnb
  have h5 : s1._num_breaks = 5 := hnb
  have hoff := oscillating_offers sqrt s1 h5 h1 h2
  obtain ⟨⟨b0, _, _, _, b4⟩, _⟩ := oscillating_rows s1 h5
  have hn5 := build_num_breaks s1 [0, 1, 2, 3, 4] [0, 1, 0, 1, 0]
  rw [h5] at hn5
  have hm : maxima 2 sqrt (build s1 [0, 1, 2, 3, 4] [0, 1, 0, 1, 0]) =
      some (CriticalPointArray.SaveAll 2 CriticalPointArray.Zero
        (maxima_offers sqrt (build s1 [0, 1, 2, 3, 4] [0, 1, 0, 1, 0]))) :=
    maxima_into_eq 2 sqrt _ _ (by omega)
  rw [hoff] at hm
  obtain ⟨k0, k1, k2, k3, k4⟩ := two_offers_kept 2 (le_refl 2)
    (7 * sqrt (180 / 49) / 15) (8 * sqrt (180 / 49) / 15)
    (4 - 7 * sqrt (180 / 49) / 15) (8 * sqrt (180 / 49) / 15) (lt_irrefl _)
  obtain ⟨n1, n2, n3, n4, n5⟩ := oscillating_bounds (sqrt (180 / 49)) hl hu
  refine ⟨_, _, hb, hm, k0, ?_, ?_, ?_, ?_, ?_, ?_, ?_⟩
  · rw [k1, b0, b4]; exact n1
  · rw [k2, b0, b4]; exact n2
  · rw [k1]; exact n3
  · rw [k2]; exact n4
  · rw [k3]; exact n5
  · rw [k4]; exact n5
  · rw [k3, k4]

/-- Witness of C17: a dynamic spline over the reals with `Real.sqrt`. -/
theorem oscillating_scenario_witness :
    (∀ N, (none : Option Nat) = some N → 5 ≤ N) ∧
    (∀ t : ℝ, 0 ≤ t → SqrtAt Real.sqrt t) ∧
    ∃ s M, construct none (fun _ => (0 : ℝ)) (fun _ _ => 0) [0, 1, 2, 3, 4] [0, 1, 0, 1, 0] =
        some s ∧
      maxima 2 Real.sqrt s = some M ∧
      CriticalPointArray.size M = 2 ∧
      (s._breaks 0 < CriticalPointArray.x M 0 ∧ CriticalPointArray.x M 0 < s._breaks 4) ∧
      (s._breaks 0 < CriticalPointArray.x M 1 ∧ CriticalPointArray.x M 1 < s._breaks 4) ∧
      |CriticalPointArray.x M 0 - 1| < 1 / 5 ∧
      |CriticalPointArray.x M 1 - 3| < 1 / 5 ∧
      |CriticalPointArray.y 2 M 0 - 1| < 1 / 10 ∧
      |CriticalPointArray.y 2 M 1 - 1| < 1 / 10 ∧
      CriticalPointArray.y 2 M 1 ≤ CriticalPointArray.y 2 M 0 :=
  ⟨fun _ h => Option.noConfusion h, real_sqrtAt,
    oscillating_scenario none _ _ Real.sqrt (fun _ h => Option.noConfusion h) real_sqrtAt⟩

/-- Counterexample to C18: on the spline built from `x = [0,1,2,3,4]`,
`y = [0,1,8,27,64]`, `maxima<2>()` returns two entries, and entry 1 is the left boundary
breakpoint `(breaks[0], y[0]) = (0, 0)`. -/
theorem monotone_left_boundary_reported :
    ∃ (s : Spline ℝ) (M : CriticalPointArray ℝ),
      construct none (fun _ => 0) (fun _ _ => 0) [0, 1, 2, 3, 4] [0, 1, 8, 27, 64] = some s ∧
      maxima 2 Real.sqrt s = some M ∧
      CriticalPointArray.size M = 2 ∧
      CriticalPointArray.x M 1 = s._breaks 0 ∧
      CriticalPointArray.x M 1 = 0 ∧ CriticalPointArray.y 2 M 1 = 0 := by
  obtain ⟨s1, h5, hb⟩ := construct_build none (fun _ => (0 : ℝ)) (fun _ _ => 0)
    [0, 1, 2, 3, 4] [0, 1, 8, 27, 64] rfl ascending_five
  obtain ⟨_, _, _, hoff⟩ := cube_offers Real.sqrt s1 h5 (Real.sqrt_nonneg _)
  obtain ⟨⟨b0, _⟩, _⟩ := cube_rows s1 h5
  have h5n : s1._num_breaks = 5 := h5
  have hbn := build_num_breaks s1 [0, 1, 2, 3, 4] [(0 : ℝ), 1, 8, 27, 64]
  have hm : maxima 2 Real.sqrt (build s1 [0, 1, 2, 3, 4] [0, 1, 8, 27, 64]) =
      some (CriticalPointArray.SaveAll 2 CriticalPointArray.Zero
        (maxima_offers Real.sqrt (build s1 [0, 1, 2, 3, 4] [0, 1, 8, 27, 64]))) :=
    maxima_into_eq 2 Real.sqrt _ _ (by omega)
  rw [hoff] at hm
  have hp := CriticalPointArray.SaveAll_increasing 2 (by decide)
    ([(0, 0), (4, 64)] : List (ℝ × ℝ)) (by simp)
  obtain ⟨p0, _, _, p3, p4⟩ := pairs_two 2 _ (4, 64) (0, 0) hp
  exact ⟨_, _, hb, hm, p0, by rw [b0]; exact p3, p3, p4⟩

/-- Claim C18, as amended: on the spline built from `x = [0,1,2,3,4]`,
`y = [0,1,8,27,64]` the sweep of `maxima` offers no point of any segment, the right
boundary check offers `(4, 64)` and the left boundary check offers `(0, 0)`, because
`coeffs[0][2] = -1/14` is negative; `maxima<K>()` returns `(4,64)` followed, when
`K >= 2`, by `(0,0)`. -/
theorem monotone_cubic_scenario (BreaksSize : Option Nat) (ub : Nat → F) (uc : Nat → Nat → F)
    (sqrt : F → F) (K : Nat) (hcap : ∀ N, BreaksSize = some N → 5 ≤ N) (hK : 1 ≤ K)
    (hs : ∀ t : F, 0 ≤ sqrt t) :
    ∃ s M, construct BreaksSize ub uc [0, 1, 2, 3, 4] [0, 1, 8, 27, 64] = some s ∧
      (∀ i, i < 4 → segment_candidate sqrt s i = none) ∧
      s._coeffs 0 2 = -(1 / 14) ∧
      left_offer s = some (0, 0) ∧
      right_offer s = some (4, 64) ∧
      maxima K sqrt s = some M ∧
      CriticalPointArray.pairs K M = ([(4, 64), (0, 0)] : List (F × F)).take K := by
  have hsize := assertSize_of_length BreaksSize ([0, 1, 2, 3, 4] : List F)
    [0, 1, 8, 27, 64] rfl (Nat.lt_of_sub_eq_succ rfl) hcap
  obtain ⟨s1, h5, hb⟩ := construct_build BreaksSize ub uc [0, 1, 2, 3, 4] [0, 1, 8, 27, 64]
    hsize ascending_five
  obtain ⟨hc, hl, hr, hoff⟩ := cube_offers sqrt s1 h5 (hs _)
  obtain ⟨_, ⟨_, _, r02, _⟩, _⟩ := cube_rows s1 h5
  have h5n : s1._num_breaks = 5 := h5
  have hbn := build_num_breaks s1 [0, 1, 2, 3, 4] [(0 : F), 1, 8, 27, 64]
  have hm : maxima K sqrt (build s1 [0, 1, 2, 3, 4] [0, 1, 8, 27, 64]) =
      some (CriticalPointArray.SaveAll K CriticalPointArray.Zero
        (maxima_offers sqrt (build s1 [0, 1, 2, 3, 4] [0, 1, 8, 27, 64]))) :=
    maxima_into_eq K sqrt _ _ (by omega)
  rw [hoff] at hm
  refine ⟨_, _, hb, hc, r02, hl, hr, hm, ?_⟩
  rw [CriticalPointArray.SaveAll_increasing K hK [(0, 0), (4, 64)] (by simp)]
  rfl

/-- Witness of C18 as amended: a dynamic spline over the reals, `K = 2`. -/
theorem monotone_cubic_scenario_witness :
    (∀ N, (none : Option Nat) = some N → 5 ≤ N) ∧ 1 ≤ 2 ∧ (∀ t : ℝ, 0 ≤ Real.sqrt t) ∧
    ∃ s M, construct none (fun _ => (0 : ℝ)) (fun _ _ => 0) [0, 1, 2, 3, 4] [0, 1, 8, 27, 64] =
        some s ∧
      (∀ i, i < 4 → segment_candidate Real.sqrt s i = none) ∧
      s._coeffs 0 2 = -(1 / 14) ∧
      left_offer s = some (0, 0) ∧
      right_offer s = some (4, 64) ∧
      maxima 2 Real.sqrt s = some M ∧
      CriticalPointArray.pairs 2 M = ([(4, 64), (0, 0)] : List (ℝ × ℝ)).take 2 :=
  ⟨fun _ h => Option.noConfusion h, by decide, Real.sqrt_nonneg,
    monotone_cubic_scenario none _ _ Real.sqrt 2 (fun _ h => Option.noConfusion h)
      (by decide) Real.sqrt_nonneg⟩

/-! ## Repeated extraction and failed preconditions -/

/-- Claim C19: for every spline built by `set` and every capacity, `maxima<Size>()` returns
an array `R`, the same at every call (the spline is not written), and the in-place
overload `maxima(M)` returns `R` whatever `M` held before the call, `R` itself included:
it resets `M` first. -/
theorem maxima_idempotent (BreaksSize : Option Nat) (ub : Nat → F) (uc : Nat → Nat → F)
    (s0 : Spline F) (x y : List F) (Size : Nat) (sqrt : F → F)
    (hsize : _AssertSize BreaksSize x y = true) (hasc : ascending x = true) :
    ∃ s R, set BreaksSize ub uc s0 x y = some s ∧
      maxima Size sqrt s = some R ∧
      (∀ M : CriticalPointArray F, maxima_into Size sqrt s M = some R) ∧
      maxima_into Size sqrt s R = some R := by
  obtain ⟨_, h2, _⟩ := assertSize_cap BreaksSize x y hsize
  have hnb := prepare_num_breaks BreaksSize ub uc s0 x.length
  have hbn := build_num_breaks (prepare BreaksSize ub uc s0 x.length) x y
  have hpos : 0 < (build (prepare BreaksSize ub uc s0 x.length) x y)._num_breaks := by
    rw [hbn, hnb]; omega
  exact ⟨_, _, set_eq_build BreaksSize ub uc s0 x y hsize hasc,
    maxima_into_eq Size sqrt _ _ hpos, fun M => maxima_into_eq Size sqrt _ M hpos,
    maxima_into_eq Size sqrt _ _ hpos⟩

/-- Witness of C19: five points on a dynamic spline, capacity 2. -/
theorem maxima_idempotent_witness :
    _AssertSize none [(0 : ℝ), 1, 2, 3, 4] [(0 : ℝ), 1, 0, 1, 0] = true ∧
    ascending [(0 : ℝ), 1, 2, 3, 4] = true ∧
    ∃ s R, set none (fun _ => 0) (fun _ _ => 0) (init none (fun _ => 0) (fun _ _ => 0))
        [(0 : ℝ), 1, 2, 3, 4] [0, 1, 0, 1, 0] = some s ∧
      maxima 2 Real.sqrt s = some R ∧
      (∀ M : CriticalPointArray ℝ, maxima_into 2 Real.sqrt s M = some R) ∧
      maxima_into 2 Real.sqrt s R = some R :=
  ⟨rfl, ascending_five,
    maxima_idempotent none _ _ _ _ _ 2 Real.sqrt rfl ascending_five⟩

/-- Claim C20: `set(x,y)` and the constructor `Spline(x,y)` fail (an assertion fires and
no spline results) whenever `y.size() != x.size()`, or `x.size() < 2`, or some
`x[i+1] <= x[i]`, or the spline has a fixed capacity smaller than `x.size()`. -/
theorem precondition_violation_fails (BreaksSize : Option Nat) (ub : Nat → F)
    (uc : Nat → Nat → F) (s0 : Spline F) (x y : List F)
    (h : y.length ≠ x.length ∨ x.length < 2 ∨
      (∃ i, i + 1 < x.length ∧ elem x (i + 1) ≤ elem x i) ∨
      (∃ N, BreaksSize = some N ∧ N < x.length)) :
    set BreaksSize ub uc s0 x y = none ∧ construct BreaksSize ub uc x y = none := by
  have key : ∀ s : Spline F, set BreaksSize ub uc s x y = none := by
    intro s
    unfold set
    by_cases hA : _AssertSize BreaksSize x y = true
    · rw [if_pos hA]
      obtain ⟨h1, h2, h3⟩ := assertSize_cap BreaksSize x y hA
      have hasc : ¬ ascending x = true := by
        intro hasc
        have hadj := of_decide_eq_true hasc
        rcases h with h | h | ⟨i, hi, hle⟩ | ⟨N, hN, hlt⟩
        · exact h h1
        · omega
        · exact absurd (hadj i (by omega)) (not_lt.mpr hle)
        · have := h3 N hN
          omega
      simp only [_SetSpline, hasc]
      rfl
    · rw [if_neg hA]
  exact ⟨key s0, key _⟩

/-- Witness of C20: abscissas `0, 2, 1` on a dynamic spline. -/
theorem precondition_violation_fails_witness :
    (([0, 0, 0] : List ℚ).length ≠ ([0, 2, 1] : List ℚ).length ∨
      ([0, 2, 1] : List ℚ).length < 2 ∨
      (∃ i, i + 1 < ([0, 2, 1] : List ℚ).length ∧
        elem ([0, 2, 1] : List ℚ) (i + 1) ≤ elem ([0, 2, 1] : List ℚ) i) ∨
      (∃ N, (none : Option Nat) = some N ∧ N < ([0, 2, 1] : List ℚ).length)) ∧
    set none zero_cells zero_rows (init none zero_cells zero_rows) [0, 2, 1] [0, 0, 0] = none ∧
    construct none zero_cells zero_rows [0, 2, 1] [0, 0, 0] = none :=
  ⟨Or.inr (Or.inr (Or.inl ⟨1, by decide, by decide⟩)),
    precondition_violation_fails none zero_cells zero_rows _ [0, 2, 1] [0, 0, 0]
      (Or.inr (Or.inr (Or.inl ⟨1, by decide, by decide⟩)))⟩

end Spline

/-! ## `Save`, entry by entry -/

section Entries2

variable {F : Type}

theorem pairs_getElem_opt (Size : Nat) (c : CriticalPointArray F) (n : Nat) :
    (CriticalPointArray.pairs Size c)[n]? =
      if n < c._length then some (c._array n, c._array (n + Size)) else none := by
  by_cases h : n < c._length
  · rw [if_pos h, List.getElem?_eq_getElem (by rw [pairs_length]; exact h), pairs_getElem]
  · rw [if_neg h, List.getElem?_eq_none (by rw [pairs_length]; omega)]

/-- The entries after an insertion at slot `q` among the first `m` entries, from the
cells. -/
theorem entries_of_cells (Size : Nat) (c d : CriticalPointArray F) (m q : Nat) (x v : F)
    (hm : m ≤ c._length) (hq : q ≤ m) (hlen : d._length = m + 1)
    (hx : ∀ j, j ≤ m → d._array j = if j = q then x else if q < j then c._array (j - 1)
      else c._array j)
    (hy : ∀ j, j ≤ m → d._array (j + Size) = if j = q then v else
      if q < j then c._array (j - 1 + Size) else c._array (j + Size)) :
    CriticalPointArray.pairs Size d =
      (CriticalPointArray.pairs Size c).take q ++
        (x, v) :: ((CriticalPointArray.pairs Size c).take m).drop q := by
  apply List.ext_getElem?
  intro n
  rw [pairs_getElem_opt, hlen]
  have hlq : ((CriticalPointArray.pairs Size c).take q).length = q := by
    rw [List.length_take, pairs_length]; omega
  by_cases hn : n < m + 1
  · rw [if_pos hn, hx n (by omega), hy n (by omega)]
    by_cases h1 : n < q
    · have e1 : ¬ n = q := by omega
      have e2 : ¬ q < n := by omega
      have e3 : n < c._length := by omega
      rw [List.getElem?_append_left (by rw [hlq]; exact h1), List.getElem?_take_of_lt h1,
        pairs_getElem_opt]
      simp only [if_pos e3, if_neg e1, if_neg e2]
    · rw [List.getElem?_append_right (by rw [hlq]; omega), hlq]
      by_cases h2 : n = q
      · subst h2
        rw [Nat.sub_self]
        simp only [if_true, List.getElem?_cons_zero]
      · obtain ⟨k, hk⟩ : ∃ k, n - q = k + 1 := ⟨n - q - 1, by omega⟩
        have e2 : q < n := by omega
        have e3 : q + k < c._length := by omega
        have e4 : q + k < m := by omega
        have e : q + k = n - 1 := by omega
        rw [hk, List.getElem?_cons_succ, List.getElem?_drop,
          List.getElem?_take_of_lt e4, pairs_getElem_opt]
        have e5 : n - 1 < c._length := by omega
        simp only [if_neg h2, if_pos e2, e, if_pos e5]
  · rw [if_neg hn, List.getElem?_eq_none]
    rw [List.length_append, hlq, List.length_cons, List.length_drop, List.length_take,
      pairs_length]
    omega

end Entries2

namespace CriticalPointArray

variable {F : Type} [LinearOrderedField F]

/-- Every branch of `Save` on an ordered array, cell by cell: either the candidate is
inserted at a slot `q` among the first `m = min(size, Size-1)` entries, those from `q` on
moving one slot down and an entry beyond `m` being dropped, or the array is full and is
left alone. With two slots or more a dropped entry is below the candidate, and a
candidate that is left out is not above the last entry. -/
theorem Save_cells (Size : Nat) (c : CriticalPointArray F) (x v : F) (hS : 1 ≤ Size)
    (h : Ordered Size c) :
    (∃ m q, m = min c._length (Size - 1) ∧ q ≤ m ∧ (Save Size c x v)._length = m + 1 ∧
      (∀ j, j ≤ m → (Save Size c x v)._array j =
        if j = q then x else if q < j then c._array (j - 1) else c._array j) ∧
      (∀ j, j ≤ m → (Save Size c x v)._array (j + Size) =
        if j = q then v else if q < j then c._array (j - 1 + Size) else c._array (j + Size)) ∧
      (2 ≤ Size → c._length = Size → c._array (Size - 1 + Size) < v)) ∨
    (c._length = Size ∧ Save Size c x v = c ∧
      (2 ≤ Size → v ≤ c._array (Size - 1 + Size))) := by
  obtain ⟨hlen, hs⟩ := h
  simp only [y] at hs
  unfold Save
  simp only
  by_cases hlt : c._length < Size
  · rw [if_pos hlt]
    left
    by_cases h0 : c._length = 0
    · rw [if_pos h0]
      refine ⟨0, 0, by omega, le_refl _, by simp only; omega, ?_, ?_, fun _ e => by omega⟩
      · intro j hj
        simp only [Function.update_apply]
        split_ifs <;> first | rfl | (exfalso; omega)
      · intro j hj
        simp only [Function.update_apply]
        split_ifs <;> first | rfl | (exfalso; omega)
    · rw [if_neg h0]
      by_cases h1 : c._length = 1
      · rw [if_pos h1]
        by_cases hc : c._array (0 + Size) < v
        · rw [if_pos hc]
          refine ⟨1, 0, by omega, by omega, by simp only; omega, ?_, ?_, fun _ e => by omega⟩
          · intro j hj
            simp only [Function.update_apply]
            split_ifs <;> first | rfl | (exfalso; omega) | (congr 1; omega)
          · intro j hj
            simp only [Function.update_apply]
            split_ifs <;> first | rfl | (exfalso; omega) | (congr 1; omega)
        · rw [if_neg hc]
          refine ⟨1, 1, by omega, by omega, by simp only; omega, ?_, ?_, fun _ e => by omega⟩
          · intro j hj
            simp only [Function.update_apply]
            split_ifs <;> first | rfl | (exfalso; omega)
          · intro j hj
            simp only [Function.update_apply]
            split_ifs <;> first | rfl | (exfalso; omega)
      · rw [if_neg h1]
        by_cases hc : c._array (c._length - 1 + Size) < v
        · rw [if_pos hc]
          have hdesc : ∀ i j, Size ≤ i → i ≤ j → j < Size + c._length →
              c._array j ≤ c._array i := by
            intro i j hi hij hj
            rcases Nat.eq_or_lt_of_le hij with e | l
            · subst e; exact le_refl _
            · have := hs (i - Size) (j - Size) (by omega) (by omega)
              rwa [Nat.sub_add_cancel (by omega), Nat.sub_add_cancel hi] at this
          obtain ⟨p1, p2, _, _⟩ :=
            lower_bound_spec c._array Size (Size + c._length) v (by omega) hdesc
          refine ⟨c._length, lower_bound c._array Size (Size + c._length) v - Size, by omega,
            by omega, rfl, ?_, ?_, fun _ e => by omega⟩
          · intro j hj
            exact insert_cells_x Size c._array c._length _ x v _ _ _ p1 p2 hlt rfl rfl rfl j hj
          · intro j hj
            exact insert_cells Size c._array c._length _ x v _ _ _ p1 p2 hlt rfl rfl rfl j hj
        · rw [if_neg hc]
          refine ⟨c._length, c._length, by omega, le_refl _, rfl, ?_, ?_, fun _ e => by omega⟩
          · intro j hj
            simp only [Function.update_apply]
            split_ifs <;> first | rfl | (exfalso; omega)
          · intro j hj
            simp only [Function.update_apply]
            split_ifs <;> first | rfl | (exfalso; omega)
  · rw [if_neg hlt]
    have hfull : c._length = Size := by omega
    by_cases hc : c._array (c._length + Size - 2) < v
    · rw [if_pos hc]
      left
      have hdesc : ∀ i j, Size ≤ i → i ≤ j → j < Size + c._length - 1 →
          c._array j ≤ c._array i := by
        intro i j hi hij hj
        rcases Nat.eq_or_lt_of_le hij with e | l
        · subst e; exact le_refl _
        · have := hs (i - Size) (j - Size) (by omega) (by omega)
          rwa [Nat.sub_add_cancel (by omega), Nat.sub_add_cancel hi] at this
      obtain ⟨p1, p2, _, _⟩ :=
        lower_bound_spec c._array Size (Size + c._length - 1) v (by omega) hdesc
      refine ⟨c._length - 1, lower_bound c._array Size (Size + c._length - 1) v - Size,
        by omega, by omega, by simp only; omega, ?_, ?_, ?_⟩
      · intro j hj
        exact insert_cells_x Size c._array (c._length - 1) _ x v _ _ _ p1 (by omega) (by omega)
          (by omega) (by omega) (by omega) j hj
      · intro j hj
        exact insert_cells Size c._array (c._length - 1) _ x v _ _ _ p1 (by omega) (by omega)
          (by omega) (by omega) (by omega) j hj
      · intro h2 _
        have hle := hs (Size - 2) (Size - 1) (by omega) (by omega)
        have e : c._length + Size - 2 = Size - 2 + Size := by omega
        rw [e] at hc
        exact lt_of_le_of_lt hle hc
    · rw [if_neg hc]
      by_cases hc2 : c._array (c._length - 1 + Size) < v
      · rw [if_pos hc2]
        left
        refine ⟨c._length - 1, c._length - 1, by omega, le_refl _, by simp only; omega, ?_, ?_,
          ?_⟩
        · intro j hj
          simp only [Function.update_apply]
          split_ifs <;> first | rfl | (exfalso; omega)
        · intro j hj
          simp only [Function.update_apply]
          split_ifs <;> first | rfl | (exfalso; omega)
        · intro _ _
          rw [hfull] at hc2
          exact hc2
      · rw [if_neg hc2]
        right
        refine ⟨hfull, rfl, fun _ => ?_⟩
        rw [hfull] at hc2
        exact not_lt.mp hc2

end CriticalPointArray

section Entries3

variable {F : Type}

theorem ys_eq_map (Size : Nat) (c : CriticalPointArray F) :
    CriticalPointArray.ys Size c = (CriticalPointArray.pairs Size c).map Prod.snd := by
  simp only [CriticalPointArray.ys, CriticalPointArray.pairs, List.map_map]
  rfl

theorem xs_eq_map (Size : Nat) (c : CriticalPointArray F) :
    CriticalPointArray.xs c = (CriticalPointArray.pairs Size c).map Prod.fst := by
  simp only [CriticalPointArray.xs, CriticalPointArray.pairs, List.map_map]
  rfl

theorem take_min_length (l : List (F × F)) (k : Nat) :
    l.take (min l.length k) = l.take k := by
  by_cases h : l.length ≤ k
  · rw [Nat.min_eq_left h, List.take_of_length_le (le_refl _), List.take_of_length_le h]
  · rw [Nat.min_eq_right (by omega)]

/-- An insertion among the first `k` entries keeps a sub-multiset of the candidate and
the old entries. -/
theorem insert_subperm (l : List (F × F)) (p : F × F) (q k : Nat) (hq : q ≤ k) :
    (l.take q ++ p :: (l.take k).drop q).Subperm (p :: l) := by
  have e : l.take q = (l.take k).take q := by
    rw [List.take_take, Nat.min_eq_left hq]
  have hperm : (l.take q ++ p :: (l.take k).drop q).Perm (p :: l.take k) := by
    rw [e]
    exact List.perm_middle.trans (by rw [List.take_append_drop])
  exact hperm.subperm.trans ((List.take_sublist k l).cons₂ p).subperm

end Entries3

namespace CriticalPointArray

variable {F : Type} [LinearOrderedField F]

/-- Every branch of `Save` on an ordered array, in terms of the entries in use. -/
theorem Save_entries (Size : Nat) (c : CriticalPointArray F) (x v : F) (hS : 1 ≤ Size)
    (h : Ordered Size c) :
    (∃ q, q ≤ c._length ∧ q ≤ Size - 1 ∧
      pairs Size (Save Size c x v) =
        (pairs Size c).take q ++ (x, v) :: ((pairs Size c).take (Size - 1)).drop q ∧
      (2 ≤ Size → ∀ p, p ∈ (pairs Size c).drop (Size - 1) → p.2 < v)) ∨
    (c._length = Size ∧ pairs Size (Save Size c x v) = pairs Size c ∧
      (2 ≤ Size → ∀ p, p ∈ pairs Size c → v ≤ p.2)) := by
  rcases Save_cells Size c x v hS h with ⟨m, q, hm, hq, hl, hx, hy, hd⟩ | ⟨hfull, hsame, hle⟩
  · left
    refine ⟨q, by omega, by omega, ?_, ?_⟩
    · rw [entries_of_cells Size c _ m q x v (by omega) hq hl hx hy, hm, ← pairs_length Size c,
        take_min_length]
    · intro h2 p hp
      obtain ⟨i, hi, rfl⟩ := List.mem_iff_getElem.mp hp
      rw [List.length_drop, pairs_length] at hi
      have hfull : c._length = Size := by have := h.1; omega
      have hi0 : i = 0 := by omega
      subst hi0
      rw [List.getElem_drop, pairs_getElem]
      exact hd h2 hfull
  · right
    refine ⟨hfull, by rw [hsame], ?_⟩
    intro h2 p hp
    obtain ⟨i, hi, rfl⟩ := List.mem_iff_getElem.mp hp
    rw [pairs_getElem]
    rw [pairs_length] at hi
    have hlast := hle h2
    rcases Nat.eq_or_lt_of_le (show i ≤ Size - 1 by omega) with e | l
    · rw [e]; exact hlast
    · have := h.2 i (Size - 1) l (by omega)
      simp only [y] at this
      exact le_trans hlast this

/-- One `Save` keeps a sub-multiset of the candidate and the entries kept before. -/
theorem Save_subperm (Size : Nat) (c : CriticalPointArray F) (x v : F) (hS : 1 ≤ Size)
    (h : Ordered Size c) :
    (pairs Size (Save Size c x v)).Subperm ((x, v) :: pairs Size c) := by
  rcases Save_entries Size c x v hS h with ⟨q, _, hq, he, _⟩ | ⟨_, he, _⟩
  · rw [he]
    exact insert_subperm _ _ q (Size - 1) hq
  · rw [he]
    exact (List.sublist_cons_self _ _).subperm

theorem SaveAll_snoc (Size : Nat) (c : CriticalPointArray F) (ps : List (F × F)) (p : F × F) :
    SaveAll Size c (ps ++ [p]) = Save Size (SaveAll Size c ps) p.1 p.2 := by
  simp only [SaveAll, List.foldl_append, List.foldl_cons, List.foldl_nil]

/-- Claim C29: for every capacity `K >= 1` and every sequence of `Save` calls on an
initially empty `CriticalPointArray<K>`, the stored pairs `(x(i), y(i))`, `i < size`, form
a sub-multiset of the offered pairs; in particular each stored `x(i)` is paired with the
`y` it was offered with. -/
theorem pair_integrity (K : Nat) (hK : 1 ≤ K) (ps : List (F × F)) :
    (pairs K (SaveAll K Zero ps)).Subperm ps ∧
    ∀ i, i < size (SaveAll K Zero ps) →
      (x (SaveAll K Zero ps) i, y K (SaveAll K Zero ps) i) ∈ ps := by
  have key : (pairs K (SaveAll K (Zero : CriticalPointArray F) ps)).Subperm ps := by
    induction ps using List.reverseRecOn with
    | nil => exact List.Subperm.refl _
    | append_singleton ps p ih =>
      rw [SaveAll_snoc]
      have h1 := Save_subperm K (SaveAll K Zero ps) p.1 p.2 hK
        (SaveAll_Ordered K ps _ (Zero_Ordered K))
      have h2 : ((p.1, p.2) :: pairs K (SaveAll K Zero ps)).Subperm (ps ++ [p]) :=
        ((List.subperm_cons p).mpr ih).trans (List.perm_append_singleton p ps).symm.subperm
      exact h1.trans h2
  refine ⟨key, ?_⟩
  intro i hi
  have hi' : i < (pairs K (SaveAll K Zero ps)).length := by rw [pairs_length]; exact hi
  have hm := List.getElem_mem hi'
  rw [pairs_getElem] at hm
  exact key.subset hm

/-- Witness of C29: four offers to an array of capacity 2. -/
theorem pair_integrity_witness :
    1 ≤ 2 ∧
    (pairs 2 (SaveAll 2 Zero ([(0, 1), (1, 5), (2, 3), (3, 5)] : List (ℚ × ℚ)))).Subperm
      [(0, 1), (1, 5), (2, 3), (3, 5)] ∧
    ∀ i, i < size (SaveAll 2 Zero ([(0, 1), (1, 5), (2, 3), (3, 5)] : List (ℚ × ℚ))) →
      (x (SaveAll 2 Zero ([(0, 1), (1, 5), (2, 3), (3, 5)] : List (ℚ × ℚ))) i,
        y 2 (SaveAll 2 Zero ([(0, 1), (1, 5), (2, 3), (3, 5)] : List (ℚ × ℚ))) i) ∈
        ([(0, 1), (1, 5), (2, 3), (3, 5)] : List (ℚ × ℚ)) :=
  ⟨by decide, pair_integrity 2 (by decide) _⟩

end CriticalPointArray

namespace CriticalPointArray

variable {F : Type} [LinearOrderedField F]

/-- The ordinates in use of an ordered array are sorted, largest first. -/
theorem ys_sorted (Size : Nat) (c : CriticalPointArray F) (h : Ordered Size c) :
    (ys Size c).Pairwise (fun a b => a ≥ b) := by
  rw [List.pairwise_iff_getElem]
  intro i j hi hj hij
  simp only [ys, List.getElem_map, List.getElem_range]
  simp only [ys, List.length_map, List.length_range] at hj
  exact h.2 i j hij hj

/-- After any sequence of `Save` calls on an empty array of two slots or more, the
ordinates kept together with a list `rest` of ordinates left out make up the ordinates
offered; nothing left out exceeds anything kept, and nothing is left out while there is
room. -/
theorem SaveAll_kept (K : Nat) (hK : 2 ≤ K) (ps : List (F × F)) :
    (SaveAll K (Zero : CriticalPointArray F) ps)._length = min ps.length K ∧
    ∃ rest : List F,
      (ys K (SaveAll K Zero ps) ++ rest).Perm (ps.map Prod.snd) ∧
      (∀ r, r ∈ rest → ∀ a, a ∈ ys K (SaveAll K Zero ps) → r ≤ a) ∧
      (rest ≠ [] → (SaveAll K (Zero : CriticalPointArray F) ps)._length = K) := by
  induction ps using List.reverseRecOn with
  | nil =>
    refine ⟨by simp [SaveAll, Zero], [], ?_, ?_, ?_⟩
    · simp [SaveAll, Zero, ys]
    · intro r hr; cases hr
    · intro hne; exact absurd rfl hne
  | append_singleton ps p ih =>
    obtain ⟨hlen, rest, hperm, hdom, hroom⟩ := ih
    have hord := SaveAll_Ordered K ps (Zero : CriticalPointArray F) (Zero_Ordered K)
    have hsorted := ys_sorted K _ hord
    rw [SaveAll_snoc]
    generalize SaveAll K (Zero : CriticalPointArray F) ps = c at *
    have hlenY : (ys K c).length = c._length := by
      rw [ys_eq_map, List.length_map, pairs_length]
    rcases Save_entries K c p.1 p.2 (by omega) hord with ⟨q, hq1, hq2, he, hd⟩ | ⟨hfull, he, hle⟩
    · have hys : ys K (Save K c p.1 p.2) =
          (ys K c).take q ++ p.2 :: ((ys K c).take (K - 1)).drop q := by
        rw [ys_eq_map, he, ys_eq_map]
        simp only [List.map_append, List.map_cons, List.map_take, List.map_drop]
      have hdrop : ∀ r, r ∈ (ys K c).drop (K - 1) → r < p.2 := by
        intro r hr
        rw [ys_eq_map, ← List.map_drop, List.mem_map] at hr
        obtain ⟨e, he1, rfl⟩ := hr
        exact hd hK e he1
      have hsplit := hsorted
      rw [← List.take_append_drop (K - 1) (ys K c), List.pairwise_append] at hsplit
      obtain ⟨_, _, hcross⟩ := hsplit
      have hkept : ∀ a, a ∈ ys K (Save K c p.1 p.2) → a = p.2 ∨ a ∈ (ys K c).take (K - 1) := by
        intro a ha
        rw [hys, List.mem_append, List.mem_cons] at ha
        rcases ha with ha | ha | ha
        · right
          have : (ys K c).take q = ((ys K c).take (K - 1)).take q := by
            rw [List.take_take, Nat.min_eq_left hq2]
          rw [this] at ha
          exact List.mem_of_mem_take ha
        · left; exact ha
        · right; exact List.mem_of_mem_drop ha
      refine ⟨?_, (ys K c).drop (K - 1) ++ rest, ?_, ?_, ?_⟩
      · have hl := congrArg List.length he
        rw [pairs_length, List.length_append, List.length_cons, List.length_take,
          List.length_drop, List.length_take, pairs_length] at hl
        rw [hl, List.length_append, List.length_singleton]
        have := hord.1
        omega
      · rw [hys]
        have e1 : (ys K c).take q = ((ys K c).take (K - 1)).take q := by
          rw [List.take_take, Nat.min_eq_left hq2]
        have p1 : ((ys K c).take q ++ p.2 :: ((ys K c).take (K - 1)).drop q).Perm
            (p.2 :: (ys K c).take (K - 1)) := by
          rw [e1]
          exact List.perm_middle.trans (by rw [List.take_append_drop])
        have p2 : (((ys K c).take q ++ p.2 :: ((ys K c).take (K - 1)).drop q) ++
            ((ys K c).drop (K - 1) ++ rest)).Perm (p.2 :: (ys K c ++ rest)) := by
          have e2 : (ys K c).take (K - 1) ++ ((ys K c).drop (K - 1) ++ rest) = ys K c ++ rest := by
            rw [← List.append_assoc, List.take_append_drop]
          have := p1.append_right ((ys K c).drop (K - 1) ++ rest)
          rw [List.cons_append, e2] at this
          exact this
        rw [List.map_append, List.map_cons, List.map_nil]
        exact p2.trans ((List.Perm.cons p.2 hperm).trans
          (List.perm_append_singleton p.2 _).symm)
      · intro r hr a ha
        rw [List.mem_append] at hr
        rcases hr with hr | hr
        · rcases hkept a ha with e | ht
          · rw [e]; exact le_of_lt (hdrop r hr)
          · exact hcross a ht r hr
        · rcases hkept a ha with e | ht
          · rw [e]
            have hfull := hroom (List.ne_nil_of_mem hr)
            have hlast : K - 1 < (ys K c).length := by rw [hlenY, hfull]; omega
            have hmem : (ys K c)[K - 1] ∈ (ys K c).drop (K - 1) := by
              rw [List.mem_iff_getElem]
              refine ⟨0, by rw [List.length_drop]; omega, ?_⟩
              rw [List.getElem_drop]
              rfl
            exact le_trans (hdom r hr _ (List.getElem_mem hlast)) (le_of_lt (hdrop _ hmem))
          · exact hdom r hr a (List.mem_of_mem_take ht)
      · intro hne
        have hl := congrArg List.length he
        rw [pairs_length, List.length_append, List.length_cons, List.length_take,
          List.length_drop, List.length_take, pairs_length] at hl
        rw [hl]
        have hcl : c._length = K := by
          by_contra hcon
          have hlt : c._length < K := lt_of_le_of_ne hord.1 hcon
          have hr0 : rest = [] := by
            by_contra hr
            exact hcon (hroom hr)
          have hd0 : (ys K c).drop (K - 1) = [] := by
            rw [List.drop_eq_nil_iff, hlenY]; omega
          rw [hr0, hd0] at hne
          exact hne rfl
        omega
    · have hys : ys K (Save K c p.1 p.2) = ys K c := by
        rw [ys_eq_map, he, ys_eq_map]
      have hle' : ∀ a, a ∈ ys K c → p.2 ≤ a := by
        intro a ha
        rw [ys_eq_map, List.mem_map] at ha
        obtain ⟨e, he1, rfl⟩ := ha
        exact hle hK e he1
      have hl := congrArg List.length he
      rw [pairs_length, pairs_length] at hl
      refine ⟨?_, p.2 :: rest, ?_, ?_, ?_⟩
      · rw [hl, List.length_append, List.length_singleton]
        omega
      · rw [hys, List.map_append, List.map_cons, List.map_nil]
        exact List.perm_middle.trans ((List.Perm.cons p.2 hperm).trans
          (List.perm_append_singleton p.2 _).symm)
      · intro r hr a ha
        rw [hys] at ha
        rcases List.mem_cons.mp hr with e | hr'
        · rw [e]; exact hle' a ha
        · exact hdom r hr' a ha
      · intro _
        rw [hl]; exact hfull

end CriticalPointArray

namespace CriticalPointArray

variable {F : Type} [LinearOrderedField F]

/-- Claim C28: for every capacity `K >= 2` and every finite sequence of `Save` calls on an
initially empty `CriticalPointArray<K>`, `size()` is `min(m, K)` with `m` the number of
calls, and `y(0), ..., y(size-1)` is the descending sort of all offered `y` values cut to
its first `K` elements. -/
theorem top_k (K : Nat) (hK : 2 ≤ K) (ps : List (F × F)) :
    size (SaveAll K (Zero : CriticalPointArray F) ps) = min ps.length K ∧
    ys K (SaveAll K (Zero : CriticalPointArray F) ps) =
      (List.insertionSort (fun a b => a ≥ b) (ps.map Prod.snd)).take K := by
  obtain ⟨hlen, rest, hperm, hdom, hroom⟩ := SaveAll_kept K hK ps
  refine ⟨hlen, ?_⟩
  have hord := SaveAll_Ordered K ps (Zero : CriticalPointArray F) (Zero_Ordered K)
  have hsorted := ys_sorted K _ hord
  generalize SaveAll K (Zero : CriticalPointArray F) ps = c at *
  have hlenY : (ys K c).length = c._length := by
    rw [ys_eq_map, List.length_map, pairs_length]
  have hR := List.perm_insertionSort (fun a b : F => a ≥ b) rest
  have hRs := List.sorted_insertionSort (fun a b : F => a ≥ b) rest
  have hM : (ys K c ++ List.insertionSort (fun a b => a ≥ b) rest).Sorted
      (fun a b => a ≥ b) := by
    unfold List.Sorted
    rw [List.pairwise_append]
    refine ⟨hsorted, hRs, ?_⟩
    intro a ha b hb
    exact hdom b (hR.mem_iff.mp hb) a ha
  have hperm2 : (ys K c ++ List.insertionSort (fun a b => a ≥ b) rest).Perm
      (List.insertionSort (fun a b => a ≥ b) (ps.map Prod.snd)) :=
    ((List.Perm.append_left _ hR).trans hperm).trans
      (List.perm_insertionSort (fun a b : F => a ≥ b) _).symm
  have heq := List.eq_of_perm_of_sorted hperm2 hM
    (List.sorted_insertionSort (fun a b : F => a ≥ b) _)
  rw [← heq]
  by_cases hr : rest = []
  · subst hr
    have e0 : List.insertionSort (fun a b : F => a ≥ b) [] = [] := rfl
    rw [e0, List.append_nil, List.take_of_length_le]
    rw [hlenY]
    exact hord.1
  · have hk : (ys K c).length = K := by rw [hlenY]; exact hroom hr
    rw [List.take_left' hk]

/-- Witness of C28: four offers, two of them equal, to an array of capacity 2. -/
theorem top_k_witness :
    2 ≤ 2 ∧
    size (SaveAll 2 (Zero : CriticalPointArray ℚ) [(0, 1), (1, 5), (2, 3), (3, 5)]) =
      min ([(0, 1), (1, 5), (2, 3), (3, 5)] : List (ℚ × ℚ)).length 2 ∧
    ys 2 (SaveAll 2 (Zero : CriticalPointArray ℚ) [(0, 1), (1, 5), (2, 3), (3, 5)]) =
      (List.insertionSort (fun a b => a ≥ b)
        (([(0, 1), (1, 5), (2, 3), (3, 5)] : List (ℚ × ℚ)).map Prod.snd)).take 2 :=
  ⟨by decide, top_k 2 (by decide) _⟩

end CriticalPointArray

section Fullness

variable {F : Type}

/-- The value `full()` returns, in terms of the size. -/
theorem full_iff (Size : Nat) (c : CriticalPointArray F) :
    CriticalPointArray.full Size c = true ↔ CriticalPointArray.size c < Size := by
  simp only [CriticalPointArray.full, CriticalPointArray.size, decide_eq_true_eq]

end Fullness

namespace CriticalPointArray

variable {F : Type} [LinearOrderedField F]

/-- Claim C30 fails: `full()` of an empty `CriticalPointArray<2>` is true although its size
is 0, and after two `Save` calls, when the size equals the capacity 2, it is false. -/
theorem full_reports_room :
    full 2 (Zero : CriticalPointArray ℚ) = true ∧ size (Zero : CriticalPointArray ℚ) = 0 ∧
    full 2 (SaveAll 2 (Zero : CriticalPointArray ℚ) [(0, 1), (1, 2)]) = false ∧
    size (SaveAll 2 (Zero : CriticalPointArray ℚ) [(0, 1), (1, 2)]) = 2 := by
  refine ⟨by decide, rfl, ?_, ?_⟩ <;> decide

end CriticalPointArray

namespace Spline

variable {F : Type} [LinearOrderedField F]

/-- Claim C23: for every `x`, `y` that pass the assertions of `set`, with `n >= 3` points,
the column `B_j = coeffs[j][1]` of the built spline has `B_0 = 0` and satisfies, for every
`j` in `1..n-2`,
`(x[j]-x[j-1])*B_{j-1} + 2*(x[j+1]-x[j-1])*B_j + (x[j+1]-x[j])*B_{j+1} = 3*(m_j - m_{j-1})`
with `m_i = (y[i+1]-y[i])/(x[i+1]-x[i])` and `B_{n-1}` taken as `0`. -/
theorem thomas_solve_correct (BreaksSize : Option Nat) (ub : Nat → F)
    (uc : Nat → Nat → F) (s0 : Spline F) (x y : List F)
    (hsize : _AssertSize BreaksSize x y = true) (hasc : ascending x = true)
    (hn : 3 ≤ x.length) :
    ∃ s, set BreaksSize ub uc s0 x y = some s ∧
      s._coeffs 0 1 = 0 ∧
      ∀ j, 1 ≤ j → j + 2 ≤ x.length →
        (elem x j - elem x (j - 1)) * s._coeffs (j - 1) 1 +
          2 * (elem x (j + 1) - elem x (j - 1)) * s._coeffs j 1 +
          (elem x (j + 1) - elem x j) * (if j + 2 < x.length then s._coeffs (j + 1) 1 else 0) =
        3 * ((elem y (j + 1) - elem y j) / (elem x (j + 1) - elem x j) -
          (elem y j - elem y (j - 1)) / (elem x j - elem x (j - 1))) := by
  refine ⟨_, set_eq_build BreaksSize ub uc s0 x y hsize hasc, ?_⟩
  have hnb := prepare_num_breaks BreaksSize ub uc s0 x.length
  generalize prepare BreaksSize ub uc s0 x.length = s at hnb
  have hn3 : 3 ≤ s._num_breaks := by omega
  have hx : ∀ i, i < s._num_breaks - 1 → 0 < dx x i := by
    rw [hnb]; exact ascending_dx_pos x hasc
  obtain ⟨hB0, hsys⟩ := build_system s x y hn3 hx
  refine ⟨hB0, ?_⟩
  intro j h1 h2
  have hk := hsys (j - 1) (by omega)
  have e1 : j - 1 + 1 = j := by omega
  have e2 : j - 1 + 2 = j + 1 := by omega
  have e3 : j - 1 + 3 = j + 2 := by omega
  rw [e1, e2, e3, hnb] at hk
  simp only [dx, slope, e1] at hk
  rw [← hk]
  ring

/-- Witness of C23: five points on a dynamic spline. -/
theorem thomas_solve_correct_witness :
    _AssertSize none [(0 : ℚ), 1, 2, 3, 4] [(0 : ℚ), 1, 0, 1, 0] = true ∧
    ascending [(0 : ℚ), 1, 2, 3, 4] = true ∧ 3 ≤ [(0 : ℚ), 1, 2, 3, 4].length ∧
    ∃ s, set none zero_cells zero_rows (init none zero_cells zero_rows)
        [0, 1, 2, 3, 4] [0, 1, 0, 1, 0] = some s ∧
      s._coeffs 0 1 = 0 ∧
      ∀ j, 1 ≤ j → j + 2 ≤ [(0 : ℚ), 1, 2, 3, 4].length →
        (elem [(0 : ℚ), 1, 2, 3, 4] j - elem [(0 : ℚ), 1, 2, 3, 4] (j - 1)) *
            s._coeffs (j - 1) 1 +
          2 * (elem [(0 : ℚ), 1, 2, 3, 4] (j + 1) - elem [(0 : ℚ), 1, 2, 3, 4] (j - 1)) *
            s._coeffs j 1 +
          (elem [(0 : ℚ), 1, 2, 3, 4] (j + 1) - elem [(0 : ℚ), 1, 2, 3, 4] j) *
            (if j + 2 < [(0 : ℚ), 1, 2, 3, 4].length then s._coeffs (j + 1) 1 else 0) =
        3 * ((elem [(0 : ℚ), 1, 0, 1, 0] (j + 1) - elem [(0 : ℚ), 1, 0, 1, 0] j) /
            (elem [(0 : ℚ), 1, 2, 3, 4] (j + 1) - elem [(0 : ℚ), 1, 2, 3, 4] j) -
          (elem [(0 : ℚ), 1, 0, 1, 0] j - elem [(0 : ℚ), 1, 0, 1, 0] (j - 1)) /
            (elem [(0 : ℚ), 1, 2, 3, 4] j - elem [(0 : ℚ), 1, 2, 3, 4] (j - 1))) :=
  ⟨by decide, by decide, by decide,
    thomas_solve_correct none zero_cells zero_rows _ _ _ (by decide) (by decide) (by decide)⟩

/-- Claim C27: for every `x`, `y` that pass the assertions of `set`, with `n >= 3` points,
the second derivative of the built spline is zero at both outer breakpoints:
`coeffs[0][1] = 0`, and `6*a*h + 2*b = 0` for the row `(a,b,c,d)` of the last segment at
`h = x[n-1] - x[n-2]`. -/
theorem natural_end_conditions (BreaksSize : Option Nat) (ub : Nat → F)
    (uc : Nat → Nat → F) (s0 : Spline F) (x y : List F)
    (hsize : _AssertSize BreaksSize x y = true) (hasc : ascending x = true)
    (hn : 3 ≤ x.length) :
    ∃ s, set BreaksSize ub uc s0 x y = some s ∧
      s._coeffs 0 1 = 0 ∧ 2 * s._coeffs 0 1 = 0 ∧
      6 * s._coeffs (x.length - 2) 0 * (elem x (x.length - 1) - elem x (x.length - 2)) +
        2 * s._coeffs (x.length - 2) 1 = 0 := by
  refine ⟨_, set_eq_build BreaksSize ub uc s0 x y hsize hasc, ?_⟩
  have hnb := prepare_num_breaks BreaksSize ub uc s0 x.length
  generalize prepare BreaksSize ub uc s0 x.length = s at hnb
  have hn3 : 3 ≤ s._num_breaks := by omega
  have hx : ∀ i, i < s._num_breaks - 1 → 0 < dx x i := by
    rw [hnb]; exact ascending_dx_pos x hasc
  obtain ⟨hB0, _⟩ := build_system s x y hn3 hx
  refine ⟨hB0, by rw [hB0, mul_zero], ?_⟩
  have hl := build_c0_last s x y hn3
  rw [hnb] at hl
  have hpos := hx (x.length - 2) (by omega)
  have hd : elem x (x.length - 1) - elem x (x.length - 2) = dx x (x.length - 2) := by
    have e : x.length - 2 + 1 = x.length - 1 := by omega
    simp only [dx, e]
  have hne : dx x (x.length - 2) ≠ 0 := ne_of_gt hpos
  rw [hd, hl]
  field_simp
  ring

/-- Witness of C27: three points, the smallest general build, on a dynamic spline. -/
theorem natural_end_conditions_witness :
    _AssertSize none [(0 : ℚ), 2, 5] [(1 : ℚ), 0, 4] = true ∧
    ascending [(0 : ℚ), 2, 5] = true ∧ 3 ≤ [(0 : ℚ), 2, 5].length ∧
    ∃ s, set none zero_cells zero_rows (init none zero_cells zero_rows)
        [0, 2, 5] [1, 0, 4] = some s ∧
      s._coeffs 0 1 = 0 ∧ 2 * s._coeffs 0 1 = 0 ∧
      6 * s._coeffs ([(0 : ℚ), 2, 5].length - 2) 0 *
          (elem [(0 : ℚ), 2, 5] ([(0 : ℚ), 2, 5].length - 1) -
            elem [(0 : ℚ), 2, 5] ([(0 : ℚ), 2, 5].length - 2)) +
        2 * s._coeffs ([(0 : ℚ), 2, 5].length - 2) 1 = 0 :=
  ⟨by decide, by decide, by decide,
    natural_end_conditions none zero_cells zero_rows _ _ _ (by decide) (by decide)
      (by decide)⟩

/-- The divisor of line 285 at iteration `i` is the pivot of elimination step `i`. -/
theorem forward_divisor (E D C : Nat → F) (i : Nat) (hi : 1 ≤ i) :
    D i - (forward_loop D (i - 1)
        { c0 := Function.update E 0 (E 0 / D 0), c1 := Function.update C 1 (C 1 / D 0),
          l := E 0 }).c0 (i - 1) *
      (forward_loop D (i - 1)
        { c0 := Function.update E 0 (E 0 / D 0), c1 := Function.update C 1 (C 1 / D 0),
          l := E 0 }).l = pivot E D i := by
  obtain ⟨f0, _, fl⟩ := forward_loop_spec E D C (i - 1)
  rw [f0 (i - 1), if_pos (le_refl _), fl]
  obtain ⟨k, rfl⟩ : ∃ k, i = k + 1 := ⟨i - 1, by omega⟩
  simp only [Nat.add_sub_cancel, pivot]

/-- Claim C25: for every strictly increasing `x` of `n >= 3` points and every `y`,
every divisor of `_SetSpline` is positive: the segment lengths `_breaks(i) = x[i+1]-x[i]`
of line 265 (and three times them, lines 296 and 298), the first diagonal entry
`_coeffs(0,3) = 2*(x[2]-x[0])` of lines 282-283, and the pivot
`_coeffs(i,3) - _coeffs(i-1,0)*l` of line 285 at every iteration `i = 1..n-3`; the modified
super-diagonal entries `_coeffs(j,0)`, `j <= n-4`, lie strictly between `0` and `1/2`. -/
theorem no_division_by_zero (BreaksSize : Option Nat) (ub : Nat → F)
    (uc : Nat → Nat → F) (s0 : Spline F) (x y : List F) (hasc : ascending x = true)
    (hn : 3 ≤ x.length) :
    ∀ w, w = assemble x.length (load (prepare BreaksSize ub uc s0 x.length)) x y →
      (∀ i, i < x.length - 1 → w.br i = elem x (i + 1) - elem x i ∧ 0 < w.br i ∧
        (solve x.length w).br i = w.br i ∧ 0 < 3 * (solve x.length w).br i) ∧
      (w.c3 0 = 2 * (elem x 2 - elem x 0) ∧ 0 < w.c3 0) ∧
      (∀ i, 1 ≤ i → i < x.length - 2 →
        0 < w.c3 i -
          (forward_loop w.c3 (i - 1)
            { c0 := Function.update w.c0 0 (w.c0 0 / w.c3 0),
              c1 := Function.update w.c1 1 (w.c1 1 / w.c3 0), l := w.c0 0 }).c0 (i - 1) *
          (forward_loop w.c3 (i - 1)
            { c0 := Function.update w.c0 0 (w.c0 0 / w.c3 0),
              c1 := Function.update w.c1 1 (w.c1 1 / w.c3 0), l := w.c0 0 }).l) ∧
      (∀ j, j + 3 < x.length →
        0 < (solve x.length w).c0 j ∧ (solve x.length w).c0 j < 1 / 2) := by
  intro w hw
  have hdx := ascending_dx_pos x hasc
  have hbr : ∀ i, i < x.length - 1 → w.br i = dx x i := by
    intro i hi
    rw [hw]
    exact assemble_br _ _ _ _ _ hi
  have hE : ∀ j, j + 1 < x.length - 2 → w.c0 j = dx x (j + 1) := by
    intro j hj
    rw [hw]
    exact assemble_c0 _ _ _ _ _ (by omega)
  have hD : ∀ j, j < x.length - 2 → w.c3 j = 2 * (dx x j + dx x (j + 1)) := by
    intro j hj
    rw [hw]
    exact assemble_c3 _ _ _ _ _ (by omega)
  have hp := pivot_pos w.c0 w.c3 (dx x) (x.length - 2) (fun j hj => hdx j (by omega)) hE hD
  refine ⟨?_, ?_, ?_, ?_⟩
  · intro i hi
    have h1 := hbr i hi
    have h2 := hdx i hi
    refine ⟨by rw [h1]; rfl, by rw [h1]; exact h2, rfl, ?_⟩
    rw [solve_br, h1]
    linarith
  · have h0 := hD 0 (by omega)
    have p0 := (hp 0 (by omega)).1
    simp only [pivot] at p0
    refine ⟨?_, p0⟩
    rw [h0]
    simp only [dx]
    ring
  · intro i h1 h2
    rw [forward_divisor w.c0 w.c3 w.c1 i h1]
    exact (hp i h2).1
  · intro j hj
    obtain ⟨f0, _, _⟩ := forward_loop_spec w.c0 w.c3 w.c1 (x.length - 3)
    have e : (solve x.length w).c0 j = cprime w.c0 w.c3 j := by
      simp only [solve]
      rw [f0 j, if_pos (by omega)]
    obtain ⟨c1, c2⟩ := (hp j (by omega)).2 (by omega)
    rw [e]
    exact ⟨c1, by linarith⟩

/-- Witness of C25: five points on a dynamic spline. -/
theorem no_division_by_zero_witness :
    ascending [(0 : ℚ), 1, 2, 3, 4] = true ∧ 3 ≤ [(0 : ℚ), 1, 2, 3, 4].length ∧
    ∀ w, w = assemble [(0 : ℚ), 1, 2, 3, 4].length
        (load (prepare none zero_cells zero_rows (init none zero_cells zero_rows)
          [(0 : ℚ), 1, 2, 3, 4].length)) [0, 1, 2, 3, 4] [0, 1, 0, 1, 0] →
      (∀ i, i < [(0 : ℚ), 1, 2, 3, 4].length - 1 →
        w.br i = elem [(0 : ℚ), 1, 2, 3, 4] (i + 1) - elem [(0 : ℚ), 1, 2, 3, 4] i ∧
        0 < w.br i ∧
        (solve [(0 : ℚ), 1, 2, 3, 4].length w).br i = w.br i ∧
        0 < 3 * (solve [(0 : ℚ), 1, 2, 3, 4].length w).br i) ∧
      (w.c3 0 = 2 * (elem [(0 : ℚ), 1, 2, 3, 4] 2 - elem [(0 : ℚ), 1, 2, 3, 4] 0) ∧
        0 < w.c3 0) ∧
      (∀ i, 1 ≤ i → i < [(0 : ℚ), 1, 2, 3, 4].length - 2 →
        0 < w.c3 i -
          (forward_loop w.c3 (i - 1)
            { c0 := Function.update w.c0 0 (w.c0 0 / w.c3 0),
              c1 := Function.update w.c1 1 (w.c1 1 / w.c3 0), l := w.c0 0 }).c0 (i - 1) *
          (forward_loop w.c3 (i - 1)
            { c0 := Function.update w.c0 0 (w.c0 0 / w.c3 0),
              c1 := Function.update w.c1 1 (w.c1 1 / w.c3 0), l := w.c0 0 }).l) ∧
      (∀ j, j + 3 < [(0 : ℚ), 1, 2, 3, 4].length →
        0 < (solve [(0 : ℚ), 1, 2, 3, 4].length w).c0 j ∧
        (solve [(0 : ℚ), 1, 2, 3, 4].length w).c0 j < 1 / 2) :=
  ⟨by decide, by decide,
    no_division_by_zero none zero_cells zero_rows _ _ _ (by decide) (by decide)⟩

end Spline

/-! ## The blocks `_SetSpline` takes -/

theorem inside_iff (e s l : Int) :
    Block.inside ⟨e, s, l⟩ = true ↔ 0 ≤ s ∧ 0 ≤ l ∧ s ≤ e - l := by
  simp only [Block.inside, decide_eq_true_eq]

theorem two_point_blocks_inside (n bs rows : Int) (h : 2 ≤ n) (hbs : n ≤ bs)
    (hrows : n - 1 ≤ rows) :
    ∀ b, b ∈ two_point_blocks n bs rows → b.inside = true := by
  simp only [two_point_blocks, List.forall_mem_cons, inside_iff,
    List.not_mem_nil, false_imp_iff, implies_true, and_true]
  omega

theorem assembly_blocks_inside (n bs rows : Int) (h : 4 ≤ n) (hbs : n ≤ bs)
    (hrows : n - 1 ≤ rows) :
    ∀ b, b ∈ assembly_blocks n bs rows → b.inside = true := by
  simp only [assembly_blocks, List.cons_append, List.nil_append, List.forall_mem_cons,
    inside_iff, List.not_mem_nil, false_imp_iff, implies_true, and_true]
  omega

theorem coefficient_blocks_inside (n bs rows : Int) (h : 3 ≤ n) (hbs : n ≤ bs)
    (hrows : n - 1 ≤ rows) :
    ∀ b, b ∈ coefficient_blocks n bs rows → b.inside = true := by
  simp only [coefficient_blocks, List.cons_append, List.nil_append, List.forall_mem_cons,
    inside_iff, List.not_mem_nil, false_imp_iff, implies_true, and_true]
  omega

theorem solve_blocks_inside (n rows : Int) (h : 3 ≤ n) (hrows : n - 1 ≤ rows) :
    ∀ b, b ∈ solve_blocks n rows → b.inside = true := by
  intro b hb
  simp only [solve_blocks, List.mem_append, List.mem_flatten, List.mem_map, List.mem_range,
    List.mem_reverse] at hb
  rcases hb with (hb | hb) | hb
  · revert b
    simp only [List.forall_mem_cons, inside_iff, List.not_mem_nil, false_imp_iff, implies_true,
      and_true]
    omega
  · obtain ⟨l, ⟨a, ha, rfl⟩, hbl⟩ := hb
    revert b
    simp only [forward_blocks, List.forall_mem_cons, inside_iff, List.not_mem_nil,
      false_imp_iff, implies_true, and_true]
    omega
  · obtain ⟨l, ⟨a, ha, rfl⟩, hbl⟩ := hb
    revert b
    simp only [backward_blocks, List.forall_mem_cons, inside_iff, List.not_mem_nil,
      false_imp_iff, implies_true, and_true]
    omega

/-- For two points, and for four or more, every block `_SetSpline` takes satisfies Eigen's
precondition, whatever storage at least as large as the input the spline has. -/
theorem blocks_inside (n bs rows : Int) (h : n = 2 ∨ 4 ≤ n) (hbs : n ≤ bs)
    (hrows : n - 1 ≤ rows) :
    ∀ b, b ∈ _SetSpline_blocks n bs rows → b.inside = true := by
  intro b hb
  simp only [_SetSpline_blocks, List.mem_append] at hb
  rcases hb with hb | hb
  · revert b
    simp only [List.forall_mem_cons, inside_iff, List.not_mem_nil, false_imp_iff, implies_true,
      and_true]
    omega
  · by_cases h2 : n = 2
    · rw [if_pos h2] at hb
      exact two_point_blocks_inside n bs rows (by omega) hbs hrows b hb
    · rw [if_neg h2, List.mem_append, List.mem_append] at hb
      rcases hb with (hb | hb) | hb
      · exact assembly_blocks_inside n bs rows (by omega) hbs hrows b hb
      · exact solve_blocks_inside n rows (by omega) hrows b hb
      · exact coefficient_blocks_inside n bs rows (by omega) hbs hrows b hb

/-- Claim C24 fails at `n = 3`: of the blocks `_SetSpline` takes for three points (on
storage of exactly 3 cells and 2 rows) three violate Eigen's precondition, the blocks
`_coeffs.col(3).segment(1,n-4)`, `x.segment(3,n-4)` and `x.segment(1,n-4)` of line 272,
whose length is `-1`. -/
theorem three_point_build_negative_block :
    (_SetSpline_blocks 3 3 2).filter (fun b => !b.inside) =
      [⟨2, 1, -1⟩, ⟨3, 3, -1⟩, ⟨3, 1, -1⟩] := by
  decide

/-- Whatever the storage, the build for three points takes a block of length `-1`. -/
theorem three_point_blocks_outside (bs rows : Int) :
    (⟨rows, 1, -1⟩ : Block) ∈ _SetSpline_blocks 3 bs rows ∧
      Block.inside ⟨rows, 1, -1⟩ = false := by
  refine ⟨?_, by simp [Block.inside]⟩
  simp [_SetSpline_blocks, assembly_blocks]

namespace Spline

variable {F : Type} [LinearOrderedField F]

/-- `set` returns what `set_run` ends with, and nothing when an assertion fails. -/
theorem set_eq_run (BreaksSize : Option Nat) (ub : Nat → F) (uc : Nat → Nat → F)
    (s : Spline F) (x y : List F) :
    set BreaksSize ub uc s x y =
      match set_run BreaksSize ub uc s x y with
      | Except.ok r => some r
      | Except.error _ => none := by
  unfold set set_run _SetSpline
  by_cases h1 : _AssertSize BreaksSize x y = true
  · by_cases h2 : ascending x = true
    · simp only [h1, h2, if_true]
    · simp only [h1, h2, if_true]
      rfl
  · simp only [h1]
    rfl

/-- A call that fails `_AssertSize` ends with the members it started with. -/
theorem set_run_size_failure (BreaksSize : Option Nat) (ub : Nat → F) (uc : Nat → Nat → F)
    (s : Spline F) (x y : List F) (h : _AssertSize BreaksSize x y = false) :
    set_run BreaksSize ub uc s x y = Except.error s := by
  simp only [set_run, h]
  rfl

/-- A call that passes `_AssertSize` and fails the assertion of line 251 ends with
`_num_breaks = x.size()`, and on a dynamic spline with less storage than `x.size()` with
resized, uninitialised arrays. -/
theorem set_run_order_failure (BreaksSize : Option Nat) (ub : Nat → F) (uc : Nat → Nat → F)
    (s : Spline F) (x y : List F) (h : _AssertSize BreaksSize x y = true)
    (ha : ascending x = false) :
    ∃ r, set_run BreaksSize ub uc s x y = Except.error r ∧ r._num_breaks = x.length ∧
      (BreaksSize = none → s.breaks_size < x.length →
        r.breaks_size = x.length ∧ r.coeffs_rows = x.length - 1 ∧ r._breaks = ub ∧
          r._coeffs = uc) := by
  refine ⟨prepare BreaksSize ub uc s x.length, ?_, prepare_num_breaks _ _ _ _ _, ?_⟩
  · simp only [set_run, h, ha, if_true]
    rfl
  · intro hB hlt
    subst hB
    simp [prepare, hlt]

/-- Claim C21 fails: a dynamic spline built from `x = [0,1,2]`, `y = [0,1,0]` has
`num_breaks = 3`, three cells of breaks and `breaks[1] = 1`; the call
`set([0,2,1,3], [0,0,0,0])` fails the assertion of line 251, and at that point
`_num_breaks` is 4 and the arrays have been resized to 4 cells and 3 rows of fresh storage
(here holding 7), so `breaks[1]` reads 7. On a spline of fixed capacity 6 the same call
leaves the arrays alone and still overwrites `_num_breaks` with 4. -/
theorem rebuild_failure_changes_members :
    (∃ s r : Spline ℚ,
      construct none zero_cells zero_rows [0, 1, 2] [0, 1, 0] = some s ∧
      set none stale_cells stale_rows s [0, 2, 1, 3] [0, 0, 0, 0] = none ∧
      set_run none stale_cells stale_rows s [0, 2, 1, 3] [0, 0, 0, 0] = Except.error r ∧
      s._num_breaks = 3 ∧ r._num_breaks = 4 ∧
      s.breaks_size = 3 ∧ r.breaks_size = 4 ∧ s.coeffs_rows = 2 ∧ r.coeffs_rows = 3 ∧
      s._breaks 1 = 1 ∧ r._breaks 1 = 7 ∧ s._coeffs 0 3 = 0 ∧ r._coeffs 0 3 = 7) ∧
    (∃ s r : Spline ℚ,
      construct (some 6) zero_cells zero_rows [0, 1, 2] [0, 1, 0] = some s ∧
      set (some 6) stale_cells stale_rows s [0, 2, 1, 3] [0, 0, 0, 0] = none ∧
      set_run (some 6) stale_cells stale_rows s [0, 2, 1, 3] [0, 0, 0, 0] = Except.error r ∧
      s._num_breaks = 3 ∧ r._num_breaks = 4 ∧ r._breaks = s._breaks ∧
      r._coeffs = s._coeffs) := by
  refine ⟨⟨_, _, rfl, rfl, rfl, rfl, rfl, rfl, rfl, rfl, rfl, ?_, rfl, ?_, rfl⟩,
    ⟨_, _, rfl, rfl, rfl, rfl, rfl, rfl, rfl⟩⟩
  · norm_num [build, prepare, init, store, load, coefficients, solve, assemble, forward_loop,
      forward_step, backward_loop, backward_step, elem, Function.update, zero_cells, zero_rows]
  · norm_num [build, prepare, init, store, load, coefficients, solve, assemble, forward_loop,
      forward_step, backward_loop, backward_step, elem, Function.update, zero_cells, zero_rows]

end Spline

namespace Spline

variable {F : Type} [LinearOrderedField F]

/-- A strict local maximum of the derivative's quadratic at an offset `h` in `[0, x1 - x0)`
is the candidate the branches select. -/
theorem candidate_of_complete (sqrt : F → F) (a b c x0 x1 h : F)
    (hsq : SqrtAt sqrt (b * b - 3 * a * c)) (h0 : 0 ≤ h) (hD : x0 + h < x1)
    (hd : 3 * a * h ^ 2 + 2 * b * h + c = 0) (hdd : 6 * a * h + 2 * b < 0) :
    candidate_of sqrt a b c x0 x1 = some (x0 + h) := by
  unfold candidate_of
  simp only
  by_cases ha : a = 0
  · subst ha
    have hb : b < 0 := by linarith
    have hc : c ≥ 0 := by
      have : c = -(2 * b * h) := by linarith
      rw [this]
      have := mul_nonneg (show (0 : F) ≤ -(2 * b) by linarith) h0
      linarith
    have e : x0 - 1 / 2 * c / b = x0 + h := by
      have hbne : b ≠ 0 := ne_of_lt hb
      have : c = -(2 * b * h) := by linarith
      rw [this]
      field_simp
      ring
    rw [if_neg (not_not.mpr rfl), if_pos ⟨hb, hc⟩, e, if_pos hD]
  · have ht : 0 ≤ -(3 * a * h + b) := by linarith
    have hsqv : (-(3 * a * h + b)) * (-(3 * a * h + b)) = b * b - 3 * a * c := by
      linear_combination (3 * a) * hd
    have hs := sqrt_of_square sqrt _ _ ht hsqv hsq
    have hΔ : b * b - 3 * a * c > 0 := by
      rw [← hsqv]
      exact mul_pos (by linarith) (by linarith)
    have e : x0 - (b + sqrt (b * b - 3 * a * c)) / (3 * a) = x0 + h := by
      rw [hs]
      field_simp
      ring
    rw [if_pos ha, if_pos hΔ]
    by_cases hb : b ≥ 0
    · have han : a < 0 := by
        by_contra hcon
        have hap : 0 ≤ a := not_lt.mp hcon
        have := mul_nonneg (mul_nonneg (show (0 : F) ≤ 3 by norm_num) hap) h0
        linarith
      rw [if_pos hb, if_pos han, e, if_pos hD]
    · have hv : b + sqrt (b * b - 3 * a * c) = -(3 * a * h) := by rw [hs]; ring
      have hcond : (b + sqrt (b * b - 3 * a * c) ≥ 0 ∧ a < 0) ∨
          (b + sqrt (b * b - 3 * a * c) ≤ 0 ∧ a > 0) := by
        rw [hv]
        rcases lt_or_gt_of_ne ha with hn | hp
        · left
          refine ⟨?_, hn⟩
          have := mul_nonneg (show (0 : F) ≤ -(3 * a) by linarith) h0
          linarith
        · right
          refine ⟨?_, hp⟩
          have := mul_nonneg (show (0 : F) ≤ 3 * a by linarith) h0
          linarith
      rw [if_neg hb, if_pos hcond, e, if_pos hD]

/-- Claim C26: for every segment `i` with row `(a,b,c,d)`, with `std::sqrt` exact at the
discriminant, every offset `h` with `0 <= h < breaks[i+1] - breaks[i]` at which
`3*a*h^2 + 2*b*h + c = 0` and `6*a*h + 2*b < 0` is the one the sweep of `maxima` passes to
`Save`, as the abscissa `breaks[i] + h` with the value of the cubic there; so a second such
offset `k` equals `h`: the segment offers one candidate and misses none. -/
theorem sweep_complete (Size : Nat) (sqrt : F → F) (s : Spline F) (i : Nat)
    (M : CriticalPointArray F) (h : F)
    (hsq : SqrtAt sqrt (s._coeffs i 1 * s._coeffs i 1 - 3 * s._coeffs i 0 * s._coeffs i 2))
    (h0 : 0 ≤ h) (hD : h < s._breaks (i + 1) - s._breaks i)
    (hd : 3 * s._coeffs i 0 * h ^ 2 + 2 * s._coeffs i 1 * h + s._coeffs i 2 = 0)
    (hdd : 6 * s._coeffs i 0 * h + 2 * s._coeffs i 1 < 0) :
    segment_candidate sqrt s i = some (s._breaks i + h) ∧
    maxima_segment Size sqrt s i M =
      M.Save Size (s._breaks i + h) (cubic s (s._breaks i + h) i) ∧
    ∀ k : F, 0 ≤ k → k < s._breaks (i + 1) - s._breaks i →
      3 * s._coeffs i 0 * k ^ 2 + 2 * s._coeffs i 1 * k + s._coeffs i 2 = 0 →
      6 * s._coeffs i 0 * k + 2 * s._coeffs i 1 < 0 → k = h := by
  have hc : segment_candidate sqrt s i = some (s._breaks i + h) := by
    rw [segment_candidate_of]
    exact candidate_of_complete sqrt _ _ _ _ _ h hsq h0 (by linarith) hd hdd
  refine ⟨hc, maxima_segment_some Size sqrt s i M _ hc, ?_⟩
  intro k k0 kD kd kdd
  have hk : segment_candidate sqrt s i = some (s._breaks i + k) := by
    rw [segment_candidate_of]
    exact candidate_of_complete sqrt _ _ _ _ _ k hsq k0 (by linarith) kd kdd
  rw [hc] at hk
  have := Option.some.inj hk
  linarith

/-- Witness of C26: segment 1 of the spline through `(0,0),(1,1),(2,0)`, whose cubic has
its maximum at the left end, `h = 0`. -/
theorem sweep_complete_witness :
    ∃ s : Spline ℝ,
      construct none (fun _ => 0) (fun _ _ => 0) [0, 1, 2] [0, 1, 0] = some s ∧
      SqrtAt Real.sqrt (s._coeffs 1 1 * s._coeffs 1 1 - 3 * s._coeffs 1 0 * s._coeffs 1 2) ∧
      (0 : ℝ) ≤ 0 ∧ (0 : ℝ) < s._breaks (1 + 1) - s._breaks 1 ∧
      3 * s._coeffs 1 0 * (0 : ℝ) ^ 2 + 2 * s._coeffs 1 1 * 0 + s._coeffs 1 2 = 0 ∧
      6 * s._coeffs 1 0 * 0 + 2 * s._coeffs 1 1 < 0 ∧
      (segment_candidate Real.sqrt s 1 = some (s._breaks 1 + 0) ∧
        maxima_segment 2 Real.sqrt s 1 CriticalPointArray.Zero =
          CriticalPointArray.Zero.Save 2 (s._breaks 1 + 0) (cubic s (s._breaks 1 + 0) 1) ∧
        ∀ k : ℝ, 0 ≤ k → k < s._breaks (1 + 1) - s._breaks 1 →
          3 * s._coeffs 1 0 * k ^ 2 + 2 * s._coeffs 1 1 * k + s._coeffs 1 2 = 0 →
          6 * s._coeffs 1 0 * k + 2 * s._coeffs 1 1 < 0 → k = 0) := by
  obtain ⟨s1, h3, hb⟩ := construct_build none (fun _ => (0 : ℝ)) (fun _ _ => 0)
    [0, 1, 2] [0, 1, 0] rfl ascending_three
  obtain ⟨⟨_, b1, b2⟩, _, ⟨r10, r11, r12, _⟩⟩ := peak_rows s1 h3
  have hsq : SqrtAt Real.sqrt
      ((build s1 [0, 1, 2] [0, 1, 0])._coeffs 1 1 * (build s1 [0, 1, 2] [0, 1, 0])._coeffs 1 1 -
        3 * (build s1 [0, 1, 2] [0, 1, 0])._coeffs 1 0 *
          (build s1 [0, 1, 2] [0, 1, 0])._coeffs 1 2) :=
    real_sqrtAt _ (by rw [r10, r11, r12]; norm_num)
  have hD : (0 : ℝ) < (build s1 [0, 1, 2] [0, 1, 0])._breaks (1 + 1) -
      (build s1 [0, 1, 2] [0, 1, 0])._breaks 1 := by
    rw [b1, b2]; norm_num
  have hd : 3 * (build s1 [0, 1, 2] [0, 1, 0])._coeffs 1 0 * (0 : ℝ) ^ 2 +
      2 * (build s1 [0, 1, 2] [0, 1, 0])._coeffs 1 1 * 0 +
      (build s1 [0, 1, 2] [0, 1, 0])._coeffs 1 2 = 0 := by
    rw [r10, r11, r12]; norm_num
  have hdd : 6 * (build s1 [0, 1, 2] [0, 1, 0])._coeffs 1 0 * 0 +
      2 * (build s1 [0, 1, 2] [0, 1, 0])._coeffs 1 1 < 0 := by
    rw [r10, r11]; norm_num
  exact ⟨_, hb, hsq, le_refl _, hD, hd, hdd,
    sweep_complete 2 Real.sqrt _ 1 _ 0 hsq (le_refl _) hD hd hdd⟩

end Spline

/-! ## Independence of the storage -/

namespace Spline

variable {F : Type} [LinearOrderedField F]

/-- The modified super-diagonal up to step `N` depends on the sub-diagonal and the
diagonal up to `N` only. -/
theorem cprime_congr (E D E2 D2 : Nat → F) (N : Nat) (hE : ∀ k, k ≤ N → E k = E2 k)
    (hD : ∀ k, k ≤ N → D k = D2 k) :
    ∀ j, j ≤ N → cprime E D j = cprime E2 D2 j := by
  intro j
  induction j with
  | zero =>
    intro _
    simp only [cprime]
    rw [hE 0 (Nat.zero_le _), hD 0 (Nat.zero_le _)]
  | succ j ih =>
    intro hj
    simp only [cprime]
    rw [hE (j + 1) hj, hD (j + 1) hj, ih (by omega), hE j (by omega)]

/-- The modified right-hand side up to step `N` depends on the sub-diagonal below `N`,
the diagonal up to `N` and the right-hand side up to `N + 1` only. -/
theorem rprime_congr (E D C E2 D2 C2 : Nat → F) (N : Nat) (hE : ∀ k, k < N → E k = E2 k)
    (hD : ∀ k, k ≤ N → D k = D2 k) (hC : ∀ k, k ≤ N + 1 → C k = C2 k) :
    ∀ j, j ≤ N → rprime E D C j = rprime E2 D2 C2 j := by
  intro j
  induction j with
  | zero =>
    intro _
    simp only [rprime]
    rw [hC 1 (by omega), hD 0 (Nat.zero_le _)]
  | succ j ih =>
    intro hj
    have hc := cprime_congr E D E2 D2 j (fun k hk => hE k (by omega))
      (fun k hk => hD k (by omega)) j (le_refl _)
    simp only [rprime]
    rw [hC (j + 2) (by omega), ih (by omega), hE j (by omega), hD (j + 1) hj, hc]

/-- The solved column, rows `0..n-2`, depends only on the cells of the system that the
assembly sets: the sub-diagonal `c0` below row `n-3`, the diagonal `c3` up to row `n-3`
and the right-hand side `c1` up to row `n-2`. -/
theorem solved_column_congr (n : Nat) (w w2 : Work F) (hn : 3 ≤ n)
    (h0 : ∀ k, k + 3 < n → w.c0 k = w2.c0 k) (h3 : ∀ k, k + 3 ≤ n → w.c3 k = w2.c3 k)
    (h1 : ∀ k, k + 2 ≤ n → w.c1 k = w2.c1 k) :
    ∀ i, i + 2 ≤ n → (solve n w).c1 i = (solve n w2).c1 i := by
  obtain ⟨a0, _, a2, a3⟩ := solve_c1 n w hn
  obtain ⟨b0, _, b2, b3⟩ := solve_c1 n w2 hn
  have hr := rprime_congr w.c0 w.c3 w.c1 w2.c0 w2.c3 w2.c1 (n - 3)
    (fun k hk => h0 k (by omega)) (fun k hk => h3 k (by omega)) (fun k hk => h1 k (by omega))
  have hc : ∀ j, j < n - 3 → cprime w.c0 w.c3 j = cprime w2.c0 w2.c3 j := by
    intro j hj
    exact cprime_congr w.c0 w.c3 w2.c0 w2.c3 j (fun k hk => h0 k (by omega))
      (fun k hk => h3 k (by omega)) j (le_refl _)
  have down : ∀ m j, j + m = n - 3 → (solve n w).c1 (j + 1) = (solve n w2).c1 (j + 1) := by
    intro m
    induction m with
    | zero =>
      intro j hj
      have e : j + 1 = n - 2 := by omega
      rw [e, a2, b2]
      exact hr (n - 3) (le_refl _)
    | succ m ih =>
      intro j hj
      have hlt : j < n - 3 := by omega
      rw [a3 j hlt, b3 j hlt, hr j (by omega), hc j hlt, ih (j + 1) (by omega)]
  intro i hi
  rcases Nat.eq_zero_or_pos i with e | l
  · subst e
    rw [a0, b0]
    exact h1 0 (by omega)
  · obtain ⟨j, rfl⟩ : ∃ j, i = j + 1 := ⟨i - 1, by omega⟩
    exact down (n - 3 - j) j (by omega)

/-- Cell `n-3` of column 0, which the elimination reads and scales, is not set by the
assembly: it holds what the storage held. -/
theorem assemble_c0_unset (n : Nat) (w : Work F) (x y : List F) :
    (assemble n w x y).c0 (n - 3) = w.c0 (n - 3) := by
  simp only [assemble]
  rw [if_neg (lt_irrefl _)]

/-- With four or more points the elimination reads that cell: its last step scales the
value the storage held and writes it back (line 288). -/
theorem solve_scales_unset (n : Nat) (w : Work F) (x y : List F) (hn : 4 ≤ n) :
    (solve n (assemble n w x y)).c0 (n - 3) =
      w.c0 (n - 3) * (1 / ((assemble n w x y).c3 (n - 3) -
        cprime (assemble n w x y).c0 (assemble n w x y).c3 (n - 4) *
          (assemble n w x y).c0 (n - 4))) := by
  obtain ⟨m, rfl⟩ : ∃ m, n = m + 4 := ⟨n - 4, by omega⟩
  obtain ⟨f0, _, _⟩ := forward_loop_spec (assemble (m + 4) w x y).c0
    (assemble (m + 4) w x y).c3 (assemble (m + 4) w x y).c1 (m + 4 - 3)
  have e := f0 (m + 4 - 3)
  rw [if_pos (le_refl _)] at e
  simp only [solve]
  rw [e]
  have e3 : m + 4 - 3 = m + 1 := by omega
  have e4 : m + 4 - 4 = m := by omega
  rw [e3, e4]
  simp only [cprime]
  have e5 := assemble_c0_unset (m + 4) w x y
  rw [e3] at e5
  rw [e5]

/-- Column 1 of the built spline, rows `0..n-2`, is the same on any two storages. -/
theorem build_c1_congr (s s2 : Spline F) (x y : List F) (hn : 3 ≤ s._num_breaks)
    (he : s2._num_breaks = s._num_breaks) :
    ∀ i, i + 2 ≤ s._num_breaks → (build s x y)._coeffs i 1 = (build s2 x y)._coeffs i 1 := by
  intro i hi
  rw [build_c1 s x y hn, build_c1 s2 x y (by omega), he]
  refine solved_column_congr s._num_breaks _ _ hn ?_ ?_ ?_ i hi
  · intro k hk
    rw [assemble_c0 _ _ _ _ _ hk, assemble_c0 _ _ _ _ _ hk]
  · intro k hk
    rw [assemble_c3 _ _ _ _ _ hk, assemble_c3 _ _ _ _ _ hk]
  · intro k hk
    rcases Nat.eq_zero_or_pos k with e | l
    · subst e
      rw [assemble_c1_zero, assemble_c1_zero]
    · rw [assemble_c1 _ _ _ _ _ l hk, assemble_c1 _ _ _ _ _ l hk]

/-- Claim C31: for every `x`, `y` with `n >= 3` points that pass the assertions of `set`
on two splines, whatever their capacities and whatever their members and storage hold
before the call (fresh cells `ub`, `uc` or the arrays of an earlier build `s0`), both
calls build a spline, and the two results have the same `num_breaks = n`, the same `n`
breaks and the same `n-1` coefficient rows. -/
theorem build_independent_of_storage (BreaksSize BreaksSize2 : Option Nat)
    (ub ub2 : Nat → F) (uc uc2 : Nat → Nat → F) (s0 s02 : Spline F) (x y : List F)
    (hsize : _AssertSize BreaksSize x y = true) (hsize2 : _AssertSize BreaksSize2 x y = true)
    (hasc : ascending x = true) (hn : 3 ≤ x.length) :
    ∃ s s2, set BreaksSize ub uc s0 x y = some s ∧ set BreaksSize2 ub2 uc2 s02 x y = some s2 ∧
      s._num_breaks = x.length ∧ s2._num_breaks = x.length ∧
      (∀ i, i < x.length → s._breaks i = s2._breaks i) ∧
      (∀ i k, i < x.length - 1 → k < 4 → s._coeffs i k = s2._coeffs i k) := by
  refine ⟨_, _, set_eq_build BreaksSize ub uc s0 x y hsize hasc,
    set_eq_build BreaksSize2 ub2 uc2 s02 x y hsize2 hasc, ?_⟩
  have hnb := prepare_num_breaks BreaksSize ub uc s0 x.length
  have hnb2 := prepare_num_breaks BreaksSize2 ub2 uc2 s02 x.length
  generalize prepare BreaksSize ub uc s0 x.length = s at hnb
  generalize prepare BreaksSize2 ub2 uc2 s02 x.length = s2 at hnb2
  have hn3 : 3 ≤ s._num_breaks := by omega
  have hn32 : 3 ≤ s2._num_breaks := by omega
  have hB := build_c1_congr s s2 x y hn3 (by omega)
  refine ⟨by rw [build_num_breaks, hnb], by rw [build_num_breaks, hnb2], ?_, ?_⟩
  · intro i hi
    rw [build_breaks s x y i (by omega), build_breaks s2 x y i (by omega)]
  · intro i k hi hk
    obtain ⟨r0, r2, r3⟩ := build_row s x y hn3 i (by omega)
    obtain ⟨t0, t2, t3⟩ := build_row s2 x y hn32 i (by omega)
    have e1 := hB i (by omega)
    have enext : (if i + 2 < s._num_breaks then (build s x y)._coeffs (i + 1) 1 else 0) =
        (if i + 2 < s2._num_breaks then (build s2 x y)._coeffs (i + 1) 1 else 0) := by
      rw [hnb, hnb2]
      by_cases h : i + 2 < x.length
      · rw [if_pos h, if_pos h]
        exact hB (i + 1) (by omega)
      · rw [if_neg h, if_neg h]
    interval_cases k
    · rw [r0, t0, enext, e1]
    · exact e1
    · rw [r2, t2, enext, e1]
    · rw [r3, t3]

/-- Witness of C31: five points built on a fresh dynamic spline with zeroed cells and on a
spline of fixed capacity 6 whose storage holds 7 everywhere. -/
theorem build_independent_of_storage_witness :
    _AssertSize none [(0 : ℚ), 1, 2, 3, 4] [(0 : ℚ), 1, 0, 1, 0] = true ∧
    _AssertSize (some 6) [(0 : ℚ), 1, 2, 3, 4] [(0 : ℚ), 1, 0, 1, 0] = true ∧
    ascending [(0 : ℚ), 1, 2, 3, 4] = true ∧ 3 ≤ [(0 : ℚ), 1, 2, 3, 4].length ∧
    ∃ s s2,
      set none zero_cells zero_rows (init none zero_cells zero_rows)
        [0, 1, 2, 3, 4] [0, 1, 0, 1, 0] = some s ∧
      set (some 6) stale_cells stale_rows (init (some 6) stale_cells stale_rows)
        [0, 1, 2, 3, 4] [0, 1, 0, 1, 0] = some s2 ∧
      s._num_breaks = [(0 : ℚ), 1, 2, 3, 4].length ∧
      s2._num_breaks = [(0 : ℚ), 1, 2, 3, 4].length ∧
      (∀ i, i < [(0 : ℚ), 1, 2, 3, 4].length → s._breaks i = s2._breaks i) ∧
      (∀ i k, i < [(0 : ℚ), 1, 2, 3, 4].length - 1 → k < 4 →
        s._coeffs i k = s2._coeffs i k) :=
  ⟨by decide, by decide, by decide, by decide,
    build_independent_of_storage none (some 6) zero_cells stale_cells zero_rows stale_rows
      _ _ _ _ (by decide) (by decide) (by decide) (by decide)⟩

end Spline

end Spline

/-! # Theorems on `bytes.h` and `binaryIO.h` -/

namespace Binary

/-- The bytes of the integer assembled from a byte sequence are that sequence. -/
theorem uint_bytes_ofDigits (l : List Nat) (h : ∀ b, b ∈ l → b < 256) :
    uint_bytes l.length (Nat.ofDigits 256 l) = l := by
  induction l with
  | nil => rfl
  | cons a t ih =>
    have ha : a < 256 := h a (List.mem_cons_self _ _)
    have ht := ih (fun b hb => h b (List.mem_cons_of_mem _ hb))
    have e0 : (a + 256 * Nat.ofDigits 256 t) % 256 = a := by omega
    have es : ∀ i, (a + 256 * Nat.ofDigits 256 t) / 256 ^ (i + 1) % 256 =
        Nat.ofDigits 256 t / 256 ^ i % 256 := by
      intro i
      have : (a + 256 * Nat.ofDigits 256 t) / 256 = Nat.ofDigits 256 t := by omega
      rw [pow_succ', ← Nat.div_div_eq_div_mul, this]
    simp only [uint_bytes, List.length_cons, List.range_succ_eq_map, List.map_cons,
      List.map_map, Nat.ofDigits_cons, pow_zero, Nat.div_one]
    rw [e0]
    congr 1
    have : ((fun i => (a + 256 * Nat.ofDigits 256 t) / 256 ^ i % 256) ∘ Nat.succ) =
        fun i => Nat.ofDigits 256 t / 256 ^ i % 256 := by
      funext i
      exact es i
    rw [this]
    exact ht

/-- Swapping the integer of a byte sequence gives the integer of the reversed
sequence. -/
theorem bswap_ofDigits (l : List Nat) (h : ∀ b, b ∈ l → b < 256) :
    bswap l.length (Nat.ofDigits 256 l) = Nat.ofDigits 256 l.reverse := by
  rw [bswap, uint_bytes_ofDigits l h]

/-- On either machine, the bytes of the swapped integer are the reversed bytes. -/
theorem swapped_bytes (native : endian) (x : List Nat) (h : ∀ b, b ∈ x → b < 256) :
    bit_cast_bytes native x.length (bswap x.length (bit_cast_uint native x)) = x.reverse := by
  have hr : ∀ b, b ∈ x.reverse → b < 256 := fun b hb => h b (List.mem_reverse.mp hb)
  cases native with
  | little =>
    simp only [bit_cast_bytes, bit_cast_uint]
    rw [bswap_ofDigits x h]
    have := uint_bytes_ofDigits x.reverse hr
    rw [List.length_reverse] at this
    exact this
  | big =>
    simp only [bit_cast_bytes, bit_cast_uint]
    have e := bswap_ofDigits x.reverse hr
    rw [List.length_reverse, List.reverse_reverse] at e
    rw [e, uint_bytes_ofDigits x h]

/-- `reverseBytes` reverses the object representation. -/
theorem reverseBytes_eq (native : endian) (x : List Nat)
    (hw : x.length = 1 ∨ x.length = 2 ∨ x.length = 4 ∨ x.length = 8)
    (hb : ∀ b, b ∈ x → b < 256) :
    reverseBytes native x = some x.reverse := by
  have hs := swapped_bytes native x hb
  rcases hw with h | h | h | h
  · rw [reverseBytes, if_pos h]
    match x, h with
    | [a], _ => rfl
  · rw [h] at hs
    rw [reverseBytes, if_neg (by omega), if_pos h]
    simp only [byteswap, if_neg (show ¬ (2 = 1) by decide), if_true, Option.map_some', hs]
  · rw [h] at hs
    rw [reverseBytes, if_neg (by omega), if_neg (by omega), if_pos h]
    simp only [byteswap, if_neg (show ¬ (4 = 1) by decide), if_neg (show ¬ (4 = 2) by decide),
      if_true, Option.map_some', hs]
  · rw [h] at hs
    rw [reverseBytes, if_neg (by omega), if_neg (by omega), if_neg (by omega), if_pos h]
    simp only [byteswap, if_neg (show ¬ (8 = 1) by decide), if_neg (show ¬ (8 = 2) by decide),
      if_neg (show ¬ (8 = 4) by decide), if_true, Option.map_some', hs]

/-- Bytes written to a file that may be written, at the place the stream writes them, are
the bytes read back from that place. -/
theorem buffer_round_trip (f : BinaryFile) (position : Nat) (buffer : List Nat)
    (hR : f.mode_.Read = true) (hW : f.mode_.Write = true ∨ f.mode_.Append = true) :
    ∃ g h, write_buffer (seek f position) buffer = some g ∧
      g.pos = (if f.mode_.Append = true then f.bytes.length else position) + buffer.length ∧
      read_buffer (seek g (if f.mode_.Append = true then f.bytes.length else position))
        buffer.length = some (buffer, h) := by
  generalize hp : (if f.mode_.Append = true then f.bytes.length else position) = p
  have hlen : (f.bytes ++ List.replicate (p - f.bytes.length) 0).length ≥ p := by
    rw [List.length_append, List.length_replicate]
    omega
  have hw : write_buffer (seek f position) buffer =
      some { mode_ := f.mode_,
             bytes := (f.bytes ++ List.replicate (p - f.bytes.length) 0).take p ++ buffer ++
               (f.bytes ++ List.replicate (p - f.bytes.length) 0).drop (p + buffer.length),
             pos := p + buffer.length } := by
    simp only [write_buffer, seek, if_pos hW, hp]
  generalize f.bytes ++ List.replicate (p - f.bytes.length) 0 = old at hlen hw
  have hk : (old.take p).length = p := by
    rw [List.length_take]; omega
  refine ⟨_, ⟨f.mode_, old.take p ++ buffer ++ old.drop (p + buffer.length),
    p + buffer.length⟩, hw, rfl, ?_⟩
  have hfit : p + buffer.length ≤
      (old.take p ++ buffer ++ old.drop (p + buffer.length)).length := by
    rw [List.length_append, List.length_append, hk]
    omega
  simp only [read_buffer, seek]
  rw [if_pos ⟨hR, hfit⟩]
  have hd : (old.take p ++ buffer ++ old.drop (p + buffer.length)).drop p =
      buffer ++ old.drop (p + buffer.length) := by
    rw [List.append_assoc, List.drop_left' hk]
  rw [hd, List.take_left' rfl]

/-- Counterexample to C22: on an eight-byte file opened with `Read | Append`, the four-byte
scalar `[18, 52, 86, 120]` written natively after `seek(2)` is put at the end of the file,
and reading four bytes after `seek(2)` returns the old bytes `[3, 4, 5, 6]`, not the
scalar. -/
theorem append_round_trip_fails :
    write endian.little endian.little
        (seek (BinaryFile.mk ⟨true, false, true⟩ [1, 2, 3, 4, 5, 6, 7, 8] 0) 2)
        [18, 52, 86, 120] =
      some (BinaryFile.mk ⟨true, false, true⟩
        [1, 2, 3, 4, 5, 6, 7, 8, 18, 52, 86, 120] 12) ∧
    read endian.little endian.little
        (seek (BinaryFile.mk ⟨true, false, true⟩
          [1, 2, 3, 4, 5, 6, 7, 8, 18, 52, 86, 120] 12) 2) 4 =
      some ([3, 4, 5, 6], BinaryFile.mk ⟨true, false, true⟩
        [1, 2, 3, 4, 5, 6, 7, 8, 18, 52, 86, 120] 6) ∧
    ([3, 4, 5, 6] : List Nat) ≠ [18, 52, 86, 120] := by
  refine ⟨?_, ?_, by decide⟩
  · rfl
  · rfl

/-- Claim C22, as amended: for the object representation `x` of an arithmetic scalar of
1, 2, 4 or 8 bytes, on a machine of either byte order, `reverseBytes(x)` is `x` with its
bytes in reverse order, so `reverseBytes(reverseBytes(x)) = x`; on a file whose mode has
`Read` and one of `Write`, `Append`, `write<en>(x)` after `seek(position)` succeeds, and
`read<en>` returns `x`, for either `en`, when it reads from the same `position` if the mode
has no `Append`, and from the position that was the end of the file before the write if
the mode has `Append`; so does writing and reading back a trivially copyable record `r`
natively. -/
theorem binary_round_trip (native en : endian) (f : BinaryFile) (position : Nat)
    (x : List Nat) (hw : x.length = 1 ∨ x.length = 2 ∨ x.length = 4 ∨ x.length = 8)
    (hb : ∀ b, b ∈ x → b < 256) (hR : f.mode_.Read = true)
    (hW : f.mode_.Write = true ∨ f.mode_.Append = true) :
    reverseBytes native x = some x.reverse ∧
    (reverseBytes native x).bind (reverseBytes native) = some x ∧
    (∃ g h, write native en (seek f position) x = some g ∧
      read native en (seek g (if f.mode_.Append = true then f.bytes.length else position))
        x.length = some (x, h)) ∧
    (∀ r : List Nat, ∃ g h, write_record (seek f position) r = some g ∧
      read_record (seek g (if f.mode_.Append = true then f.bytes.length else position))
        r.length = some (r, h)) := by
  have hrev := reverseBytes_eq native x hw hb
  have hrev2 : reverseBytes native x.reverse = some x := by
    have := reverseBytes_eq native x.reverse (by rw [List.length_reverse]; exact hw)
      (fun b hb1 => hb b (List.mem_reverse.mp hb1))
    rw [List.reverse_reverse] at this
    exact this
  refine ⟨hrev, ?_, ?_, ?_⟩
  · rw [hrev]
    exact hrev2
  · by_cases he : en ≠ native
    · obtain ⟨g, h, h1, _, h3⟩ := buffer_round_trip f position x.reverse hR hW
      rw [List.length_reverse] at h3
      refine ⟨g, h, ?_, ?_⟩
      · simp only [write, if_pos he, hrev]
        exact h1
      · simp only [read, h3, if_pos he, hrev2]
        rfl
    · obtain ⟨g, h, h1, _, h3⟩ := buffer_round_trip f position x hR hW
      refine ⟨g, h, ?_, ?_⟩
      · simp only [write, if_neg he]
        exact h1
      · simp only [read, h3, if_neg he]
  · intro r
    obtain ⟨g, h, h1, _, h3⟩ := buffer_round_trip f position r hR hW
    exact ⟨g, h, h1, h3⟩

/-- Witness of C22: a four-byte scalar written big-endian on a little-endian machine at
position 2 of an eight-byte file opened with `Read | Write`. -/
theorem binary_round_trip_witness :
    (([18, 52, 86, 120] : List Nat).length = 1 ∨ ([18, 52, 86, 120] : List Nat).length = 2 ∨
      ([18, 52, 86, 120] : List Nat).length = 4 ∨ ([18, 52, 86, 120] : List Nat).length = 8) ∧
    (∀ b, b ∈ ([18, 52, 86, 120] : List Nat) → b < 256) ∧
    (BinaryFile.mk ⟨true, true, false⟩ [1, 2, 3, 4, 5, 6, 7, 8] 0).mode_.Read = true ∧
    ((BinaryFile.mk ⟨true, true, false⟩ [1, 2, 3, 4, 5, 6, 7, 8] 0).mode_.Write = true ∨
      (BinaryFile.mk ⟨true, true, false⟩ [1, 2, 3, 4, 5, 6, 7, 8] 0).mode_.Append = true) ∧
    reverseBytes endian.little [18, 52, 86, 120] = some ([18, 52, 86, 120] : List Nat).reverse ∧
    (reverseBytes endian.little [18, 52, 86, 120]).bind (reverseBytes endian.little) =
      some [18, 52, 86, 120] ∧
    (∃ g h, write endian.little endian.big
        (seek (BinaryFile.mk ⟨true, true, false⟩ [1, 2, 3, 4, 5, 6, 7, 8] 0) 2)
        [18, 52, 86, 120] = some g ∧
      read endian.little endian.big
        (seek g (if (BinaryFile.mk ⟨true, true, false⟩ [1, 2, 3, 4, 5, 6, 7, 8] 0).mode_.Append
            = true
          then (BinaryFile.mk ⟨true, true, false⟩ [1, 2, 3, 4, 5, 6, 7, 8] 0).bytes.length
          else 2))
        ([18, 52, 86, 120] : List Nat).length = some ([18, 52, 86, 120], h)) ∧
    (∀ r : List Nat, ∃ g h,
      write_record (seek (BinaryFile.mk ⟨true, true, false⟩ [1, 2, 3, 4, 5, 6, 7, 8] 0) 2) r =
        some g ∧
      read_record
        (seek g (if (BinaryFile.mk ⟨true, true, false⟩ [1, 2, 3, 4, 5, 6, 7, 8] 0).mode_.Append
            = true
          then (BinaryFile.mk ⟨true, true, false⟩ [1, 2, 3, 4, 5, 6, 7, 8] 0).bytes.length
          else 2))
        r.length = some (r, h)) :=
  ⟨by decide, by decide, rfl, Or.inl rfl,
    binary_round_trip endian.little endian.big _ 2 _ (by decide) (by decide) rfl (Or.inl rfl)⟩

end Binary
